import Mathlib

/-!
# SlimeTest TC substrate: Rule 110 stepper and Genome VM

A shallow embedding of `tc/tcGenomeRuntime.js`, `tc/tcRule110.js`,
`tc/tcInitializers.js` and the fixture harness `test/helpers/genomeHarness.js`,
followed by the properties proved about them.

Modelling conventions.
* A JavaScript number is a `JsNum`: a finite double is represented by the rational
  number it denotes, next to `NaN` and the two infinities.  Comparison, `Math.floor`
  and clamping are exact on doubles, so they are exact here as well.
* Storage chunks are passed explicitly: a stepper is a record of its chunks, and a
  phase maps the record before the call to the record after it.
* The ECMAScript built-ins `Number(...)` and `String.prototype.toUpperCase` are
  fields of a `JsHost`; every theorem quantifies over the host.
-/

namespace SlimeTC

/-! ## JavaScript values -/

/-- JavaScript number values; a finite double is the rational it denotes. -/
inductive JsNum where
  | finite (q : ℚ)
  | nan
  | posInf
  | negInf
deriving DecidableEq

/-- The JavaScript values that raw program descriptors and records are made of. -/
inductive JsVal where
  | undefined
  | null
  | bool (b : Bool)
  | num (n : JsNum)
  | str (s : String)
  | arr (items : List JsVal)
  | obj (fields : List (String × JsVal))

namespace JsNum

/-- The test `Number.isFinite(value)` on a number. -/
def isFinite : JsNum → Bool
  | finite _ => true
  | _ => false

/-- The relational operator `a < b` on numbers (`a > b` is `lt b a`); false when either is NaN. -/
def lt : JsNum → JsNum → Bool
  | finite a, finite b => decide (a < b)
  | finite _, posInf => true
  | negInf, finite _ => true
  | negInf, posInf => true
  | _, _ => false

/-- The function `Math.floor` on a number. -/
def floor : JsNum → JsNum
  | finite q => finite (⌊q⌋ : ℤ)
  | n => n

/-- Truthiness of a number: false for zero and NaN. -/
def truthy : JsNum → Bool
  | finite q => decide (q ≠ 0)
  | nan => false
  | _ => true

end JsNum

namespace JsVal

/-- Truthiness of a value, as tested by `!value`, `a || b` and `value ? x : y`. -/
def truthy : JsVal → Bool
  | undefined => false
  | null => false
  | bool b => b
  | num n => n.truthy
  | str s => s ≠ ""
  | arr _ => true
  | obj _ => true

/-- The expression `a || b`. -/
def or (a b : JsVal) : JsVal := if a.truthy then a else b

end JsVal

/-- Property read `object[key]` on the own fields of a plain object; `undefined` when absent. -/
def getProp (fields : List (String × JsVal)) (key : String) : JsVal :=
  (fields.lookup key).getD JsVal.undefined

/-- Element read `array[i]` on an array of values; `undefined` past the end. -/
def elemAt (items : List JsVal) (i : Nat) : JsVal := items.getD i JsVal.undefined

/-- Element read `array[i]` on an array of numbers, consumed by a numeric test: a missing
element reads as `undefined`, which `Number.isFinite` rejects exactly like NaN. -/
def numAt (items : List JsNum) (i : Nat) : JsNum := items.getD i JsNum.nan

/-! ## Double arithmetic -/

/-- The integer nearest to `x`; of two integers at the same distance, the even one. -/
def roundHalfEven (x : ℚ) : ℤ :=
  if x - ⌊x⌋ < 1 / 2 then ⌊x⌋
  else if 1 / 2 < x - ⌊x⌋ then ⌊x⌋ + 1
  else if ⌊x⌋ % 2 = 0 then ⌊x⌋ else ⌊x⌋ + 1

/-- The exponent `e` of the doubles around `q`: `2 ^ e ≤ |q| < 2 ^ (e + 1)`, and `-1022`
in the subnormal range, below which the spacing of the doubles does not shrink. -/
def binade (q : ℚ) : ℤ := max (Int.log 2 |q|) (-1022)

/-- The double nearest to the real number `q`, a tie going to the even significand: the
value of a JavaScript arithmetic operation whose exact result is `q`. A double has a
significand of 53 bits, so the doubles with exponent `e` are the multiples of
`2 ^ (e - 52)`. The overflow to `Infinity`, from `2 ^ 1024` on, is left out: `q` lies
between 0 and 1 where `compute` subtracts. -/
def roundDouble (q : ℚ) : ℚ :=
  (roundHalfEven (q / 2 ^ (binade q - 52)) : ℚ) * 2 ^ (binade q - 52)

/-! ## Opcodes -/

/-- The five opcodes of `OPCODES`. -/
inductive Opcode where
  | IF_HUNGER_GT
  | IF_CHI_LT
  | SET_EXPLORE
  | SET_BOND_THRESHOLD
  | GOTO
deriving DecidableEq, Repr

/-- The string value of an opcode in `OPCODES`. -/
def Opcode.name : Opcode → String
  | .IF_HUNGER_GT => "IF_HUNGER_GT"
  | .IF_CHI_LT => "IF_CHI_LT"
  | .SET_EXPLORE => "SET_EXPLORE"
  | .SET_BOND_THRESHOLD => "SET_BOND_THRESHOLD"
  | .GOTO => "GOTO"

/-- The list `GENOME_OPCODE_LIST`, in the order of `Object.values(OPCODES)`. -/
def GENOME_OPCODE_LIST : List Opcode :=
  [.IF_HUNGER_GT, .IF_CHI_LT, .SET_EXPLORE, .SET_BOND_THRESHOLD, .GOTO]

/-- The lookup `INSTRUCTION_SPECS[op]`: the opcode whose key is `op`, if any. -/
def specFor (op : String) : Option Opcode :=
  if op = "IF_HUNGER_GT" then some .IF_HUNGER_GT
  else if op = "IF_CHI_LT" then some .IF_CHI_LT
  else if op = "SET_EXPLORE" then some .SET_EXPLORE
  else if op = "SET_BOND_THRESHOLD" then some .SET_BOND_THRESHOLD
  else if op = "GOTO" then some .GOTO
  else none

/-- The ECMAScript built-ins called by the code: `Number(value)`, consulted for strings,
arrays and objects, whose conversion goes through the numeric-literal grammar, and
`String.prototype.toUpperCase`, which leaves a string of upper-case ASCII letters and
underscores as it is. -/
structure JsHost where
  toNumber : JsVal → JsNum
  toUpperCase : String → String
  upper_name : ∀ op : Opcode, toUpperCase op.name = op.name

/-- ASCII upper-casing of a string. -/
def asciiUpper (s : String) : String := String.mk (s.data.map Char.toUpper)

/-- The result of `Number(value)` on `undefined`, `null`, booleans and numbers. Strings,
arrays and objects, whose conversion goes through the numeric-literal grammar, read as NaN
in this host, so it stands for the built-in only on inputs without such values. -/
def primitiveToNumber : JsVal → JsNum
  | .undefined => .nan
  | .null => .finite 0
  | .bool b => .finite (if b then 1 else 0)
  | .num n => n
  | _ => .nan

/-- A concrete host, used to evaluate the code on concrete inputs. -/
def basicHost : JsHost where
  toNumber := primitiveToNumber
  toUpperCase := asciiUpper
  upper_name := by intro op; cases op <;> decide

/-! ## Numeric helpers of `tcGenomeRuntime.js` -/

/-- The helper `clamp(value, min, max)`; the bounds are finite constants at every call. -/
def clamp (value : JsNum) (lo hi : ℚ) : ℚ :=
  match value with
  | .finite v => if v < lo then lo else if v > hi then hi else v
  | _ => lo

/-- The helper `clamp01(value)`. -/
def clamp01 (value : JsNum) : ℚ := clamp value 0 1

/-- The helper `clampIndex(value, lastIndex)`. -/
def clampIndex (value : JsNum) (lastIndex : ℤ) : ℤ :=
  match value with
  | .finite v =>
    if lastIndex < 0 then 0
    else
      let maxIndex := max 0 lastIndex
      let normalized := ⌊v⌋
      if normalized < 0 then 0
      else if normalized > maxIndex then maxIndex
      else normalized
  | _ => 0

/-- The built-in `Number(value)`: `undefined` is NaN, `null` is 0, `false` and `true` are
0 and 1, a number is itself, and strings, arrays and objects are converted by the host. -/
def jsNumber (host : JsHost) : JsVal → JsNum
  | .undefined => .nan
  | .null => .finite 0
  | .bool b => .finite (if b then 1 else 0)
  | .num n => n
  | v => host.toNumber v

/-- The helper `toFiniteNumber(value, fallback)`. -/
def toFiniteNumber (host : JsHost) (value : JsVal) (fallback : ℚ) : ℚ :=
  let number := match value with
    | .num n => n
    | v => jsNumber host v
  match number with
  | .finite q => q
  | _ => fallback

/-- The constant `CONFIG.startChi` of `config.js`. -/
def startChi : ℚ := 15

/-- The constant `MAX_CHI_THRESHOLD = CONFIG.startChi * 4`. -/
def MAX_CHI_THRESHOLD : ℚ := startChi * 4

/-! ## Program normalization -/

/-- An instruction descriptor `{ op, args }` whose arguments are still raw values. -/
structure RawInstruction where
  op : Opcode
  args : List JsVal

/-- An instruction `{ op, args }` with numeric arguments. -/
structure Instruction where
  op : Opcode
  args : List JsNum
deriving DecidableEq

/-- The method `INSTRUCTION_SPECS[op].prepareArgs(args)`. -/
def prepareArgs (host : JsHost) (op : Opcode) (args : List JsVal) : List JsNum :=
  match op with
  | .IF_HUNGER_GT =>
    [.finite (toFiniteNumber host (elemAt args 0) 0), .finite (toFiniteNumber host (elemAt args 1) 0)]
  | .IF_CHI_LT =>
    [.finite (toFiniteNumber host (elemAt args 0) 0), .finite (toFiniteNumber host (elemAt args 1) 0)]
  | .SET_EXPLORE => [.finite (toFiniteNumber host (elemAt args 0) 0)]
  | .SET_BOND_THRESHOLD => [.finite (toFiniteNumber host (elemAt args 0) 0)]
  | .GOTO => [.finite (toFiniteNumber host (elemAt args 0) 0)]

/-- The method `INSTRUCTION_SPECS[op].finalizeArgs(prepared, { lastIndex })`. -/
def finalizeArgs (op : Opcode) (prepared : List JsNum) (lastIndex : ℤ) : List JsNum :=
  match op with
  | .IF_HUNGER_GT =>
    let threshold := clamp01 (numAt prepared 0)
    let target := clampIndex (numAt prepared 1) lastIndex
    [.finite threshold, .finite target]
  | .IF_CHI_LT =>
    let threshold := clamp (numAt prepared 0) 0 MAX_CHI_THRESHOLD
    let target := clampIndex (numAt prepared 1) lastIndex
    [.finite threshold, .finite target]
  | .SET_EXPLORE => [.finite (clamp01 (numAt prepared 0))]
  | .SET_BOND_THRESHOLD => [.finite (clamp01 (numAt prepared 0))]
  | .GOTO => [.finite (clampIndex (numAt prepared 0) lastIndex)]

/-- The opcode named by a descriptor's opcode input: `typeof opInput === 'string'`, then
`INSTRUCTION_SPECS[opInput.toUpperCase()]`. -/
def resolveOp (host : JsHost) (opInput : JsVal) : Option Opcode :=
  match opInput with
  | .str s => specFor (host.toUpperCase s)
  | _ => none

/-- The function `normalizeInstruction(rawInstruction)`; `none` is its `null`. -/
def normalizeInstruction (host : JsHost) (rawInstruction : JsVal) : Option RawInstruction :=
  if !rawInstruction.truthy then none
  else
    match rawInstruction with
    | .str s => (specFor (host.toUpperCase s)).map fun op => { op := op, args := [] }
    | .arr [] => none
    | .arr (opInput :: rest) => (resolveOp host opInput).map fun op => { op := op, args := rest }
    | .obj fields =>
      let opInput := ((getProp fields "op").or (getProp fields "instruction")).or (getProp fields "code")
      let args := match getProp fields "args" with
        | .arr items => items
        | _ => []
      (resolveOp host opInput).map fun op => { op := op, args := args }
    | _ => none

/-- The first loop of `normalizeGenomeProgram`: the recognised entries with prepared arguments. -/
def prepareEntries (host : JsHost) (entries : List JsVal) : List Instruction :=
  entries.filterMap fun entry =>
    (normalizeInstruction host entry).map fun normalized =>
      { op := normalized.op, args := prepareArgs host normalized.op normalized.args }

/-- The function `normalizeGenomeProgram(programInput)`. -/
def normalizeGenomeProgram (host : JsHost) (programInput : JsVal) : List Instruction :=
  match programInput with
  | .arr entries =>
    let prepared := prepareEntries host entries
    let lastIndex : ℤ := (prepared.length : ℤ) - 1
    prepared.map fun entry => { op := entry.op, args := finalizeArgs entry.op entry.args lastIndex }
  | _ => []

/-- A normalized instruction seen as a raw descriptor: the object `{ op, args }`. -/
def Instruction.toRaw (instruction : Instruction) : JsVal :=
  .obj [("op", .str instruction.op.name), ("args", .arr (instruction.args.map JsVal.num))]

/-- A program seen as a raw program input: the array of its instruction objects. -/
def programToRaw (program : List Instruction) : JsVal :=
  .arr (program.map Instruction.toRaw)

/-- The jump target of an instruction: the second argument of the two conditionals, the
first argument of `GOTO`, and nothing for the two setters. -/
def jumpTarget (instruction : Instruction) : Option JsNum :=
  match instruction.op with
  | .IF_HUNGER_GT => instruction.args[1]?
  | .IF_CHI_LT => instruction.args[1]?
  | .GOTO => instruction.args[0]?
  | _ => none

/-! ## Genome VM: chunks, records and contexts -/

/-- The state chunk `{ ip, halted, lastTick }`; `ensureStateChunk` keeps `ip` an integer. -/
structure GenomeState where
  ip : ℤ
  halted : Bool
  lastTick : ℤ
deriving DecidableEq

/-- The record `{ index, op, args }` of the instruction executed in a tick. -/
structure Executed where
  index : ℤ
  op : Opcode
  args : List JsNum
deriving DecidableEq

/-- The sparse map `biasUpdates`: each of its two keys is present or absent. -/
structure BiasUpdates where
  distress : Option JsNum
  bond : Option JsNum
deriving DecidableEq

/-- The buffer chunk `{ ipCurrent, nextIp, halted, executed, biasUpdates, canMutate }`. -/
structure GenomeBuffer where
  ipCurrent : ℤ
  nextIp : JsNum
  halted : Bool
  executed : Option Executed
  biasUpdates : BiasUpdates
  canMutate : Bool
deriving DecidableEq

/-- The closure variable `stateInfo`: `{ metadata, origin, manifestKey }`. -/
structure StateInfo where
  metadata : List (String × JsVal)
  origin : JsVal
  manifestKey : JsVal

/-- The three chunks of a Genome VM together with its `stateInfo`. -/
structure GenomeRuntime where
  state : GenomeState
  buffer : GenomeBuffer
  program : List Instruction
  info : StateInfo

/-- The object `bundle.interpretation_bias`: its two bias keys, each an own property or
absent, and its other fields. -/
structure BiasMap where
  distress : Option JsVal
  bond : Option JsVal
  rest : List (String × JsVal)

/-- The external agent record read and written by the Genome VM. `interpretation_bias` is
`none` when the record has no such field; `rest` holds the fields the VM never names. -/
structure Bundle where
  alive : JsVal
  hunger : JsVal
  chi : JsVal
  interpretation_bias : Option BiasMap
  rest : List (String × JsVal)

/-- The per-tick context: `ctx.tick` (absent when `none`), `ctx.dt` and `ctx.bundle`, the
record as it is when the phase is called. -/
structure TickContext where
  tick : Option ℤ
  dt : JsVal
  bundle : Option Bundle

/-- The snapshot payload built by `buildSnapshotPayload`, without its constant `type` key;
an optional key is `none` when the payload does not carry it. -/
structure GenomeSnapshot where
  tick : ℤ
  ip : ℤ
  nextIp : JsNum
  halted : Bool
  program : List Instruction
  executed : Option Executed
  biasUpdates : Option BiasUpdates
  origin : Option JsVal
  manifestKey : Option JsVal
  metadata : Option (List (String × JsVal))

/-- A value read by `Number.isFinite` and numeric comparison without coercion: whatever
is not of type number is rejected like NaN. -/
def asNumber : JsVal → JsNum
  | .num n => n
  | _ => .nan

/-- The expression `value ?? fallback` on a value. -/
def nullish (value fallback : JsVal) : JsVal :=
  match value with
  | .undefined => fallback
  | .null => fallback
  | v => v

/-- The object spread `{ ...a, ...b }` on field lists. -/
def spread (a b : List (String × JsVal)) : List (String × JsVal) :=
  a.map (fun kv => (kv.1, (b.lookup kv.1).getD kv.2)) ++
    b.filter (fun kv => !(a.any fun ka => ka.1 == kv.1))

/-- The helper `resetBuffer(buffer, state)`. -/
def resetBuffer (_buffer : GenomeBuffer) (state : GenomeState) : GenomeBuffer :=
  { ipCurrent := state.ip
    nextIp := .finite state.ip
    halted := state.halted
    executed := none
    canMutate := false
    biasUpdates := { distress := none, bond := none } }

/-- The helper `cloneInstruction(instruction)`. -/
def cloneInstruction (instruction : Instruction) : Instruction :=
  { op := instruction.op, args := instruction.args }

/-- The helper `buildSnapshotPayload(tick, state, buffer, program, info)`. -/
def buildSnapshotPayload (tick : ℤ) (state : GenomeState) (buffer : GenomeBuffer)
    (program : List Instruction) (info : StateInfo) : GenomeSnapshot :=
  { tick := tick
    ip := state.ip
    nextIp := buffer.nextIp
    halted := state.halted || buffer.halted
    program := program.map cloneInstruction
    executed := buffer.executed
    biasUpdates :=
      if buffer.biasUpdates.distress.isSome || buffer.biasUpdates.bond.isSome
      then some buffer.biasUpdates else none
    origin := if info.origin.truthy then some info.origin else none
    manifestKey := if info.manifestKey.truthy then some info.manifestKey else none
    metadata := if info.metadata.length > 0 then some info.metadata else none }

/-- The chunks `ensureChunks` creates on an empty storage. -/
def freshRuntime (info : StateInfo) : GenomeRuntime :=
  { state := { ip := 0, halted := true, lastTick := -1 }
    buffer :=
      { ipCurrent := 0, nextIp := .finite 0, halted := true, executed := none,
        biasUpdates := { distress := none, bond := none }, canMutate := false }
    program := []
    info := info }

/-- The `info` argument of `setProgram`; a key that is `undefined` is `none`. -/
structure ProgramInfo where
  metadata : Option (List (String × JsVal))
  origin : Option JsVal
  manifestKey : Option JsVal

/-- The method `setProgram(programSource, info)`. -/
def setProgram (host : JsHost) (programSource : JsVal) (info : ProgramInfo)
    (rt : GenomeRuntime) : GenomeRuntime :=
  let normalized := normalizeGenomeProgram host programSource
  let state : GenomeState := { ip := 0, halted := normalized.length == 0, lastTick := -1 }
  { state := state
    buffer := resetBuffer rt.buffer state
    program := normalized
    info :=
      { metadata := match info.metadata with
          | some m => spread rt.info.metadata m
          | none => rt.info.metadata
        origin := info.origin.getD rt.info.origin
        manifestKey := info.manifestKey.getD rt.info.manifestKey } }

/-- The call `setProgram(programSource)` with the default `info = {}`. -/
def noInfo : ProgramInfo := { metadata := none, origin := none, manifestKey := none }

/-- The `stateInfo` of a runtime created without metadata, origin or manifest key. -/
def defaultInfo : StateInfo := { metadata := [], origin := .null, manifestKey := .null }

/-- The function `createGenomeRuntime({ program })` on an empty storage, without an
initializer: a truthy `program` option is installed by `setProgram`. -/
def createGenomeRuntime (host : JsHost) (program : JsVal) : GenomeRuntime :=
  if program.truthy then setProgram host program noInfo (freshRuntime defaultInfo)
  else freshRuntime defaultInfo

/-- The method `getState()`. -/
def getState (rt : GenomeRuntime) : GenomeState :=
  { ip := rt.state.ip, halted := rt.state.halted, lastTick := rt.state.lastTick }

/-- The method `getProgram()`. -/
def getProgram (rt : GenomeRuntime) : List Instruction :=
  rt.program.map cloneInstruction

/-- The method `buildSnapshot(tick)`. -/
def buildSnapshot (tick : ℤ) (rt : GenomeRuntime) : GenomeSnapshot :=
  buildSnapshotPayload tick rt.state rt.buffer rt.program rt.info

/-! ## Genome VM: the three phases -/

/-- The method `capture(ctx)` without an `onCapture` callback: it resets the buffer. -/
def capture (_ctx : TickContext) (rt : GenomeRuntime) : GenomeRuntime :=
  { rt with buffer := resetBuffer rt.buffer rt.state }

/-- The early exits of `compute` for an empty program: state and buffer are halted and the
staged next-ip is the current ip. -/
def haltEmpty (rt : GenomeRuntime) : GenomeRuntime :=
  { rt with
    state := { rt.state with halted := true }
    buffer := { rt.buffer with halted := true, nextIp := .finite rt.state.ip } }

/-- The early exit of `compute` for a halted state. -/
def haltFrozen (rt : GenomeRuntime) : GenomeRuntime :=
  { rt with buffer := { rt.buffer with halted := true, nextIp := .finite rt.state.ip } }

/-- The early exits of `compute` for an ip outside the program or an absent instruction. -/
def haltOutOfRange (rt : GenomeRuntime) (lastIndex : ℤ) : GenomeRuntime :=
  { rt with
    state := { rt.state with halted := true }
    buffer :=
      { rt.buffer with
        halted := true
        nextIp := .finite (clampIndex (.finite rt.state.ip) lastIndex) } }

/-- The mutation gate `Boolean(bundle && bundle.alive !== false)`. -/
def canMutateOf (bundle : Option Bundle) : Bool :=
  match bundle with
  | none => false
  | some b =>
    match b.alive with
    | .bool false => false
    | _ => true

/-- The `switch (instruction.op)` of `compute`: the next ip and the bias updates after the
instruction, from the default next ip and the updates staged so far. -/
def execInstruction (host : JsHost) (bundle : Option Bundle) (instruction : Instruction)
    (nextIp : JsNum) (updates : BiasUpdates) : JsNum × BiasUpdates :=
  match instruction.op with
  | .IF_HUNGER_GT =>
    let threshold := (instruction.args[0]?).getD (.finite 0)
    let hunger : ℚ := match bundle with
      | some b => clamp01 (.finite (toFiniteNumber host b.hunger 0))
      | none => 0
    if JsNum.lt threshold (.finite hunger) then ((instruction.args[1]?).getD nextIp, updates)
    else (nextIp, updates)
  | .IF_CHI_LT =>
    let threshold := (instruction.args[0]?).getD (.finite 0)
    let chi : ℚ := match bundle with
      | some b => clamp (asNumber (nullish b.chi (.num (.finite 0)))) 0 MAX_CHI_THRESHOLD
      | none => 0
    if JsNum.lt (.finite chi) threshold then ((instruction.args[1]?).getD nextIp, updates)
    else (nextIp, updates)
  | .SET_EXPLORE =>
    let intensity := clamp01 ((instruction.args[0]?).getD (.finite 0))
    (nextIp, { updates with distress := some (.finite intensity) })
  | .SET_BOND_THRESHOLD =>
    let threshold := clamp01 ((instruction.args[0]?).getD (.finite 0))
    let conflictBias := clamp01 (.finite (roundDouble (1 - threshold)))
    (nextIp, { updates with bond := some (.finite conflictBias) })
  | .GOTO => ((instruction.args[0]?).getD nextIp, updates)

/-- The method `compute(ctx)`. -/
def compute (host : JsHost) (ctx : TickContext) (rt : GenomeRuntime) : GenomeRuntime :=
  let tick := ctx.tick.getD 0
  if rt.state.lastTick = tick then rt
  else if rt.program.length = 0 then haltEmpty rt
  else if rt.state.halted then haltFrozen rt
  else
    let lastIndex : ℤ := (rt.program.length : ℤ) - 1
    let ip := rt.state.ip
    if ip < 0 ∨ ip > lastIndex then haltOutOfRange rt lastIndex
    else
      match rt.program[ip.toNat]? with
      | none => haltOutOfRange rt lastIndex
      | some instruction =>
        let executed : Executed := { index := ip, op := instruction.op, args := instruction.args }
        let canMutate := canMutateOf ctx.bundle
        let step := execInstruction host ctx.bundle instruction (.finite (ip + 1)) rt.buffer.biasUpdates
        let nextIp := step.1
        let outOfRange := JsNum.lt nextIp (.finite 0) || JsNum.lt (.finite lastIndex) nextIp
        { rt with
          buffer :=
            { ipCurrent := ip
              executed := some executed
              biasUpdates := step.2
              halted := outOfRange
              nextIp :=
                if outOfRange then (if JsNum.lt nextIp (.finite 0) then .finite 0 else nextIp)
                else nextIp.floor
              canMutate := canMutate } }

/-- The object `{}` assigned to `bundle.interpretation_bias` when the record has none. -/
def emptyBias : BiasMap := { distress := none, bond := none, rest := [] }

/-- The gated writes of `commit` into the bias map: each staged key is copied on its own. -/
def applyBiasUpdates (updates : BiasUpdates) (bias : BiasMap) : BiasMap :=
  let bias1 := match updates.distress with
    | some d => { bias with distress := some (.num (.finite (clamp01 d))) }
    | none => bias
  match updates.bond with
  | some b => { bias1 with bond := some (.num (.finite (clamp01 b))) }
  | none => bias1

/-- The block of `commit` that touches the record: `interpretation_bias` is made an object,
then the staged keys are written when `buffer.canMutate` holds. -/
def commitBundle (buffer : GenomeBuffer) (bundle : Bundle) : Bundle :=
  let bias := bundle.interpretation_bias.getD emptyBias
  { bundle with
    interpretation_bias :=
      some (if buffer.canMutate then applyBiasUpdates buffer.biasUpdates bias else bias) }

/-- The method `commit(ctx)` without an `onCommit` callback: the runtime after the call and
the record of the context after the call. -/
def commit (ctx : TickContext) (rt : GenomeRuntime) : GenomeRuntime × Option Bundle :=
  let tick := ctx.tick.getD 0
  let nextIp : ℤ := match rt.buffer.nextIp with
    | .finite q => ⌊q⌋
    | _ => rt.state.ip
  let lastIndex : ℤ := (rt.program.length : ℤ) - 1
  let halted : Bool :=
    rt.buffer.halted || decide (nextIp < 0) || decide (nextIp > lastIndex) ||
      decide (rt.program.length = 0)
  ({ rt with
      state := { ip := nextIp, halted := halted, lastTick := tick }
      buffer := { rt.buffer with canMutate := false } },
   ctx.bundle.map (commitBundle rt.buffer))

/-- One tick of the VM: `capture`, then `compute`, then `commit`, on one context. -/
def genomeTick (host : JsHost) (ctx : TickContext) (rt : GenomeRuntime) :
    GenomeRuntime × Option Bundle :=
  commit ctx (compute host ctx (capture ctx rt))

/-- The tick index and delta time a driver puts in a tick context. -/
structure TickMeta where
  tick : Option ℤ
  dt : JsVal

/-- A run of ticks against one record: each tick reads the record as the previous commit
left it. The result is the runtime and the record after the last tick. -/
def runOnBundle (host : JsHost) : List TickMeta → GenomeRuntime → Bundle → GenomeRuntime × Bundle
  | [], rt, b => (rt, b)
  | m :: rest, rt, b =>
    let r := genomeTick host { tick := m.tick, dt := m.dt, bundle := some b } rt
    runOnBundle host rest r.1 (r.2.getD b)

/-- A run of ticks over arbitrary contexts; the result is the runtime after the last tick. -/
def runContexts (host : JsHost) : List TickContext → GenomeRuntime → GenomeRuntime
  | [], rt => rt
  | ctx :: rest, rt => runContexts host rest (genomeTick host ctx rt).1

/-- The own property `interpretation_bias.distress` of a record, if there is one. -/
def Bundle.distress (b : Bundle) : Option JsVal := b.interpretation_bias.bind BiasMap.distress

/-- The own property `interpretation_bias.bond` of a record, if there is one. -/
def Bundle.bond (b : Bundle) : Option JsVal := b.interpretation_bias.bind BiasMap.bond

/-! ## Rule 110 stepper -/

/-- The table `RULE_TABLE`, indexed by the neighbourhood `(left << 2) | (center << 1) | right`. -/
def RULE_TABLE : List Nat := [0, 1, 1, 1, 0, 1, 1, 0]

/-- The pattern `ETHER_PATTERN` of `tcInitializers.js`. -/
def ETHER_PATTERN : List Nat := [0, 0, 0, 1, 0, 0, 1, 1, 0, 1, 1, 1, 1, 0, 0, 0]

/-- The helper `fillPattern(width, pattern, phase)` for an integer phase; `%` is the
JavaScript remainder, which takes the sign of the dividend. -/
def fillPattern (width : Nat) (pattern : List Nat) (phase : ℤ) : List Nat :=
  let len : ℤ := pattern.length
  let offset : ℤ := Int.tmod (Int.tmod phase len + len) len
  (List.range width).map fun (i : ℕ) => pattern.getD (Int.tmod (offset + (i : ℤ)) len).toNat 0

/-- The cells returned by `rule110EtherInitializer(width, { phase })`. -/
def rule110EtherInitializer (width : Nat) (phase : ℤ) : List Nat :=
  fillPattern width ETHER_PATTERN phase

/-- The `cells` an initializer result or `setState` hands to `copyCells`: a falsy value, a
typed array with memory of its own, an array, a string, another iterable (by the values it
yields), an object that is none of these, or a typed array on the memory of the target
itself: `view start length` has `length` elements, element `i` being element `start + i`
of the target, so that the array `getState()` returns is `view 0 width` and
`getState().subarray(a, b)` is `view a (b - a)`. -/
inductive CellSource where
  | absent
  | typed (view : List Nat)
  | array (items : List JsVal)
  | string (s : String)
  | iterable (items : List JsVal)
  | other
  | view (start length : Nat)

/-- The source is a typed array on the memory of the target. -/
def CellSource.isView : CellSource → Bool
  | .view _ _ => true
  | _ => false

/-- The helper `toCellValue(value)`. -/
def toCellValue (value : JsVal) : Nat :=
  match value with
  | .str s => if s = "1" then 1 else 0
  | v => if v.truthy then 1 else 0

/-- A counted loop `for (i = 0; i < len; i++) target[i] = value(i)` on a typed array; a
write past the end of a typed array is ignored. -/
def writeLoop (len : Nat) (value : Nat → Nat) (target : List Nat) : List Nat :=
  (List.range len).foldl (fun t i => t.set i (value i)) target

/-- The loop `for (i = 0; i < len; i++) target[i] = view[i] ? 1 : 0` of `copyCells` when
`view` is a typed array on the memory of `target`, element `i` of the view being element
`start + i` of the target: every read sees the target as the writes so far have left it. -/
def aliasLoop (len start : Nat) (target : List Nat) : List Nat :=
  (List.range len).foldl
    (fun t i => t.set i (if t.getD (start + i) 0 ≠ 0 then 1 else 0)) target

/-- The helper `copyCells(target, source)`. A string is iterable, so a non-empty string is
copied by the iterable branch, one character per cell. The target is filled with 0 before
the source is read, so a source on the memory of the target is read after the fill. -/
def copyCells (target : List Nat) (source : CellSource) : List Nat :=
  let width := target.length
  let zeroed := List.replicate width 0
  match source with
  | .absent => zeroed
  | .typed view =>
    writeLoop (min width view.length) (fun i => if view.getD i 0 ≠ 0 then 1 else 0) zeroed
  | .array items =>
    writeLoop (min width items.length) (fun i => toCellValue (elemAt items i)) zeroed
  | .string s =>
    writeLoop (min width s.data.length)
      (fun i => toCellValue (.str (String.singleton (s.data.getD i (Char.ofNat 0))))) zeroed
  | .iterable items =>
    writeLoop (min width items.length) (fun i => toCellValue (elemAt items i)) zeroed
  | .other => zeroed
  | .view start length => aliasLoop (min width length) start zeroed

/-- The two chunks of a Rule 110 stepper, `current` and `buffer`, with its width. -/
structure Rule110Stepper where
  width : Nat
  current : List Nat
  buffer : List Nat
deriving DecidableEq

/-- The function `createRule110Stepper({ width, initializer })` on an empty storage, by
the cells the initializer resolves to: both chunks are created with `width` zero cells,
then `applyInitializer` copies the cells into `current` and clears `buffer`. -/
def createRule110Stepper (width : Nat) (cells : CellSource) : Rule110Stepper :=
  { width := width
    current := copyCells (List.replicate width 0) cells
    buffer := List.replicate width 0 }

/-- The method `capture(ctx)` of the Rule 110 stepper: `buffer.fill(0)`. -/
def rule110Capture (_ctx : TickContext) (s : Rule110Stepper) : Rule110Stepper :=
  { s with buffer := List.replicate s.buffer.length 0 }

/-- The neighbourhood index computed for cell `i` in `compute`. -/
def ruleIndex (width : Nat) (current : List Nat) (i : Nat) : Nat :=
  let lastIndex := width - 1
  let left := if i = 0 then 0 else current.getD (i - 1) 0
  let center := current.getD i 0
  let right := if i = lastIndex then 0 else current.getD (i + 1) 0
  (left <<< 2) ||| (center <<< 1) ||| right

/-- The method `compute(ctx)` of the Rule 110 stepper: the loop over `i < width` that
writes `buffer[i] = RULE_TABLE[ruleIndex]`. -/
def rule110Compute (_ctx : TickContext) (s : Rule110Stepper) : Rule110Stepper :=
  { s with
    buffer := writeLoop s.width (fun i => RULE_TABLE.getD (ruleIndex s.width s.current i) 0) s.buffer }

/-- The method `commit(ctx)` of the Rule 110 stepper: `current.set(buffer)` overwrites the
first `buffer.length` cells of `current`. -/
def rule110Commit (_ctx : TickContext) (s : Rule110Stepper) : Rule110Stepper :=
  { s with current := s.buffer ++ s.current.drop s.buffer.length }

/-- One tick of the Rule 110 stepper: `capture`, then `compute`, then `commit`. -/
def rule110Tick (ctx : TickContext) (s : Rule110Stepper) : Rule110Stepper :=
  rule110Commit ctx (rule110Compute ctx (rule110Capture ctx s))

/-- The stepper after a run of ticks, one per context. -/
def rule110Run : List TickContext → Rule110Stepper → Rule110Stepper
  | [], s => s
  | ctx :: rest, s => rule110Run rest (rule110Tick ctx s)

/-- The cells read by `getState()` after each tick of a run, in order. -/
def rule110Trace : List TickContext → Rule110Stepper → List (List Nat)
  | [], _ => []
  | ctx :: rest, s => (rule110Tick ctx s).current :: rule110Trace rest (rule110Tick ctx s)

/-- Wolfram rule 110 on one neighbourhood, following the specification: the new cell is the
bit of the number 110 selected by the three-bit neighbourhood (left, center, right). -/
def wolfram110 (left center right : Nat) : Nat :=
  (110 / 2 ^ (4 * left + 2 * center + right)) % 2

/-- The zero-boundary Rule 110 step function of the specification: every cell is replaced
by rule 110 of its neighbourhood, a neighbour outside the array reading as 0. -/
def specRule110Step (cells : List Nat) : List Nat :=
  (List.range cells.length).map fun i =>
    wolfram110 (if i = 0 then 0 else cells.getD (i - 1) 0) (cells.getD i 0)
      (if i + 1 = cells.length then 0 else cells.getD (i + 1) 0)

/-- The tick context `{ tick: 0, dt: 1 }` of the first tick of a fixture run. -/
def firstTickContext : TickContext := { tick := some 0, dt := .num (.finite 1), bundle := none }

/-- The chunks of a stepper have its width and `current` holds 0/1 cells. -/
def Rule110Stepper.WellFormed (s : Rule110Stepper) : Prop :=
  s.current.length = s.width ∧ s.buffer.length = s.width ∧ ∀ c ∈ s.current, c = 0 ∨ c = 1

/-! ## Scheduler and fixture harness -/

/-- The phase handlers a stepper registers with the scheduler, as transformers of the
state `σ` the handlers act on. -/
structure Hooks (σ : Type) where
  capture : TickContext → σ → σ
  compute : TickContext → σ → σ
  commit : TickContext → σ → σ

/-- The three phase names accepted by `runPhase`. -/
inductive Phase where
  | capture
  | compute
  | commit
deriving DecidableEq

/-- Modelled from the spec: the scheduler `TcScheduler` of `tcStorage.js`, a file that is
not among the sources. It holds the process-wide `enabled` flag and the base seed set by
`configure`, and the ordered hook registry. -/
structure TcScheduler (σ : Type) where
  enabled : Bool
  baseSeed : JsVal
  hooks : List (Hooks σ)

/-- Modelled from the spec: `reset()` clears the hook registry. -/
def TcScheduler.reset {σ : Type} (s : TcScheduler σ) : TcScheduler σ :=
  { s with hooks := [] }

/-- Modelled from the spec: `configure({ enabled, baseSeed })` stores the flag that tells
a host loop whether to drive ticks, and the base seed. -/
def TcScheduler.configure {σ : Type} (s : TcScheduler σ) (enabled : Bool) (baseSeed : JsVal) :
    TcScheduler σ :=
  { s with enabled := enabled, baseSeed := baseSeed }

/-- Modelled from the spec: `registerHooks(hooks)` appends to the registry, so that hooks
execute in registration order. -/
def TcScheduler.registerHooks {σ : Type} (s : TcScheduler σ) (h : Hooks σ) : TcScheduler σ :=
  { s with hooks := s.hooks ++ [h] }

/-- Modelled from the spec: `runPhase(name, context)` invokes every registered hook's
handler for that phase, in registration order, passing the same context; it does not
consult `enabled`. -/
def TcScheduler.runPhase {σ : Type} (s : TcScheduler σ) (phase : Phase) (ctx : TickContext)
    (world : σ) : σ :=
  s.hooks.foldl
    (fun w h =>
      match phase with
      | .capture => h.capture ctx w
      | .compute => h.compute ctx w
      | .commit => h.commit ctx w)
    world

/-- Modelled from the spec: `beginTick(payload)` builds the context of one tick from the
payload; the steppers read its tick index, delta time and record. -/
def TcScheduler.beginTick {σ : Type} (_s : TcScheduler σ) (payload : TickContext) : TickContext :=
  { tick := payload.tick, dt := payload.dt, bundle := payload.bundle }

/-- Modelled from the spec: `endTick(context)` is a reserved finalization point and leaves
the state of the steppers as it is. -/
def TcScheduler.endTick {σ : Type} (_s : TcScheduler σ) (_ctx : TickContext) (world : σ) : σ :=
  world

/-- The hooks of `registerGenomeRuntime` in a world made of the runtime's chunks and the
one record the harness passes in every tick payload: `ctx.bundle` is that record as it is
when the handler runs. -/
def genomeHooks (host : JsHost) : Hooks (GenomeRuntime × Bundle) where
  capture := fun ctx w => (capture { ctx with bundle := some w.2 } w.1, w.2)
  compute := fun ctx w => (compute host { ctx with bundle := some w.2 } w.1, w.2)
  commit := fun ctx w =>
    let r := commit { ctx with bundle := some w.2 } w.1
    (r.1, r.2.getD w.2)

/-- The bundle descriptor `testCase.bundle` of a fixture case. -/
structure BundleSpec where
  alive : JsVal
  hunger : JsVal
  chi : JsVal
  interpretation_bias : Option (List (String × JsVal))

/-- A fixture case `{ label, seed, program, steps, bundle }`. -/
structure GenomeTestCase where
  label : String
  seed : JsVal
  program : JsVal
  steps : Nat
  bundle : BundleSpec

/-- The helper `ensureNumber(value, fallback)` of the harness. -/
def ensureNumber (value : JsVal) (fallback : JsNum) : JsVal :=
  match value with
  | .num n => .num n
  | _ => .num fallback

/-- The helper `buildInterpretationBias(bias)` of the harness. -/
def buildInterpretationBias (bias : Option (List (String × JsVal))) : BiasMap :=
  let fields := bias.getD []
  { distress := some (ensureNumber (getProp fields "distress") (.finite 0))
    bond := some (ensureNumber (getProp fields "bond") (.finite 0))
    rest := [] }

/-- The helper `buildBundle(spec)` of the harness. -/
def buildBundle (spec : BundleSpec) : Bundle :=
  { alive := match spec.alive with
      | .undefined => .bool true
      | v => .bool v.truthy
    hunger := ensureNumber spec.hunger (.finite 0)
    chi := ensureNumber spec.chi (.finite 0)
    interpretation_bias := some (buildInterpretationBias spec.interpretation_bias)
    rest := [] }

/-- The tick loop of `runGenomeFixtureCase`, from tick index `tick` for `steps` ticks: each
tick runs the three phases through the scheduler on the context `{ tick, dt: 1, bundle }`
and records the manifest that is hashed, the snapshot and the record's bias map. -/
def fixtureLoop (sched : TcScheduler (GenomeRuntime × Bundle)) :
    Nat → ℤ → GenomeRuntime × Bundle → List (GenomeSnapshot × Option BiasMap)
  | 0, _, _ => []
  | steps + 1, tick, world =>
    let context := sched.beginTick { tick := some tick, dt := .num (.finite 1), bundle := some world.2 }
    let w1 := sched.runPhase .capture context world
    let w2 := sched.runPhase .compute context w1
    let w3 := sched.runPhase .commit context w2
    let w4 := sched.endTick context w3
    (buildSnapshot tick w4.1, w4.2.interpretation_bias) :: fixtureLoop sched steps (tick + 1) w4

/-- The function `runGenomeFixtureCase(testCase, { enabled })` of the harness, returning
the manifests it hashes. The stepper is registered with the program of the case. -/
def runGenomeFixtureCase (host : JsHost) (testCase : GenomeTestCase) (enabled : Bool) :
    List (GenomeSnapshot × Option BiasMap) :=
  let sched0 : TcScheduler (GenomeRuntime × Bundle) :=
    { enabled := false, baseSeed := .num (.finite 0), hooks := [] }
  let sched1 := (sched0.reset).configure enabled (nullish testCase.seed (.num (.finite 0)))
  let bundle := buildBundle testCase.bundle
  let runtime := createGenomeRuntime host testCase.program
  let sched2 := sched1.registerHooks (genomeHooks host)
  fixtureLoop sched2 testCase.steps 0 (runtime, bundle)

/-- What a tick of the VM reads from a record: liveness, hunger, chi and the bias map. -/
def Bundle.inputs (b : Bundle) : JsVal × JsVal × JsVal × Option BiasMap :=
  (b.alive, b.hunger, b.chi, b.interpretation_bias)

/-- Two tick contexts carry the same tick index and records with the same liveness,
hunger, chi and bias map; `dt` and the other fields of the records are free. -/
def sameInputs (c1 c2 : TickContext) : Prop :=
  c1.tick = c2.tick ∧ c1.bundle.map Bundle.inputs = c2.bundle.map Bundle.inputs

/-- The observations of a run under direct phase invocation: after each tick, the snapshot
`buildSnapshot(tick)` and the bias map of the record the context carried. -/
def genomeTrace (host : JsHost) :
    List TickContext → GenomeRuntime → List (GenomeSnapshot × Option (Option BiasMap))
  | [], _ => []
  | ctx :: rest, rt =>
    let r := genomeTick host ctx rt
    (buildSnapshot (ctx.tick.getD 0) r.1, r.2.map fun b => b.interpretation_bias) ::
      genomeTrace host rest r.1

/-- The raw program `[{ op: 'GOTO', args: [1000] }]`. -/
def gotoThousand : JsVal :=
  .arr [.obj [("op", .str "GOTO"), ("args", .arr [.num (.finite 1000)])]]

/-- The raw program `[['GOTO', 1000]]`, in positional form. -/
def gotoThousandPositional : JsVal := .arr [.arr [.str "GOTO", .num (.finite 1000)]]

/-- A record of a dead agent that has no `interpretation_bias` field:
`{ alive: false, hunger: 0, chi: 0 }`. -/
def deadRecordNoBias : Bundle :=
  { alive := .bool false, hunger := .num (.finite 0), chi := .num (.finite 0),
    interpretation_bias := none, rest := [] }

/-- A record of a dead agent with bias values:
`{ alive: false, hunger: 1, chi: 0, interpretation_bias: { distress: 0, bond: 0 } }`. -/
def deadRecord : Bundle :=
  { alive := .bool false, hunger := .num (.finite 1), chi := .num (.finite 0),
    interpretation_bias :=
      some { distress := some (.num (.finite 0)), bond := some (.num (.finite 0)), rest := [] }
    rest := [] }

/-- The raw program `[{ op: 'SET_EXPLORE', args: [1] }, { op: 'SET_BOND_THRESHOLD', args: [0] }]`. -/
def exploreProgram : JsVal :=
  .arr [.obj [("op", .str "SET_EXPLORE"), ("args", .arr [.num (.finite 1)])],
    .obj [("op", .str "SET_BOND_THRESHOLD"), ("args", .arr [.num (.finite 0)])]]

/-- A record of a live agent:
`{ alive: true, hunger: 1, chi: 0, interpretation_bias: { distress: 0, bond: 0 } }`. -/
def liveRecord : Bundle :=
  { alive := .bool true, hunger := .num (.finite 1), chi := .num (.finite 0),
    interpretation_bias :=
      some { distress := some (.num (.finite 0)), bond := some (.num (.finite 0)), rest := [] }
    rest := [] }

/-- The record `liveRecord` with one more field, `id: 7`. -/
def liveRecordTagged : Bundle := { liveRecord with rest := [("id", .num (.finite 7))] }

/-- A fixture case running `exploreProgram` for three steps against a hungry live agent. -/
def exploreCase : GenomeTestCase :=
  { label := "explore", seed := .undefined, program := exploreProgram, steps := 3,
    bundle :=
      { alive := .undefined, hunger := .num (.finite 1), chi := .undefined,
        interpretation_bias := none } }

/-! ## Reachable states, accepted entries and example states -/

/-- The state of a runtime is consistent with its program: an empty program is halted and
a state that is not halted has its ip inside the program. `setProgram` and `commit` leave
such a state. -/
def GenomeRuntime.Consistent (rt : GenomeRuntime) : Prop :=
  (rt.program.length = 0 → rt.state.halted = true) ∧
    (rt.state.halted = false →
      0 ≤ rt.state.ip ∧ rt.state.ip ≤ (rt.program.length : ℤ) - 1)

/-- The opcode of an entry as the specification words it: a bare name, the first element
of an array, or the `op` field of an object, when it is one of the five opcode names. -/
def claimedOpcode (entry : JsVal) : Option Opcode :=
  match entry with
  | .str s => specFor s
  | .arr (.str s :: _) => specFor s
  | .obj fields =>
    match getProp fields "op" with
    | .str s => specFor s
    | _ => none
  | _ => none

/-- The opcode under which the code keeps an entry: the entry is truthy and its opcode
input, a bare name, the first element of an array, or `op || instruction || code` of an
object, is a string whose upper-cased form is one of the five opcode names. -/
def acceptedOpcode (host : JsHost) (entry : JsVal) : Option Opcode :=
  if entry.truthy then
    match entry with
    | .str s => specFor (host.toUpperCase s)
    | .arr (.str s :: _) => specFor (host.toUpperCase s)
    | .obj fields =>
      match ((getProp fields "op").or (getProp fields "instruction")).or (getProp fields "code") with
      | .str s => specFor (host.toUpperCase s)
      | _ => none
    | _ => none
  else none

/-- The number of arguments `prepareArgs` produces for an opcode. -/
def Opcode.arity : Opcode → Nat
  | .IF_HUNGER_GT => 2
  | .IF_CHI_LT => 2
  | _ => 1

/-- A runtime whose state chunk holds `{ ip: 5, halted: false, lastTick: -1 }` next to the
one-instruction program `GOTO(0)`: the ip lies outside the program. -/
def strayRuntime : GenomeRuntime :=
  { state := { ip := 5, halted := false, lastTick := -1 }
    buffer := resetBuffer
      { ipCurrent := 0, nextIp := .finite 0, halted := false, executed := none,
        biasUpdates := { distress := none, bond := none }, canMutate := false }
      { ip := 5, halted := false, lastTick := -1 }
    program := [{ op := .GOTO, args := [.finite 0] }]
    info := defaultInfo }

/-- A runtime whose state chunk holds `{ ip: 0, halted: false, lastTick: -1 }` next to an
empty program. -/
def unhaltedEmptyRuntime : GenomeRuntime :=
  { state := { ip := 0, halted := false, lastTick := -1 }
    buffer :=
      { ipCurrent := 0, nextIp := .finite 0, halted := false, executed := none,
        biasUpdates := { distress := none, bond := none }, canMutate := false }
    program := []
    info := defaultInfo }

/-- A halted runtime already stamped with tick 0 whose buffer chunk holds stale values:
`nextIp: 1`, `halted: false`. -/
def staleBufferRuntime : GenomeRuntime :=
  { state := { ip := 0, halted := true, lastTick := 0 }
    buffer :=
      { ipCurrent := 0, nextIp := .finite 1, halted := false, executed := none,
        biasUpdates := { distress := none, bond := none }, canMutate := false }
    program := [{ op := .GOTO, args := [.finite 0] }]
    info := defaultInfo }

/-- The buffer `compute` leaves when it executes `instruction` at the current ip: the part
of `compute` from `const executed = ...` to the end. -/
def stagedBuffer (host : JsHost) (ctx : TickContext) (rt : GenomeRuntime)
    (instruction : Instruction) : GenomeBuffer :=
  let ip := rt.state.ip
  let lastIndex : ℤ := (rt.program.length : ℤ) - 1
  let step := execInstruction host ctx.bundle instruction (.finite (ip + 1)) rt.buffer.biasUpdates
  let nextIp := step.1
  let outOfRange := JsNum.lt nextIp (.finite 0) || JsNum.lt (.finite lastIndex) nextIp
  { ipCurrent := ip
    executed := some { index := ip, op := instruction.op, args := instruction.args }
    biasUpdates := step.2
    halted := outOfRange
    nextIp :=
      if outOfRange then (if JsNum.lt nextIp (.finite 0) then .finite 0 else nextIp)
      else nextIp.floor
    canMutate := canMutateOf ctx.bundle }

/-- The call `compute(ctx)` executes `instruction`: the tick is not yet processed, the state
is not halted, and `instruction` is the instruction of the program at the current ip. -/
def GenomeRuntime.Executes (rt : GenomeRuntime) (ctx : TickContext) (instruction : Instruction) :
    Prop :=
  rt.state.lastTick ≠ ctx.tick.getD 0 ∧ rt.state.halted = false ∧ 0 ≤ rt.state.ip ∧
    rt.program[rt.state.ip.toNat]? = some instruction

instance (rt : GenomeRuntime) (ctx : TickContext) (instruction : Instruction) :
    Decidable (rt.Executes ctx instruction) := by
  unfold GenomeRuntime.Executes
  infer_instance

instance (rt : GenomeRuntime) : Decidable rt.Consistent := by
  unfold GenomeRuntime.Consistent
  infer_instance

/-- The raw program `[{ op: 'SET_BOND_THRESHOLD', args: [t] }]`. -/
def bondProgram (t : ℚ) : JsVal :=
  .arr [.obj [("op", .str "SET_BOND_THRESHOLD"), ("args", .arr [.num (.finite t)])]]

/-- The raw program
`[{ op: 'IF_HUNGER_GT', args: [0, 2] }, { op: 'IF_CHI_LT', args: [8, 0] }, 'SET_EXPLORE']`. -/
def branchProgram : JsVal :=
  .arr [.obj [("op", .str "IF_HUNGER_GT"), ("args", .arr [.num (.finite 0), .num (.finite 2)])],
    .obj [("op", .str "IF_CHI_LT"), ("args", .arr [.num (.finite 8), .num (.finite 0)])],
    .str "SET_EXPLORE"]

/-- The tick context `{ tick: 0, dt: 1, bundle: liveRecord }`. -/
def liveContext : TickContext :=
  { tick := some 0, dt := .num (.finite 1), bundle := some liveRecord }

/-! ## Program initializers -/

/-- The descriptor `{ program, origin, metadata }` a library initializer returns. -/
structure GenomeInitializerResult where
  program : List Instruction
  origin : String
  metadata : List (String × JsVal)

/-- The initializer `genomeEmptyInitializer()`. -/
def genomeEmptyInitializer : GenomeInitializerResult :=
  { program := [], origin := "empty", metadata := [("length", .num (.finite 0))] }

/-- The method `applyInitializer(init)` on the descriptor a library initializer returned:
`normalizeInitializerResult` passes program, origin and metadata on and gives a descriptor
without manifest key the key `null`; `setProgram` installs them. -/
def applyInitializer (host : JsHost) (result : GenomeInitializerResult) (rt : GenomeRuntime) :
    GenomeRuntime :=
  setProgram host (programToRaw result.program)
    { metadata := some result.metadata, origin := some (.str result.origin),
      manifestKey := some .null } rt

/-- One call of the generator returned by `createMulberry32`, on 32-bit patterns: the new
value of the closure variable `a` and the number returned, an unsigned 32-bit integer
divided by 4294967296. -/
def mulberry32 (a : ℕ) : ℕ × ℚ :=
  let a1 := (a + 0x6d2b79f5) % 4294967296
  let t0 := a1
  let t1 := ((t0 ^^^ (t0 >>> 15)) * (1 ||| t0)) % 4294967296
  let t2 := t1 ^^^ ((t1 + ((t1 ^^^ (t1 >>> 7)) * (61 ||| t1)) % 4294967296) % 4294967296)
  (a1, (((t2 ^^^ (t2 >>> 14)) % 4294967296 : ℕ) : ℚ) / 4294967296)

/-- The options `{ seed, minLength, maxLength, allowGoto, includeChi }` of
`genomeRandomInitializer`, with finite lengths. -/
structure RandomOptions where
  seed : JsVal
  minLength : ℚ
  maxLength : ℚ
  allowGoto : Bool
  includeChi : Bool

/-- The defaults of the options of `genomeRandomInitializer`, for a given seed. -/
def defaultRandomOptions (seed : JsVal) : RandomOptions :=
  { seed := seed, minLength := 3, maxLength := 9, allowGoto := true, includeChi := true }

/-- The `opcodePool` of `genomeRandomInitializer`. -/
def opcodePool (allowGoto includeChi : Bool) : List Opcode :=
  GENOME_OPCODE_LIST.filter fun op =>
    match op with
    | .GOTO => allowGoto
    | .IF_CHI_LT => includeChi
    | _ => true

/-- One iteration of the generation loop: the instruction pushed and the generator state
after the iteration. -/
def randomInstruction (pool : List Opcode) (lastIndex : ℤ) (a : ℕ) : Instruction × ℕ :=
  let pick := mulberry32 a
  let op := pool.getD ⌊pick.2 * (pool.length : ℚ)⌋.toNat .SET_EXPLORE
  match op with
  | .IF_HUNGER_GT =>
    let threshold := mulberry32 pick.1
    let target := mulberry32 threshold.1
    ({ op := .IF_HUNGER_GT,
       args := [.finite threshold.2, .finite (⌊target.2 * ((lastIndex : ℚ) + 1)⌋ : ℤ)] }, target.1)
  | .IF_CHI_LT =>
    let threshold := mulberry32 pick.1
    let target := mulberry32 threshold.1
    ({ op := .IF_CHI_LT,
       args := [.finite (threshold.2 * MAX_CHI_THRESHOLD),
         .finite (⌊target.2 * ((lastIndex : ℚ) + 1)⌋ : ℤ)] }, target.1)
  | .SET_BOND_THRESHOLD =>
    let threshold := mulberry32 pick.1
    ({ op := .SET_BOND_THRESHOLD, args := [.finite threshold.2] }, threshold.1)
  | .GOTO =>
    let target := mulberry32 pick.1
    ({ op := .GOTO, args := [.finite (⌊target.2 * ((lastIndex : ℚ) + 1)⌋ : ℤ)] }, target.1)
  | .SET_EXPLORE =>
    let intensity := mulberry32 pick.1
    ({ op := .SET_EXPLORE, args := [.finite intensity.2] }, intensity.1)

/-- The loop `for (let i = 0; i < length; i++)` of `genomeRandomInitializer`, by the
number of iterations left. -/
def randomLoop (pool : List Opcode) (lastIndex : ℤ) : ℕ → ℕ → List Instruction
  | 0, _ => []
  | n + 1, a =>
    let step := randomInstruction pool lastIndex a
    step.1 :: randomLoop pool lastIndex n step.2

/-- The length drawn by `genomeRandomInitializer` and the generator state after the draw,
from the bounds `min` and `max` and the initial generator state. -/
def randomLength (lo hi : ℤ) (a : ℕ) : ℤ × ℕ :=
  if lo = hi then (lo, a)
  else
    let draw := mulberry32 a
    (lo + ⌊draw.2 * (((hi - lo + 1 : ℤ)) : ℚ)⌋, draw.1)

/-- The initializer `genomeRandomInitializer(options)`. The function `mixSeed` of
`tcStorage.js` is not among the sources; `mixSeed seed label` stands for the 32-bit value
`mixSeed(seed, label) >>> 0` that seeds the generator. -/
def genomeRandomInitializer (mixSeed : JsVal → ℕ → ℕ) (options : RandomOptions) :
    GenomeInitializerResult :=
  let lo : ℤ := max 0 ⌊options.minLength⌋
  let hi : ℤ := max lo ⌊options.maxLength⌋
  let a0 := mixSeed options.seed 0x47534e4d % 4294967296
  let drawn := randomLength lo hi a0
  let length := drawn.1
  let pool := opcodePool options.allowGoto options.includeChi
  let lastIndex : ℤ := max 0 (length - 1)
  let program := randomLoop pool lastIndex length.toNat drawn.2
  { program := program
    origin := "prng"
    metadata :=
      [("seed", options.seed), ("length", .num (.finite (program.length : ℤ))),
        ("minLength", .num (.finite lo)), ("maxLength", .num (.finite hi)),
        ("allowGoto", .bool options.allowGoto), ("includeChi", .bool options.includeChi)] }

/-! ## Rule 110 initializers and `setState` -/

/-- The pattern `GLIDER_PATTERN` of `tcInitializers.js`. -/
def GLIDER_PATTERN : List Nat := [1, 1, 1, 1, 1, 0, 0, 0, 1, 0, 0, 1, 1, 0]

/-- The helper `clampOffset(offset, width)`. -/
def clampOffset (offset : JsNum) (width : ℕ) : ℤ :=
  match offset with
  | .finite q =>
    if q < 0 then 0
    else if q > (width : ℚ) - 1 then (width : ℤ) - 1
    else ⌊q⌋
  | _ => 0

/-- The helper `toUint8(value)`. -/
def toUint8 (value : Nat) : Nat := if value ≠ 0 then 1 else 0

/-- The loop of `overlayPattern`, from pattern index `i` with `n` iterations left: it stops
at the first index `begin + i` that is not below the width; a write at a negative index of
a typed array is ignored. -/
def overlayFrom (pattern : List Nat) (begin : ℤ) : ℕ → ℕ → List Nat → List Nat
  | _, 0, target => target
  | i, n + 1, target =>
    let idx : ℤ := begin + (i : ℤ)
    if idx ≥ (target.length : ℤ) then target
    else if idx < 0 then overlayFrom pattern begin (i + 1) n target
    else overlayFrom pattern begin (i + 1) n (target.set idx.toNat (toUint8 (pattern.getD i 0)))

/-- The helper `overlayPattern(target, pattern, start)`. -/
def overlayPattern (target pattern : List Nat) (start : JsNum) : List Nat :=
  let begin := clampOffset start target.length
  overlayFrom pattern begin 0 pattern.length target

/-- The descriptor `{ cells, origin, metadata }` a Rule 110 initializer returns. -/
structure Rule110InitializerResult where
  cells : List Nat
  origin : String
  metadata : List (String × JsVal)

/-- The descriptor returned by `rule110EtherInitializer(width, { phase })`. -/
def rule110EtherResult (width : ℕ) (phase : ℤ) : Rule110InitializerResult :=
  { cells := rule110EtherInitializer width phase
    origin := "ether"
    metadata := [("rule", .num (.finite 110)), ("phase", .num (.finite phase))] }

/-- The index `start` of `rule110GliderInitializer`: the centred position when the offset
is `null`, `none` here, and the clamped offset otherwise. -/
def gliderStart (width : ℕ) (offset : Option JsNum) : ℤ :=
  match offset with
  | none => max 0 (((width / 2 : ℕ) : ℤ) - ((GLIDER_PATTERN.length / 2 : ℕ) : ℤ))
  | some o => clampOffset o width

/-- The initializer `rule110GliderInitializer(width, { phase, offset })`. -/
def rule110GliderInitializer (width : ℕ) (phase : ℤ) (offset : Option JsNum) :
    Rule110InitializerResult :=
  let base := fillPattern width ETHER_PATTERN phase
  let start := gliderStart width offset
  { cells := overlayPattern base GLIDER_PATTERN (.finite start)
    origin := "ether+glider"
    metadata :=
      [("rule", .num (.finite 110)), ("phase", .num (.finite phase)),
        ("offset", .num (.finite start))] }

/-- The loop of `rule110RandomInitializer`: `n` cells drawn one after the other from the
generator state `a`, a cell being 1 when the number drawn is below the density. -/
def randomCells (density : JsNum) : ℕ → ℕ → List Nat
  | 0, _ => []
  | n + 1, a =>
    let draw := mulberry32 a
    (if JsNum.lt (.finite draw.2) density then 1 else 0) :: randomCells density n draw.1

/-- The initializer `rule110RandomInitializer(width, { seed, density })`. The generator of
`createDeterministicRng` steps like the one of `createMulberry32`; `mixSeed seed label`
stands for the value `mixSeed(seed, label)` of the absent `tcStorage.js`. -/
def rule110RandomInitializer (mixSeed : JsVal → ℕ → ℕ) (width : ℕ) (seed : JsVal)
    (density : JsNum) : Rule110InitializerResult :=
  { cells := randomCells density width (mixSeed seed 0x6d2b79f5)
    origin := "prng"
    metadata := [("rule", .num (.finite 110)), ("seed", seed), ("density", .num density)] }

/-- The method `setState(cells)` of the Rule 110 stepper. -/
def rule110SetState (cells : CellSource) (s : Rule110Stepper) : Rule110Stepper :=
  { s with current := copyCells s.current cells, buffer := List.replicate s.buffer.length 0 }

/-- A call a driver makes on a Rule 110 stepper: one tick or `setState(cells)`. -/
inductive Rule110Call where
  | tick (ctx : TickContext)
  | setState (cells : CellSource)

/-- The stepper after a sequence of calls. -/
def rule110Calls : List Rule110Call → Rule110Stepper → Rule110Stepper
  | [], s => s
  | .tick ctx :: rest, s => rule110Calls rest (rule110Tick ctx s)
  | .setState cells :: rest, s => rule110Calls rest (rule110SetState cells s)

/-- The 0/1 reading of the elements of a `setState` or initializer input as they are when
the call is made, following the specification: every element of the input is read as one
cell, and an input that is neither a sequence nor a string has no elements. The elements of
a typed array on the memory of the stepper are those of `current`, the state at the call. -/
def specCellValues (current : List Nat) : CellSource → List Nat
  | .absent => []
  | .typed view => view.map fun v => if v ≠ 0 then 1 else 0
  | .array items => items.map toCellValue
  | .string s => s.data.map fun c => toCellValue (.str (String.singleton c))
  | .iterable items => items.map toCellValue
  | .other => []
  | .view start length => ((current.drop start).take length).map fun v => if v ≠ 0 then 1 else 0

/-- The fixed-width state of the specification: input longer than `width` is truncated and
shorter input is padded with 0. -/
def specTruncatePad (width : Nat) (values : List Nat) : List Nat :=
  values.take width ++ List.replicate (width - values.length) 0

/-! ## Overlay store -/

/-- An entry of the overlay store: the argument of `recordSnapshot(entry)` and the record
the store keeps. `metadata` and `summary` are `none` when falsy, else the fields of the
object. -/
structure OverlayEntry where
  type : JsVal
  tick : JsVal
  manifestKey : JsVal
  origin : JsVal
  metadata : Option (List (String × JsVal))
  summary : Option (List (String × JsVal))
  timestamp : JsVal

/-- The object `this.configuration` of the overlay store. -/
structure OverlayConfiguration where
  corner : JsVal
  opacity : JsVal
  width : JsVal
  lineHeight : JsVal

/-- The fields of the class `OverlayStore`. -/
structure OverlayStore where
  enabled : Bool
  maxEntries : JsNum
  entries : List OverlayEntry
  configuration : OverlayConfiguration

/-- The store built by the constructor of `OverlayStore`. -/
def OverlayStore.initial : OverlayStore :=
  { enabled := false
    maxEntries := .finite 6
    entries := []
    configuration :=
      { corner := .str "top-right", opacity := .num (.finite (85 / 100)),
        width := .num (.finite 320), lineHeight := .num (.finite 15) } }

/-- The options of `configure(options)`; a key that is `undefined` is `none`. -/
structure OverlayOptions where
  enabled : Option JsVal
  maxEntries : Option JsVal
  corner : Option JsVal
  opacity : Option JsVal
  width : Option JsVal
  lineHeight : Option JsVal

/-- The function `Math.max(1, x)`. -/
def mathMaxOne : JsNum → JsNum
  | .finite q => .finite (max 1 q)
  | .posInf => .posInf
  | .negInf => .finite 1
  | .nan => .nan

/-- The expression `Math.max(1, Math.floor(maxEntries || 1))` of `configure`; `Math.floor`
converts its argument with `Number(value)`, and NaN passes through `Math.floor` and
`Math.max`. -/
def normalizeMaxEntries (host : JsHost) (maxEntries : JsVal) : JsNum :=
  mathMaxOne (JsNum.floor (jsNumber host (maxEntries.or (.num (.finite 1)))))

/-- The statement `if (entries.length > maxEntries) entries.length = maxEntries`. -/
def truncateEntries (maxEntries : JsNum) (entries : List OverlayEntry) : List OverlayEntry :=
  if JsNum.lt maxEntries (.finite (entries.length : ℚ)) then
    match maxEntries with
    | .finite q => entries.take ⌊q⌋.toNat
    | _ => entries
  else entries

/-- The method `configure(options)`. -/
def OverlayStore.configure (host : JsHost) (options : OverlayOptions) (s : OverlayStore) :
    OverlayStore :=
  let enabled := (options.enabled.getD (.bool false)).truthy
  let maxEntries := normalizeMaxEntries host (options.maxEntries.getD (.num (.finite 6)))
  { enabled := enabled
    maxEntries := maxEntries
    configuration :=
      { corner := options.corner.getD (.str "top-right")
        opacity := options.opacity.getD (.num (.finite (85 / 100)))
        width := options.width.getD (.num (.finite 320))
        lineHeight := options.lineHeight.getD (.num (.finite 15)) }
    entries := if !enabled then [] else truncateEntries maxEntries s.entries }

/-- The method `recordSnapshot(entry)`; `now` is the value of `Date.now()` at the call. -/
def OverlayStore.recordSnapshot (entry : OverlayEntry) (now : JsVal) (s : OverlayStore) :
    OverlayStore :=
  if !s.enabled then s
  else if !entry.type.truthy then s
  else
    let normalized : OverlayEntry :=
      { type := entry.type
        tick := match entry.tick with
          | .num (.finite q) => .num (.finite (⌊q⌋ : ℤ))
          | _ => .num (.finite 0)
        manifestKey := nullish entry.manifestKey .null
        origin := nullish entry.origin .null
        metadata := entry.metadata
        summary := entry.summary
        timestamp := nullish entry.timestamp now }
    { s with entries := truncateEntries s.maxEntries (normalized :: s.entries) }

/-- The object `normalized` that `recordSnapshot(entry)` stores for an entry recorded when
`Date.now()` is `now`. -/
def storedEntry (entry : OverlayEntry) (now : JsVal) : OverlayEntry :=
  { type := entry.type
    tick := match entry.tick with
      | .num (.finite q) => .num (.finite (⌊q⌋ : ℤ))
      | _ => .num (.finite 0)
    manifestKey := nullish entry.manifestKey .null
    origin := nullish entry.origin .null
    metadata := entry.metadata
    summary := entry.summary
    timestamp := nullish entry.timestamp now }

/-- The method `clear()`. -/
def OverlayStore.clear (s : OverlayStore) : OverlayStore := { s with entries := [] }

/-- The method `getEntries()`. -/
def OverlayStore.getEntries (s : OverlayStore) : List OverlayEntry := s.entries

/-- A call on the overlay store. -/
inductive OverlayCall where
  | configure (options : OverlayOptions)
  | recordSnapshot (entry : OverlayEntry) (now : JsVal)
  | clear

/-- The store after a sequence of calls. -/
def overlayCalls (host : JsHost) : List OverlayCall → OverlayStore → OverlayStore
  | [], s => s
  | .configure options :: rest, s => overlayCalls host rest (s.configure host options)
  | .recordSnapshot entry now :: rest, s => overlayCalls host rest (s.recordSnapshot entry now)
  | .clear :: rest, s => overlayCalls host rest s.clear

/-- The `maxEntries` a call of `configure` is given is absent, falsy, or a value that
`Number(value)` converts to a number; the other calls take no `maxEntries`. -/
def OverlayCall.numericMax (host : JsHost) : OverlayCall → Prop
  | .configure options =>
    ∀ v : JsVal, options.maxEntries = some v → v.truthy = true → jsNumber host v ≠ .nan
  | _ => True

/-- The bound of the overlay store: `maxEntries` is an integer of at least 1 that the number
of entries does not exceed, or it is `Infinity`; and a disabled store has no entries. -/
def OverlayStore.Bounded (s : OverlayStore) : Prop :=
  ((∃ m : ℤ, 1 ≤ m ∧ s.maxEntries = .finite (m : ℚ) ∧ (s.entries.length : ℤ) ≤ m) ∨
      s.maxEntries = .posInf) ∧
    (s.enabled = false → s.entries = [])

/-- The calls `recordSnapshot(entry)` of a list of entries, each with the value of
`Date.now()` at its call, in order. -/
def recordAll (records : List (OverlayEntry × JsVal)) : List OverlayCall :=
  records.map fun r => OverlayCall.recordSnapshot r.1 r.2

/-- The entry `{ type: name, tick }`. -/
def sampleEntry (name : String) (tick : ℚ) : OverlayEntry :=
  { type := .str name, tick := .num (.finite tick), manifestKey := .undefined,
    origin := .undefined, metadata := none, summary := none, timestamp := .undefined }

/-- The options `{ enabled: true, maxEntries: 2 }` of `configure`. -/
def enabledOptions : OverlayOptions :=
  { enabled := some (.bool true), maxEntries := some (.num (.finite 2)), corner := none,
    opacity := none, width := none, lineHeight := none }

/-- The options `{ enabled: true, maxEntries: 'abc' }` of `configure`. -/
def nonNumericOptions : OverlayOptions :=
  { enabled := some (.bool true), maxEntries := some (.str "abc"), corner := none,
    opacity := none, width := none, lineHeight := none }

/-! ## Runtime manager -/

/-- The built-ins the runtime manager and the initializers call on their inputs:
`Number(value)` and `toUpperCase` as in `JsHost`, `String.prototype.toLowerCase`,
`String.prototype.trim`, and `mixSeed seed label` for the value `mixSeed(seed, label)` of
the absent `tcStorage.js`. -/
structure ManagerHost where
  js : JsHost
  toLowerCase : String → String
  trim : String → String
  mixSeed : JsVal → ℕ → ℕ

/-- The object `tcConfig.rule110`; a key that is absent reads `undefined`, and `hasOffset`
tells whether `offset` is an own property. -/
structure Rule110Block where
  width : JsVal
  initializer : JsVal
  phase : JsVal
  offset : JsVal
  hasOffset : Bool
  randomSeed : JsVal
  randomDensity : JsVal
  stateKey : JsVal
  bufferKey : JsVal
  snapshotKey : JsVal

/-- The block `{}` that `tcConfig.rule110 || {}` falls back to. -/
def emptyRule110Block : Rule110Block :=
  { width := .undefined, initializer := .undefined, phase := .undefined, offset := .undefined,
    hasOffset := false, randomSeed := .undefined, randomDensity := .undefined,
    stateKey := .undefined, bufferKey := .undefined, snapshotKey := .undefined }

/-- The argument `tcConfig` of `applyTcRuntimeConfig`: `rule110` is `none` when
`tcConfig.rule110` is falsy, and `snapshotCapture` is the value of
`tcConfig.snapshots?.rule110?.capture`. -/
structure TcConfig where
  enabled : JsVal
  mode : JsVal
  rule110 : Option Rule110Block
  snapshotCapture : JsVal

/-- The object `initializerOptions` of `buildRule110Spec`: `offset` is `none` when the key
is absent, `some none` when it is `null`, and `some (some n)` when it is the integer `n`. -/
structure Rule110InitializerOptions where
  phase : ℤ
  seed : ℤ
  density : ℚ
  offset : Option (Option ℤ)
deriving DecidableEq

/-- The object returned by `buildRule110Spec`. -/
structure Rule110Spec where
  width : ℤ
  initializer : String
  initializerOptions : Rule110InitializerOptions
  stateKey : String
  bufferKey : String
  snapshotKey : String
  captureSnapshots : Bool
deriving DecidableEq

/-- The object whose JSON text is the `signature` of `applyTcRuntimeConfig`; two signatures
are the same string exactly when these objects have the same fields. -/
structure Rule110Signature where
  width : ℤ
  initializer : String
  initializerOptions : Rule110InitializerOptions
  stateKey : String
  bufferKey : String
deriving DecidableEq

/-- The helper `clamp(value, min, max)` of `tcRuntimeManager.js`, on a finite value:
`Math.min(max, Math.max(min, value))`. -/
def managerClamp (value lo hi : ℚ) : ℚ := min hi (max lo value)

/-- The helper `toFiniteInt(value, fallback)` of `tcRuntimeManager.js`. -/
def toFiniteInt (host : JsHost) (value : JsVal) (fallback : ℚ) : ℤ :=
  ⌊toFiniteNumber host value fallback⌋

/-- The helper `toOptionalInt(value)` of `tcRuntimeManager.js`; `none` is `null`. -/
def toOptionalInt (host : JsHost) (value : JsVal) : Option ℤ :=
  match value with
  | .null => none
  | .undefined => none
  | .str "" => none
  | v =>
    match jsNumber host v with
    | .finite q => some ⌊q⌋
    | _ => none

/-- The helper `clamp01(value, fallback)` of `tcRuntimeManager.js`. -/
def managerClamp01 (host : JsHost) (value : JsVal) (fallback : ℚ) : ℚ :=
  managerClamp (toFiniteNumber host value fallback) 0 1

/-- The closure `normalizeKey(value, fallback)` of `buildRule110Spec`. -/
def normalizeKey (h : ManagerHost) (value : JsVal) (fallback : String) : String :=
  match value with
  | .str s => if (h.trim s).length > 0 then h.trim s else fallback
  | _ => fallback

/-- The constant `RULE110_DEFAULT_WIDTH`. -/
def RULE110_DEFAULT_WIDTH : ℚ := 256

/-- The function `buildRule110Spec(tcConfig)`. -/
def buildRule110Spec (h : ManagerHost) (tcConfig : TcConfig) : Rule110Spec :=
  let block := tcConfig.rule110.getD emptyRule110Block
  let width : ℤ :=
    min 4096 (max 8 ⌊toFiniteNumber h.js block.width RULE110_DEFAULT_WIDTH⌋)
  let initializer := match block.initializer with
    | .str s => h.toLowerCase s
    | _ => "ether"
  let phase := toFiniteInt h.js (nullish block.phase (.num (.finite 0))) 0
  let offset := toOptionalInt h.js block.offset
  let randomSeed := toFiniteInt h.js (nullish block.randomSeed (.num (.finite 0))) 0
  let randomDensity :=
    managerClamp01 h.js (nullish block.randomDensity (.num (.finite (1 / 2)))) (1 / 2)
  let offsetOption : Option (Option ℤ) :=
    match offset with
    | some n => some (some n)
    | none =>
      match block.hasOffset, block.offset with
      | true, .null => some none
      | _, _ => none
  { width := width
    initializer := initializer
    initializerOptions :=
      { phase := phase, seed := randomSeed, density := randomDensity, offset := offsetOption }
    stateKey := normalizeKey h block.stateKey "tc.rule110.state"
    bufferKey := normalizeKey h block.bufferKey "tc.rule110.next"
    snapshotKey := normalizeKey h block.snapshotKey "tc.rule110.snapshot"
    captureSnapshots := tcConfig.snapshotCapture.truthy }

/-- The function `resolveRule110Initializer(name, width, options)` on a name that is a
string. The table `RULE110_INITIALIZERS` is a plain object: under the key `constructor` it
yields `Object`, whose result carries no cells (`none` here), and under `__proto__` a
value that is not callable, so that the call throws. -/
def resolveRule110Initializer (h : ManagerHost) (name : String) (width : ℕ)
    (options : Rule110InitializerOptions) : Except String (Option Rule110InitializerResult) :=
  let key := h.toLowerCase name
  if key = "glider" then
    .ok (some (rule110GliderInitializer width options.phase
      (options.offset.join.map fun n => JsNum.finite (n : ℚ))))
  else if key = "random" then
    .ok (some (rule110RandomInitializer h.mixSeed width (.num (.finite options.seed))
      (.finite options.density)))
  else if key = "constructor" then .ok none
  else if key = "__proto__" then .error "TypeError: initializer is not a function"
  else .ok (some (rule110EtherResult width options.phase))

/-- A Rule 110 stepper object with the identity `id` that `===` compares. -/
structure ManagedStepper where
  id : ℕ
  stepper : Rule110Stepper
deriving DecidableEq

/-- The object `rule110RuntimeState` with what the module reaches outside itself: the
lines written by `console.error`, the global `window` (`none` when there is none) with the
identity of the stepper held by `window.rule110Stepper`, and the identity the next stepper
object gets. The stored `unsubscribe` is `none` when it is not a function, and otherwise
the outcome of calling it: it returns, or it throws the given error. -/
structure RuntimeManager where
  stepper : Option ManagedStepper
  unsubscribe : Option (Except String Unit)
  signature : Option Rule110Signature
  snapshotKey : String
  captureSnapshots : Bool
  console : List (String × String)
  window : Option (Option ℕ)
  nextId : ℕ

/-- The module state when `tcRuntimeManager.js` is loaded. -/
def initialRuntimeManager (window : Option (Option ℕ)) : RuntimeManager :=
  { stepper := none, unsubscribe := none, signature := none,
    snapshotKey := "tc.rule110.snapshot", captureSnapshots := false, console := [],
    window := window, nextId := 0 }

/-- The function `teardownRule110Runtime()`. The call of `unsubscribe` stands in a
`try` block whose `catch` writes the error to the console, so the function returns in
every case. -/
def teardownRule110Runtime (m : RuntimeManager) : RuntimeManager :=
  let console := match m.unsubscribe with
    | some (.error error) => m.console ++ [("Failed to tear down Rule 110 stepper:", error)]
    | _ => m.console
  let window := match m.window, m.stepper with
    | some (some held), some s => if held = s.id then some none else m.window
    | _, _ => m.window
  { m with stepper := none, unsubscribe := none, signature := none, console := console,
           window := window }

/-- The test `tcConfig.mode !== 'rule110'`, negated. -/
def isRule110Mode (mode : JsVal) : Bool :=
  match mode with
  | .str s => s = "rule110"
  | _ => false

/-- The function `registerRule110Stepper(options)` as `applyTcRuntimeConfig` calls it, with
distinct state and buffer keys: the stepper created from the named initializer. -/
def registerRule110Stepper (h : ManagerHost) (spec : Rule110Spec) : Except String Rule110Stepper :=
  match resolveRule110Initializer h spec.initializer spec.width.toNat spec.initializerOptions with
  | .error e => .error e
  | .ok (some result) => .ok (createRule110Stepper spec.width.toNat (.typed result.cells))
  | .ok none => .ok (createRule110Stepper spec.width.toNat .absent)

/-- The function `applyTcRuntimeConfig(tcConfig)`: the module state after the call, or the
error the call throws. `registered` is the outcome that calling the `unsubscribe` function
returned by `TcScheduler.registerHooks` will have. -/
def applyTcRuntimeConfig (h : ManagerHost) (tcConfig : TcConfig)
    (registered : Except String Unit) (m : RuntimeManager) : Except String RuntimeManager :=
  let spec := buildRule110Spec h tcConfig
  let m1 : RuntimeManager :=
    { m with captureSnapshots := spec.captureSnapshots, snapshotKey := spec.snapshotKey }
  if !tcConfig.enabled.truthy || !isRule110Mode tcConfig.mode then
    .ok (teardownRule110Runtime m1)
  else
    let signature : Rule110Signature :=
      { width := spec.width, initializer := spec.initializer,
        initializerOptions := spec.initializerOptions, stateKey := spec.stateKey,
        bufferKey := spec.bufferKey }
    if m1.signature = some signature ∧ m1.stepper.isSome then .ok m1
    else
      let m2 := teardownRule110Runtime m1
      match registerRule110Stepper h spec with
      | .error e => .error e
      | .ok stepper =>
        .ok { m2 with
              stepper := some { id := m2.nextId, stepper := stepper }
              unsubscribe := some registered
              signature := some signature
              window := m2.window.map fun _ => some m2.nextId
              nextId := m2.nextId + 1 }

/-- The function `getActiveRule110Stepper()`. -/
def getActiveRule110Stepper (m : RuntimeManager) : Option ManagedStepper := m.stepper

/-- A host with ASCII case mapping, `String.trim` and a constant `mixSeed`. -/
def basicManagerHost : ManagerHost :=
  { js := basicHost
    toLowerCase := fun s => String.mk (s.data.map Char.toLower)
    trim := String.trim
    mixSeed := fun _ _ => 12345 }

/-- A module state with an active stepper whose stored `unsubscribe` throws `boom`. -/
def failingTeardownManager : RuntimeManager :=
  { stepper := some { id := 0, stepper := createRule110Stepper 8 .absent }
    unsubscribe := some (.error "boom")
    signature := none
    snapshotKey := "tc.rule110.snapshot"
    captureSnapshots := false
    console := []
    window := some (some 0)
    nextId := 1 }

/-- The configuration `{ enabled: false, mode: 'rule110' }`. -/
def disabledConfig : TcConfig :=
  { enabled := .bool false, mode := .str "rule110", rule110 := none, snapshotCapture := .undefined }

/-! ## Genome VM: runs, staging traces and presets -/

/-- Every jump target of the program is an integer index of the program. -/
def JumpsInside (program : List Instruction) : Prop :=
  ∀ instruction ∈ program, ∀ t, jumpTarget instruction = some t →
    ∃ n : ℤ, t = .finite (n : ℚ) ∧ 0 ≤ n ∧ n ≤ (program.length : ℤ) - 1

/-- Two tick contexts carry the same tick index and records with the same hunger and chi;
the liveness and the bias map of the records, `dt` and the other fields are free. -/
def sameStaging (c1 c2 : TickContext) : Prop :=
  c1.tick = c2.tick ∧
    (c1.bundle.map fun b => (b.hunger, b.chi)) = (c2.bundle.map fun b => (b.hunger, b.chi))

/-- What a tick leaves to observe of its staging: the ip and the halted flag of the state
after `commit`, and the executed instruction and the bias updates of the buffer. -/
structure StagingRecord where
  ip : ℤ
  halted : Bool
  executed : Option Executed
  biasUpdates : BiasUpdates
deriving DecidableEq

/-- The staging observations of a run, one per tick. -/
def stagingTrace (host : JsHost) : List TickContext → GenomeRuntime → List StagingRecord
  | [], _ => []
  | ctx :: rest, rt =>
    let r := (genomeTick host ctx rt).1
    { ip := r.state.ip, halted := r.state.halted, executed := r.buffer.executed,
      biasUpdates := r.buffer.biasUpdates } :: stagingTrace host rest r

/-- The contexts of `k` ticks with the tick indices 0, 1, 2, ..., tick `i` carrying the
delta time `dts i` and the record `bundles i`. -/
def tickContexts (dts : ℕ → JsVal) (bundles : ℕ → Option Bundle) (k : ℕ) : List TickContext :=
  (List.range k).map fun (i : ℕ) => { tick := some (i : ℤ), dt := dts i, bundle := bundles i }

/-- The `program` of the preset `GENOME_PRESETS['hunger-loop']`, which the metadata of the
preset describes as: Loop that raises explore noise when hunger exceeds 60% and relaxes
bonds otherwise. -/
def hungerLoopPreset : JsVal :=
  .arr [.obj [("op", .str "SET_EXPLORE"), ("args", .arr [.num (.finite (1 / 4))])],
    .obj [("op", .str "IF_HUNGER_GT"), ("args", .arr [.num (.finite (3 / 5)), .num (.finite 3)])],
    .obj [("op", .str "SET_BOND_THRESHOLD"), ("args", .arr [.num (.finite (1 / 2))])],
    .obj [("op", .str "GOTO"), ("args", .arr [.num (.finite 1)])]]

/-- The `program` of the preset `GENOME_PRESETS['chi-branch']`, which the metadata of the
preset describes as: Keeps high exploration until chi recovers, then lowers bond threshold
to stay linked. -/
def chiBranchPreset : JsVal :=
  .arr [.obj [("op", .str "SET_EXPLORE"), ("args", .arr [.num (.finite (4 / 5))])],
    .obj [("op", .str "IF_CHI_LT"), ("args", .arr [.num (.finite 8), .num (.finite 3)])],
    .obj [("op", .str "GOTO"), ("args", .arr [.num (.finite 0)])],
    .obj [("op", .str "SET_BOND_THRESHOLD"), ("args", .arr [.num (.finite (1 / 5))])],
    .obj [("op", .str "GOTO"), ("args", .arr [.num (.finite 0)])]]

/-- The `program` of `GENOME_PRESETS[key]` for the two keys of the table. -/
def GENOME_PRESETS (key : String) : Option JsVal :=
  if key = "hunger-loop" then some hungerLoopPreset
  else if key = "chi-branch" then some chiBranchPreset
  else none

/-- The function `cloneInstructionList(program)`. -/
def cloneInstructionList (program : JsVal) : JsVal :=
  match program with
  | .arr entries =>
    .arr (entries.filterMap fun entry =>
      match entry with
      | .obj fields =>
        match getProp fields "op" with
        | .str op =>
          if op = "" then none
          else
            some (.obj [("op", .str op),
              ("args", match getProp fields "args" with
                | .arr items => .arr items
                | _ => .arr [])])
        | _ => none
      | _ => none)
  | _ => .arr []

/-- The instructions of the preset `hunger-loop`. -/
def hungerLoopProgram : List Instruction :=
  [{ op := .SET_EXPLORE, args := [.finite (1 / 4)] },
    { op := .IF_HUNGER_GT, args := [.finite (3 / 5), .finite 3] },
    { op := .SET_BOND_THRESHOLD, args := [.finite (1 / 2)] },
    { op := .GOTO, args := [.finite 1] }]

/-- The instructions of the preset `chi-branch`. -/
def chiBranchProgram : List Instruction :=
  [{ op := .SET_EXPLORE, args := [.finite (4 / 5)] },
    { op := .IF_CHI_LT, args := [.finite 8, .finite 3] },
    { op := .GOTO, args := [.finite 0] },
    { op := .SET_BOND_THRESHOLD, args := [.finite (1 / 5)] },
    { op := .GOTO, args := [.finite 0] }]

/-- A record of a live agent with the given hunger and chi and an empty bias map. -/
def recordWith (hunger chi : ℚ) : Bundle :=
  { alive := .bool true, hunger := .num (.finite hunger), chi := .num (.finite chi),
    interpretation_bias := some emptyBias, rest := [] }

/-! ## Normalization: theorems -/

theorem specFor_name (op : Opcode) : specFor op.name = some op := by
  cases op <;> decide

theorem clampIndex_bounds (value : JsNum) (lastIndex : ℤ) (h : 0 ≤ lastIndex) :
    0 ≤ clampIndex value lastIndex ∧ clampIndex value lastIndex ≤ lastIndex := by
  unfold clampIndex
  cases value with
  | finite v =>
    simp only
    have hmax : max 0 lastIndex = lastIndex := max_eq_right h
    rw [hmax]
    split_ifs <;> omega
  | nan => simpa using h
  | posInf => simpa using h
  | negInf => simpa using h

theorem finalizeArgs_jumpTarget (op : Opcode) (prepared : List JsNum) (lastIndex : ℤ)
    (h : 0 ≤ lastIndex) (hop : op = .IF_HUNGER_GT ∨ op = .IF_CHI_LT ∨ op = .GOTO) :
    ∃ t : ℤ, jumpTarget { op := op, args := finalizeArgs op prepared lastIndex } = some (.finite (t : ℚ)) ∧
      0 ≤ t ∧ t ≤ lastIndex := by
  rcases hop with rfl | rfl | rfl
  · exact ⟨clampIndex (numAt prepared 1) lastIndex, by simp [jumpTarget, finalizeArgs],
      clampIndex_bounds _ _ h⟩
  · exact ⟨clampIndex (numAt prepared 1) lastIndex, by simp [jumpTarget, finalizeArgs],
      clampIndex_bounds _ _ h⟩
  · exact ⟨clampIndex (numAt prepared 0) lastIndex, by simp [jumpTarget, finalizeArgs],
      clampIndex_bounds _ _ h⟩

theorem normalizeGenomeProgram_length (host : JsHost) (entries : List JsVal) :
    (normalizeGenomeProgram host (.arr entries)).length = (prepareEntries host entries).length := by
  simp [normalizeGenomeProgram]

/-- C1: every jump target of a normalized program is an integer in [0, length-1]. -/
theorem normalizeGenomeProgram_jump_targets_valid (host : JsHost) (programInput : JsVal)
    (instruction : Instruction)
    (hmem : instruction ∈ normalizeGenomeProgram host programInput)
    (hjump : instruction.op = .IF_HUNGER_GT ∨ instruction.op = .IF_CHI_LT ∨ instruction.op = .GOTO) :
    ∃ t : ℤ, jumpTarget instruction = some (.finite (t : ℚ)) ∧ 0 ≤ t ∧
      t ≤ ((normalizeGenomeProgram host programInput).length : ℤ) - 1 := by
  cases programInput with
  | arr entries =>
    rw [normalizeGenomeProgram_length]
    simp only [normalizeGenomeProgram, List.mem_map] at hmem
    obtain ⟨entry, hentry, rfl⟩ := hmem
    have hpos : 0 < (prepareEntries host entries).length := List.length_pos_of_mem hentry
    exact finalizeArgs_jumpTarget entry.op entry.args _ (by omega) hjump
  | undefined => simp [normalizeGenomeProgram] at hmem
  | null => simp [normalizeGenomeProgram] at hmem
  | bool b => simp [normalizeGenomeProgram] at hmem
  | num n => simp [normalizeGenomeProgram] at hmem
  | str s => simp [normalizeGenomeProgram] at hmem
  | obj f => simp [normalizeGenomeProgram] at hmem


theorem normalizeGenomeProgram_jump_targets_valid_witness :
    ∃ t : ℤ, jumpTarget { op := .GOTO, args := [.finite 0] } = some (.finite (t : ℚ)) ∧ 0 ≤ t ∧
      t ≤ ((normalizeGenomeProgram basicHost
        (.arr [.arr [.str "GOTO", .num (.finite 1000)]])).length : ℤ) - 1 :=
  normalizeGenomeProgram_jump_targets_valid basicHost
    (.arr [.arr [.str "GOTO", .num (.finite 1000)]]) { op := .GOTO, args := [.finite 0] }
    (by decide) (Or.inr (Or.inr rfl))

theorem clamp_bounds (value : JsNum) (lo hi : ℚ) (h : lo ≤ hi) :
    lo ≤ clamp value lo hi ∧ clamp value lo hi ≤ hi := by
  unfold clamp
  cases value with
  | finite v =>
    simp only
    split_ifs with h1 h2
    · exact ⟨le_refl _, h⟩
    · exact ⟨h, le_refl _⟩
    · exact ⟨not_lt.mp h1, not_lt.mp h2⟩
  | nan => exact ⟨le_refl _, h⟩
  | posInf => exact ⟨le_refl _, h⟩
  | negInf => exact ⟨le_refl _, h⟩

theorem clamp_of_mem (v lo hi : ℚ) (h1 : lo ≤ v) (h2 : v ≤ hi) : clamp (.finite v) lo hi = v := by
  simp [clamp, not_lt.mpr h1, not_lt.mpr h2]

theorem clamp_idem (value : JsNum) (lo hi : ℚ) (h : lo ≤ hi) :
    clamp (.finite (clamp value lo hi)) lo hi = clamp value lo hi :=
  clamp_of_mem _ _ _ (clamp_bounds value lo hi h).1 (clamp_bounds value lo hi h).2

theorem clampIndex_of_mem (t lastIndex : ℤ) (h1 : 0 ≤ t) (h2 : t ≤ lastIndex) :
    clampIndex (.finite (t : ℚ)) lastIndex = t := by
  have hmax : max 0 lastIndex = lastIndex := max_eq_right (le_trans h1 h2)
  simp only [clampIndex, Int.floor_intCast, hmax]
  split_ifs <;> omega

theorem clampIndex_idem (value : JsNum) (lastIndex : ℤ) :
    clampIndex (.finite ((clampIndex value lastIndex : ℤ) : ℚ)) lastIndex =
      clampIndex value lastIndex := by
  by_cases h : 0 ≤ lastIndex
  · exact clampIndex_of_mem _ _ (clampIndex_bounds value lastIndex h).1
      (clampIndex_bounds value lastIndex h).2
  · have hneg : lastIndex < 0 := not_le.mp h
    have h0 : ∀ w : JsNum, clampIndex w lastIndex = 0 := by
      intro w
      cases w <;> simp [clampIndex, hneg]
    rw [h0 value, h0]

theorem MAX_CHI_THRESHOLD_nonneg : (0 : ℚ) ≤ MAX_CHI_THRESHOLD := by
  norm_num [MAX_CHI_THRESHOLD, startChi]

theorem toFiniteNumber_finite (host : JsHost) (q fallback : ℚ) :
    toFiniteNumber host (.num (.finite q)) fallback = q := rfl

theorem finalizeArgs_idem (op : Opcode) (prepared : List JsNum) (lastIndex : ℤ) :
    finalizeArgs op (finalizeArgs op prepared lastIndex) lastIndex =
      finalizeArgs op prepared lastIndex := by
  cases op <;>
    simp [finalizeArgs, numAt, clamp01, clamp_idem, clampIndex_idem, MAX_CHI_THRESHOLD_nonneg]

theorem prepareArgs_finalizeArgs (host : JsHost) (op : Opcode) (prepared : List JsNum)
    (lastIndex : ℤ) :
    prepareArgs host op ((finalizeArgs op prepared lastIndex).map JsVal.num) =
      finalizeArgs op prepared lastIndex := by
  cases op <;> simp [finalizeArgs, prepareArgs, elemAt, toFiniteNumber]

theorem Opcode.name_ne_empty (op : Opcode) : op.name ≠ "" := by
  cases op <;> decide

theorem normalizeInstruction_toRaw (host : JsHost) (instruction : Instruction) :
    normalizeInstruction host instruction.toRaw =
      some { op := instruction.op, args := instruction.args.map JsVal.num } := by
  simp [normalizeInstruction, Instruction.toRaw, JsVal.truthy, getProp, List.lookup, JsVal.or,
    Opcode.name_ne_empty, resolveOp, host.upper_name, specFor_name]

theorem prepareEntries_toRaw (host : JsHost) (prepared : List Instruction) (lastIndex : ℤ) :
    prepareEntries host
        ((prepared.map fun entry =>
          ({ op := entry.op, args := finalizeArgs entry.op entry.args lastIndex } : Instruction)).map
            Instruction.toRaw) =
      prepared.map fun entry =>
          ({ op := entry.op, args := finalizeArgs entry.op entry.args lastIndex } : Instruction) := by
  induction prepared with
  | nil => rfl
  | cons entry rest ih =>
    simp only [prepareEntries, List.map_cons, List.filterMap_cons] at ih ⊢
    rw [normalizeInstruction_toRaw]
    simp only [Option.map_some', prepareArgs_finalizeArgs]
    rw [ih]

/-- C2: normalizing the output of `normalizeGenomeProgram` again returns that output. -/
theorem normalizeGenomeProgram_idempotent (host : JsHost) (programInput : JsVal) :
    normalizeGenomeProgram host (programToRaw (normalizeGenomeProgram host programInput)) =
      normalizeGenomeProgram host programInput := by
  cases programInput with
  | arr entries =>
    simp only [normalizeGenomeProgram, programToRaw]
    rw [prepareEntries_toRaw]
    simp [List.map_map, Function.comp, finalizeArgs_idem]
  | undefined => rfl
  | null => rfl
  | bool b => rfl
  | num n => rfl
  | str s => rfl
  | obj f => rfl

/-! ## Rule 110: theorems -/

theorem writeLoop_succ (n : Nat) (value : Nat → Nat) (target : List Nat) :
    writeLoop (n + 1) value target = (writeLoop n value target).set n (value n) := by
  simp [writeLoop, List.range_succ, List.foldl_append]

theorem writeLoop_length (n : Nat) (value : Nat → Nat) (target : List Nat) :
    (writeLoop n value target).length = target.length := by
  induction n with
  | zero => simp [writeLoop]
  | succ n ih => rw [writeLoop_succ, List.length_set, ih]

theorem writeLoop_getElem? (n : Nat) (value : Nat → Nat) (target : List Nat) (i : Nat) :
    (writeLoop n value target)[i]? =
      if i < n ∧ i < target.length then some (value i) else target[i]? := by
  induction n with
  | zero => simp [writeLoop]
  | succ n ih =>
    rw [writeLoop_succ, List.getElem?_set, ih, writeLoop_length]
    by_cases hin : n = i
    · subst hin
      by_cases hlt : n < target.length
      · simp [hlt]
      · simp [hlt, List.getElem?_eq_none (not_lt.mp hlt)]
    · simp only [hin, if_false]
      by_cases h1 : i < n
      · have : i < n + 1 := by omega
        simp [h1, this]
      · have : ¬ i < n + 1 := by omega
        simp [h1, this]

theorem getD_bit (cells : List Nat) (hbits : ∀ c ∈ cells, c = 0 ∨ c = 1) (i : Nat) :
    cells.getD i 0 = 0 ∨ cells.getD i 0 = 1 := by
  by_cases h : i < cells.length
  · rw [List.getD_eq_getElem _ _ h]
    exact hbits _ (List.getElem_mem h)
  · left
    simp [List.getElem?_eq_none (not_lt.mp h)]

theorem ruleIndex_lt (width : Nat) (current : List Nat)
    (hbits : ∀ c ∈ current, c = 0 ∨ c = 1) (i : Nat) : ruleIndex width current i < 8 := by
  unfold ruleIndex
  simp only
  have hl : (if i = 0 then 0 else current.getD (i - 1) 0) = 0 ∨
      (if i = 0 then 0 else current.getD (i - 1) 0) = 1 := by
    split_ifs
    · left; rfl
    · exact getD_bit current hbits _
  have hr : (if i = width - 1 then 0 else current.getD (i + 1) 0) = 0 ∨
      (if i = width - 1 then 0 else current.getD (i + 1) 0) = 1 := by
    split_ifs
    · left; rfl
    · exact getD_bit current hbits _
  rcases hl with hl | hl <;> rcases hr with hr | hr <;>
    rcases getD_bit current hbits i with hc | hc <;> rw [hl, hr, hc] <;> decide

/-- C3: for a current array of 0/1 cells, `compute` writes into every cell `i` of the
buffer the entry of `RULE_TABLE` at `(left << 2) | (center << 1) | right`, where `left` is
`current[i-1]` (0 at index 0), `center` is `current[i]` and `right` is `current[i+1]` (0 at
index `width-1`); the index is a valid table position and `current` is left as it was. -/
theorem rule110Compute_writes_table (ctx : TickContext) (s : Rule110Stepper)
    (hbuf : s.buffer.length = s.width) (hbits : ∀ c ∈ s.current, c = 0 ∨ c = 1)
    (i : Nat) (hi : i < s.width) :
    ((if i = 0 then 0 else s.current.getD (i - 1) 0) <<< 2 ||| s.current.getD i 0 <<< 1 |||
        (if i = s.width - 1 then 0 else s.current.getD (i + 1) 0)) < 8 ∧
      (rule110Compute ctx s).buffer[i]? =
        RULE_TABLE[(if i = 0 then 0 else s.current.getD (i - 1) 0) <<< 2 |||
          s.current.getD i 0 <<< 1 |||
          (if i = s.width - 1 then 0 else s.current.getD (i + 1) 0)]? ∧
      (rule110Compute ctx s).current = s.current := by
  have hlt := ruleIndex_lt s.width s.current hbits i
  have hlen : ruleIndex s.width s.current i < RULE_TABLE.length := by simpa [RULE_TABLE] using hlt
  refine ⟨hlt, ?_, rfl⟩
  simp only [rule110Compute, writeLoop_getElem?, hbuf, hi, and_self, if_true]
  rw [List.getD_eq_getElem _ _ hlen]
  exact (List.getElem?_eq_getElem hlen).symm

theorem rule110Compute_writes_table_witness :
    (rule110Compute firstTickContext
        (rule110Capture firstTickContext
          (createRule110Stepper 16 (.typed (rule110EtherInitializer 16 0))))).buffer =
      [0, 0, 1, 1, 0, 1, 1, 1, 1, 1, 0, 0, 1, 0, 0, 0] ∧
    ((((if 15 = 0 then 0 else [0, 0, 0, 1, 0, 0, 1, 1, 0, 1, 1, 1, 1, 0, 0, 0].getD (15 - 1) 0) <<< 2 |||
          [0, 0, 0, 1, 0, 0, 1, 1, 0, 1, 1, 1, 1, 0, 0, 0].getD 15 0 <<< 1 |||
          (if 15 = 16 - 1 then 0 else [0, 0, 0, 1, 0, 0, 1, 1, 0, 1, 1, 1, 1, 0, 0, 0].getD (15 + 1) 0)) < 8) ∧
      (rule110Compute firstTickContext
        { width := 16, current := [0, 0, 0, 1, 0, 0, 1, 1, 0, 1, 1, 1, 1, 0, 0, 0],
          buffer := List.replicate 16 0 }).buffer[15]? =
        RULE_TABLE[(if 15 = 0 then 0 else [0, 0, 0, 1, 0, 0, 1, 1, 0, 1, 1, 1, 1, 0, 0, 0].getD (15 - 1) 0) <<< 2 |||
          [0, 0, 0, 1, 0, 0, 1, 1, 0, 1, 1, 1, 1, 0, 0, 0].getD 15 0 <<< 1 |||
          (if 15 = 16 - 1 then 0 else [0, 0, 0, 1, 0, 0, 1, 1, 0, 1, 1, 1, 1, 0, 0, 0].getD (15 + 1) 0)]? ∧
      (rule110Compute firstTickContext
        { width := 16, current := [0, 0, 0, 1, 0, 0, 1, 1, 0, 1, 1, 1, 1, 0, 0, 0],
          buffer := List.replicate 16 0 }).current =
        [0, 0, 0, 1, 0, 0, 1, 1, 0, 1, 1, 1, 1, 0, 0, 0]) :=
  ⟨by decide,
   rule110Compute_writes_table firstTickContext
    { width := 16, current := [0, 0, 0, 1, 0, 0, 1, 1, 0, 1, 1, 1, 1, 0, 0, 0],
      buffer := List.replicate 16 0 } (by decide) (by decide) 15 (by decide)⟩

theorem tmod_sixteen_bounds (phase : ℤ) :
    -16 < Int.tmod phase 16 ∧ Int.tmod phase 16 < 16 ∧ (Int.tmod phase 16 - phase) % 16 = 0 := by
  cases phase with
  | ofNat n =>
    have h : Int.tmod (Int.ofNat n) 16 = ((n % 16 : ℕ) : ℤ) := rfl
    rw [h]
    simp only [Int.ofNat_eq_coe]
    omega
  | negSucc n =>
    have h : Int.tmod (Int.negSucc n) 16 = -(((n + 1) % 16 : ℕ) : ℤ) := rfl
    rw [h]
    simp only [Int.negSucc_eq]
    omega

theorem js_offset_eq_emod (phase : ℤ) (i : ℕ) :
    Int.tmod (Int.tmod (Int.tmod phase 16 + 16) 16 + (i : ℤ)) 16 = (phase + i) % 16 := by
  obtain ⟨h1, h2, h3⟩ := tmod_sixteen_bounds phase
  have ha : Int.tmod (Int.tmod phase 16 + 16) 16 = (Int.tmod phase 16 + 16) % 16 :=
    Int.tmod_eq_emod (by omega) (by omega)
  rw [ha]
  have hb : 0 ≤ (Int.tmod phase 16 + 16) % 16 + (i : ℤ) := by omega
  rw [Int.tmod_eq_emod hb (by omega)]
  omega

theorem fillPattern_ether (width : ℕ) (phase : ℤ) :
    rule110EtherInitializer width phase =
      (List.range width).map fun (i : ℕ) => ETHER_PATTERN.getD ((phase + (i : ℤ)) % 16).toNat 0 := by
  unfold rule110EtherInitializer fillPattern
  apply List.map_congr_left
  intro i _
  have hlen : ((ETHER_PATTERN.length : ℕ) : ℤ) = 16 := rfl
  simp only [hlen]
  rw [js_offset_eq_emod]

theorem writeLoop_eq_map (n : ℕ) (value : ℕ → ℕ) (target : List ℕ) (h : target.length = n) :
    writeLoop n value target = (List.range n).map value := by
  apply List.ext_getElem?
  intro i
  rw [writeLoop_getElem?, h]
  by_cases hi : i < n
  · simp [hi]
  · have hnone : (List.range n)[i]? = none := List.getElem?_eq_none (by simp; omega)
    simp [hi, hnone, List.getElem?_eq_none (by omega : target.length ≤ i)]

theorem writeLoop_bits (n : ℕ) (value : ℕ → ℕ) (target : List ℕ)
    (hvalue : ∀ i, value i = 0 ∨ value i = 1) (htarget : ∀ c ∈ target, c = 0 ∨ c = 1) :
    ∀ c ∈ writeLoop n value target, c = 0 ∨ c = 1 := by
  induction n with
  | zero => simpa [writeLoop] using htarget
  | succ n ih =>
    intro c hc
    rw [writeLoop_succ] at hc
    rcases List.mem_or_eq_of_mem_set hc with h | h
    · exact ih c h
    · rw [h]; exact hvalue n

theorem replicate_zero_bits (n : ℕ) : ∀ c ∈ List.replicate n 0, c = 0 ∨ c = 1 := by
  intro c hc
  left
  exact List.eq_of_mem_replicate hc

theorem toCellValue_bit (value : JsVal) : toCellValue value = 0 ∨ toCellValue value = 1 := by
  unfold toCellValue
  split <;> split_ifs <;> simp

theorem set_replicate_zero (width i : ℕ) :
    (List.replicate width 0).set i 0 = List.replicate width 0 := by
  apply List.ext_getElem?
  intro j
  rw [List.getElem?_set, List.length_replicate, List.getElem?_replicate]
  by_cases hij : i = j
  · subst hij
    simp only [if_true]
  · simp only [hij, if_false]

theorem aliasLoop_zero (len start width : ℕ) :
    aliasLoop len start (List.replicate width 0) = List.replicate width 0 := by
  induction len with
  | zero => simp [aliasLoop]
  | succ n ih =>
    have hstep : aliasLoop (n + 1) start (List.replicate width 0) =
        (aliasLoop n start (List.replicate width 0)).set n
          (if (aliasLoop n start (List.replicate width 0)).getD (start + n) 0 ≠ 0
            then 1 else 0) := by
      simp [aliasLoop, List.range_succ, List.foldl_append]
    rw [hstep, ih]
    have hread : (List.replicate width 0).getD (start + n) 0 = 0 := by
      rw [List.getD_eq_getElem?_getD, List.getElem?_replicate]
      split_ifs <;> rfl
    rw [hread]
    simp only [ne_eq, not_true_eq_false, if_false]
    exact set_replicate_zero width n

theorem copyCells_view (target : List ℕ) (start length : ℕ) :
    copyCells target (.view start length) = List.replicate target.length 0 := by
  simp only [copyCells]
  exact aliasLoop_zero _ _ _

theorem copyCells_length (target : List ℕ) (source : CellSource) :
    (copyCells target source).length = target.length := by
  cases source with
  | view start length => rw [copyCells_view, List.length_replicate]
  | absent => simp [copyCells]
  | other => simp [copyCells]
  | typed view => simp [copyCells, writeLoop_length]
  | array items => simp [copyCells, writeLoop_length]
  | string s => simp [copyCells, writeLoop_length]
  | iterable items => simp [copyCells, writeLoop_length]

theorem copyCells_bits (target : List ℕ) (source : CellSource) :
    ∀ c ∈ copyCells target source, c = 0 ∨ c = 1 := by
  cases source with
  | absent => exact replicate_zero_bits _
  | other => exact replicate_zero_bits _
  | typed view =>
    exact writeLoop_bits _ _ _ (fun i => by split_ifs <;> simp) (replicate_zero_bits _)
  | array items => exact writeLoop_bits _ _ _ (fun i => toCellValue_bit _) (replicate_zero_bits _)
  | string s => exact writeLoop_bits _ _ _ (fun i => toCellValue_bit _) (replicate_zero_bits _)
  | iterable items =>
    exact writeLoop_bits _ _ _ (fun i => toCellValue_bit _) (replicate_zero_bits _)
  | view start length =>
    rw [copyCells_view]
    exact replicate_zero_bits _

theorem wolfram110_bit (l c r : ℕ) : wolfram110 l c r = 0 ∨ wolfram110 l c r = 1 := by
  unfold wolfram110
  omega

theorem RULE_TABLE_eq_wolfram110 (l c r : ℕ) (hl : l = 0 ∨ l = 1) (hc : c = 0 ∨ c = 1)
    (hr : r = 0 ∨ r = 1) : RULE_TABLE.getD (l <<< 2 ||| c <<< 1 ||| r) 0 = wolfram110 l c r := by
  rcases hl with rfl | rfl <;> rcases hc with rfl | rfl <;> rcases hr with rfl | rfl <;> decide

theorem specRule110Step_length (cells : List ℕ) : (specRule110Step cells).length = cells.length := by
  simp [specRule110Step]

theorem specRule110Step_bits (cells : List ℕ) : ∀ c ∈ specRule110Step cells, c = 0 ∨ c = 1 := by
  intro c hc
  simp only [specRule110Step, List.mem_map] at hc
  obtain ⟨i, _, rfl⟩ := hc
  exact wolfram110_bit _ _ _

theorem createRule110Stepper_wellFormed (width : ℕ) (cells : CellSource) :
    (createRule110Stepper width cells).WellFormed := by
  refine ⟨?_, ?_, copyCells_bits _ _⟩
  · simp [createRule110Stepper, copyCells_length]
  · simp [createRule110Stepper]

theorem rule110Tick_current (ctx : TickContext) (s : Rule110Stepper) (h : s.WellFormed) :
    (rule110Tick ctx s).current = specRule110Step s.current ∧
      (rule110Tick ctx s).width = s.width ∧ (rule110Tick ctx s).buffer.length = s.width := by
  obtain ⟨hcur, hbuf, hbits⟩ := h
  have hloop : writeLoop s.width (fun i => RULE_TABLE.getD (ruleIndex s.width s.current i) 0)
      (List.replicate s.buffer.length 0) = specRule110Step s.current := by
    rw [writeLoop_eq_map _ _ _ (by simp [hbuf])]
    unfold specRule110Step
    rw [hcur]
    apply List.map_congr_left
    intro i hi
    have hi' : i < s.width := List.mem_range.mp hi
    have hlast : (i = s.width - 1) = (i + 1 = s.width) := by
      apply propext; omega
    unfold ruleIndex
    simp only [hlast]
    apply RULE_TABLE_eq_wolfram110
    · split_ifs
      · left; rfl
      · exact getD_bit _ hbits _
    · exact getD_bit _ hbits _
    · split_ifs
      · left; rfl
      · exact getD_bit _ hbits _
  have hlen : (specRule110Step s.current).length = s.current.length := specRule110Step_length _
  refine ⟨?_, rfl, ?_⟩
  · simp only [rule110Tick, rule110Commit, rule110Compute, rule110Capture, hloop]
    rw [List.drop_of_length_le (by omega), List.append_nil]
  · simp only [rule110Tick, rule110Commit, rule110Compute, rule110Capture, hloop]
    omega

theorem rule110Tick_wellFormed (ctx : TickContext) (s : Rule110Stepper) (h : s.WellFormed) :
    (rule110Tick ctx s).WellFormed := by
  obtain ⟨h1, h2, h3⟩ := rule110Tick_current ctx s h
  refine ⟨?_, ?_, ?_⟩
  · rw [h1, h2, specRule110Step_length]; exact h.1
  · rw [h2]; exact h3
  · rw [h1]; exact specRule110Step_bits _

theorem rule110Run_current (ctxs : List TickContext) (s : Rule110Stepper) (h : s.WellFormed) :
    (rule110Run ctxs s).current = specRule110Step^[ctxs.length] s.current := by
  induction ctxs generalizing s with
  | nil => rfl
  | cons ctx rest ih =>
    simp only [rule110Run, List.length_cons, Function.iterate_succ, Function.comp]
    rw [ih _ (rule110Tick_wellFormed ctx s h), (rule110Tick_current ctx s h).1]

theorem copyCells_typed_id (cells : List ℕ) (hbits : ∀ c ∈ cells, c = 0 ∨ c = 1) :
    copyCells (List.replicate cells.length 0) (.typed cells) = cells := by
  simp only [copyCells, List.length_replicate, min_self]
  rw [writeLoop_eq_map _ _ _ (by simp)]
  apply List.ext_getElem?
  intro i
  by_cases hi : i < cells.length
  · rw [List.getElem?_map, List.getElem?_range hi, List.getElem?_eq_getElem hi]
    simp only [Option.map_some', List.getD_eq_getElem _ _ hi]
    rcases hbits _ (List.getElem_mem hi) with h | h <;> simp [h]
  · rw [List.getElem?_eq_none (by simp; omega), List.getElem?_eq_none (by omega)]

theorem rule110EtherInitializer_length (width : ℕ) (phase : ℤ) :
    (rule110EtherInitializer width phase).length = width := by
  simp [rule110EtherInitializer, fillPattern]

theorem rule110EtherInitializer_bits (width : ℕ) (phase : ℤ) :
    ∀ c ∈ rule110EtherInitializer width phase, c = 0 ∨ c = 1 := by
  intro c hc
  simp only [rule110EtherInitializer, fillPattern, List.mem_map] at hc
  obtain ⟨i, _, rfl⟩ := hc
  exact getD_bit ETHER_PATTERN (by decide) _

/-- C8: for every width, initializer cells and run of N ticks (capture, compute, commit),
the cells of the stepper after the run are the N-fold iterate of the zero-boundary Rule 110
step function on the cells the initializer installed; for the ether initializer these are
the iterate of the step function on the 16-cell pattern tiled from the phase. -/
theorem rule110Run_iterates_spec_step (width : ℕ) (cells : CellSource) (phase : ℤ)
    (ctxs : List TickContext) :
    (rule110Run ctxs (createRule110Stepper width cells)).current =
        specRule110Step^[ctxs.length] (createRule110Stepper width cells).current ∧
      (createRule110Stepper width (.typed (rule110EtherInitializer width phase))).current =
        ((List.range width).map fun (i : ℕ) => ETHER_PATTERN.getD ((phase + (i : ℤ)) % 16).toNat 0) ∧
      (rule110Run ctxs (createRule110Stepper width (.typed (rule110EtherInitializer width phase)))).current =
        specRule110Step^[ctxs.length]
          ((List.range width).map fun (i : ℕ) => ETHER_PATTERN.getD ((phase + (i : ℤ)) % 16).toNat 0) := by
  have hether : (createRule110Stepper width (.typed (rule110EtherInitializer width phase))).current =
      ((List.range width).map fun (i : ℕ) => ETHER_PATTERN.getD ((phase + (i : ℤ)) % 16).toNat 0) := by
    have h := copyCells_typed_id (rule110EtherInitializer width phase)
      (rule110EtherInitializer_bits width phase)
    rw [rule110EtherInitializer_length] at h
    simp only [createRule110Stepper, h]
    exact fillPattern_ether width phase
  refine ⟨rule110Run_current ctxs _ (createRule110Stepper_wellFormed width cells), hether, ?_⟩
  rw [rule110Run_current ctxs _ (createRule110Stepper_wellFormed width _), hether]

theorem rule110Tick_context_free (c1 c2 : TickContext) (s : Rule110Stepper) :
    rule110Tick c1 s = rule110Tick c2 s := rfl

/-- C9: two runs of the Rule 110 stepper with the same width and initializer cells and the
same number of ticks produce the same sequence of cell states, whatever tick index, dt and
payload the tick contexts of either run carry. -/
theorem rule110Trace_deterministic (width : ℕ) (cells : CellSource)
    (ctxs1 ctxs2 : List TickContext) (hlen : ctxs1.length = ctxs2.length) :
    rule110Trace ctxs1 (createRule110Stepper width cells) =
      rule110Trace ctxs2 (createRule110Stepper width cells) := by
  generalize createRule110Stepper width cells = s
  induction ctxs1 generalizing ctxs2 s with
  | nil =>
    cases ctxs2 with
    | nil => rfl
    | cons c rest => simp at hlen
  | cons c1 rest1 ih =>
    cases ctxs2 with
    | nil => simp at hlen
    | cons c2 rest2 =>
      simp only [rule110Trace]
      rw [rule110Tick_context_free c1 c2 s, ih rest2 (by simpa using hlen)]

theorem rule110Trace_deterministic_witness :
    [(⟨some 0, .num (.finite 1), none⟩ : TickContext), ⟨some 1, .num (.finite 1), none⟩].length =
        [(⟨none, .undefined, none⟩ : TickContext), ⟨some 7, .str "dt", none⟩].length ∧
      rule110Trace [⟨some 0, .num (.finite 1), none⟩, ⟨some 1, .num (.finite 1), none⟩]
          (createRule110Stepper 16 (.typed (rule110EtherInitializer 16 0))) =
        rule110Trace [⟨none, .undefined, none⟩, ⟨some 7, .str "dt", none⟩]
          (createRule110Stepper 16 (.typed (rule110EtherInitializer 16 0))) :=
  ⟨rfl, rule110Trace_deterministic 16 (.typed (rule110EtherInitializer 16 0)) _ _ rfl⟩

/-! ## Double arithmetic: theorems -/

theorem floor_le_roundHalfEven (x : ℚ) : ⌊x⌋ ≤ roundHalfEven x := by
  unfold roundHalfEven
  split_ifs <;> omega

theorem roundHalfEven_le_floor_succ (x : ℚ) : roundHalfEven x ≤ ⌊x⌋ + 1 := by
  unfold roundHalfEven
  split_ifs <;> omega

theorem roundHalfEven_of_near (x : ℚ) (n : ℤ) (h1 : (n : ℚ) - 1 / 2 < x)
    (h2 : x < (n : ℚ) + 1 / 2) : roundHalfEven x = n := by
  by_cases hx : x < (n : ℚ)
  · have hf : ⌊x⌋ = n - 1 := by
      rw [Int.floor_eq_iff]
      push_cast
      constructor <;> linarith
    unfold roundHalfEven
    rw [hf]
    push_cast
    have hnot : ¬ (x - ((n : ℚ) - 1) < 1 / 2) := by
      intro h
      linarith
    have hgt : 1 / 2 < x - ((n : ℚ) - 1) := by linarith
    rw [if_neg hnot, if_pos hgt]
    omega
  · have hf : ⌊x⌋ = n := by
      rw [Int.floor_eq_iff]
      constructor <;> linarith
    unfold roundHalfEven
    rw [hf]
    have hlt : x - (n : ℚ) < 1 / 2 := by linarith
    rw [if_pos hlt]

theorem roundHalfEven_intCast (n : ℤ) : roundHalfEven (n : ℚ) = n :=
  roundHalfEven_of_near _ n (by linarith) (by linarith)

theorem roundHalfEven_mono {a b : ℚ} (h : a ≤ b) : roundHalfEven a ≤ roundHalfEven b := by
  rcases lt_or_eq_of_le (Int.floor_mono h) with hlt | heq
  · calc roundHalfEven a ≤ ⌊a⌋ + 1 := roundHalfEven_le_floor_succ a
      _ ≤ ⌊b⌋ := hlt
      _ ≤ roundHalfEven b := floor_le_roundHalfEven b
  · unfold roundHalfEven
    rw [heq]
    split_ifs <;> first | omega | (exfalso; linarith)

theorem binade_ge (q : ℚ) : -1022 ≤ binade q := le_max_right _ _

theorem lt_zpow_binade_succ (q : ℚ) : |q| < (2 : ℚ) ^ (binade q + 1) := by
  have h := Int.lt_zpow_succ_log_self (b := 2) (by norm_num) |q|
  have hle : Int.log 2 |q| + 1 ≤ binade q + 1 := by
    have := le_max_left (Int.log 2 |q|) (-1022)
    unfold binade
    omega
  have h2 : ((2 : ℕ) : ℚ) ^ (Int.log 2 |q| + 1) ≤ (2 : ℚ) ^ (binade q + 1) := by
    push_cast
    exact zpow_le_zpow_right₀ (by norm_num) hle
  exact lt_of_lt_of_le h h2

theorem zpow_binade_le (q : ℚ) (hq : q ≠ 0) (h : -1022 < binade q) :
    (2 : ℚ) ^ binade q ≤ |q| := by
  have hb : binade q = Int.log 2 |q| := by
    unfold binade at h ⊢
    rcases max_cases (Int.log 2 |q|) (-1022) with ⟨h1, _⟩ | ⟨h1, _⟩
    · exact h1
    · rw [h1] at h
      exact absurd h (lt_irrefl _)
  rw [hb]
  have := Int.zpow_log_le_self (b := 2) (r := |q|) (by norm_num) (abs_pos.mpr hq)
  exact_mod_cast this

theorem binade_mono {x y : ℚ} (hx : 0 < x) (h : x ≤ y) : binade x ≤ binade y := by
  unfold binade
  apply max_le_max _ (le_refl _)
  rw [abs_of_pos hx, abs_of_pos (lt_of_lt_of_le hx h)]
  exact Int.log_mono_right hx h

theorem roundDouble_zero : roundDouble 0 = 0 := by
  simp [roundDouble, roundHalfEven]

theorem ulp_pos (q : ℚ) : (0 : ℚ) < 2 ^ (binade q - 52) := zpow_pos (by norm_num) _

theorem roundDouble_nonneg {q : ℚ} (hq : 0 ≤ q) : 0 ≤ roundDouble q := by
  unfold roundDouble
  apply mul_nonneg _ (le_of_lt (ulp_pos q))
  have h0 : (0 : ℤ) ≤ ⌊q / 2 ^ (binade q - 52)⌋ :=
    Int.floor_nonneg.mpr (div_nonneg hq (le_of_lt (ulp_pos q)))
  exact_mod_cast le_trans h0 (floor_le_roundHalfEven _)

theorem roundDouble_le_zpow (q : ℚ) (hq : 0 ≤ q) : roundDouble q ≤ 2 ^ (binade q + 1) := by
  unfold roundDouble
  have hu := ulp_pos q
  have hlt := lt_zpow_binade_succ q
  rw [abs_of_nonneg hq] at hlt
  have hsplit : (2 : ℚ) ^ (binade q + 1) = ((2 ^ 53 : ℤ) : ℚ) * 2 ^ (binade q - 52) := by
    have : binade q + 1 = 53 + (binade q - 52) := by ring
    rw [this, zpow_add₀ (by norm_num)]
    norm_num
  rw [hsplit]
  apply mul_le_mul_of_nonneg_right _ (le_of_lt hu)
  have hdiv : q / 2 ^ (binade q - 52) ≤ ((2 ^ 53 : ℤ) : ℚ) := by
    rw [div_le_iff₀ hu, ← hsplit]
    exact le_of_lt hlt
  have := roundHalfEven_mono hdiv
  rw [roundHalfEven_intCast] at this
  exact_mod_cast this

theorem zpow_le_roundDouble (q : ℚ) (hq : 0 < q) (h : -1022 < binade q) :
    (2 : ℚ) ^ binade q ≤ roundDouble q := by
  unfold roundDouble
  have hu := ulp_pos q
  have hle := zpow_binade_le q (ne_of_gt hq) h
  rw [abs_of_pos hq] at hle
  have hsplit : (2 : ℚ) ^ binade q = ((2 ^ 52 : ℤ) : ℚ) * 2 ^ (binade q - 52) := by
    have : binade q = 52 + (binade q - 52) := by ring
    nth_rewrite 1 [this]
    rw [zpow_add₀ (by norm_num)]
    norm_num
  rw [hsplit]
  apply mul_le_mul_of_nonneg_right _ (le_of_lt hu)
  have hdiv : ((2 ^ 52 : ℤ) : ℚ) ≤ q / 2 ^ (binade q - 52) := by
    rw [le_div_iff₀ hu, ← hsplit]
    exact hle
  have := roundHalfEven_mono hdiv
  rw [roundHalfEven_intCast] at this
  exact_mod_cast this

theorem roundDouble_mono {x y : ℚ} (hx : 0 ≤ x) (h : x ≤ y) : roundDouble x ≤ roundDouble y := by
  rcases eq_or_lt_of_le hx with h0 | hpos
  · rw [← h0, roundDouble_zero]
    exact roundDouble_nonneg (le_trans hx h)
  · rcases eq_or_lt_of_le (binade_mono hpos h) with heq | hlt
    · unfold roundDouble
      rw [heq]
      apply mul_le_mul_of_nonneg_right _ (le_of_lt (ulp_pos y))
      have : x / 2 ^ (binade y - 52) ≤ y / 2 ^ (binade y - 52) :=
        div_le_div_of_nonneg_right h (le_of_lt (ulp_pos y))
      exact_mod_cast roundHalfEven_mono this
    · calc roundDouble x ≤ 2 ^ (binade x + 1) := roundDouble_le_zpow x hx
        _ ≤ 2 ^ binade y := zpow_le_zpow_right₀ (by norm_num) hlt
        _ ≤ roundDouble y :=
          zpow_le_roundDouble y (lt_of_lt_of_le hpos h) (lt_of_le_of_lt (binade_ge x) hlt)

theorem binade_eq (q : ℚ) (e : ℤ) (he : -1022 ≤ e) (hlo : (2 : ℚ) ^ e ≤ |q|)
    (hhi : |q| < (2 : ℚ) ^ (e + 1)) : binade q = e := by
  have hpos : 0 < |q| := lt_of_lt_of_le (zpow_pos (by norm_num) e) hlo
  have h1 : e ≤ Int.log 2 |q| := by
    rw [← Int.zpow_le_iff_le_log (by norm_num) hpos]
    exact_mod_cast hlo
  have h2 : Int.log 2 |q| < e + 1 := by
    rw [← Int.lt_zpow_iff_log_lt (by norm_num) hpos]
    exact_mod_cast hhi
  unfold binade
  rw [max_eq_left (by omega)]
  omega

theorem roundDouble_one : roundDouble 1 = 1 := by
  have hb : binade 1 = 0 := binade_eq 1 0 (by norm_num) (by norm_num) (by norm_num)
  unfold roundDouble
  rw [hb]
  have : (1 : ℚ) / 2 ^ ((0 : ℤ) - 52) = ((2 ^ 52 : ℤ) : ℚ) := by
    norm_num [zpow_neg]
  rw [this, roundHalfEven_intCast]
  norm_num [zpow_neg]

theorem roundDouble_unit {q : ℚ} (h0 : 0 ≤ q) (h1 : q ≤ 1) :
    0 ≤ roundDouble q ∧ roundDouble q ≤ 1 :=
  ⟨roundDouble_nonneg h0, roundDouble_one ▸ roundDouble_mono h0 h1⟩

theorem roundDouble_near_one : roundDouble (1 - 1 / 2 ^ 60) = 1 := by
  have hb : binade (1 - 1 / 2 ^ 60) = -1 :=
    binade_eq _ (-1) (by norm_num) (by norm_num [abs_of_pos]) (by norm_num [abs_of_pos])
  unfold roundDouble
  rw [hb]
  have hr : roundHalfEven ((1 - 1 / 2 ^ 60) / 2 ^ ((-1 : ℤ) - 52)) = 2 ^ 53 := by
    apply roundHalfEven_of_near
    · norm_num [zpow_neg]
    · norm_num [zpow_neg]
  rw [hr]
  norm_num [zpow_neg]

theorem roundDouble_half : roundDouble (1 / 2) = 1 / 2 := by
  have hb : binade (1 / 2) = -1 :=
    binade_eq _ (-1) (by norm_num) (by norm_num [abs_of_pos]) (by norm_num [abs_of_pos])
  unfold roundDouble
  rw [hb]
  have : (1 / 2 : ℚ) / 2 ^ ((-1 : ℤ) - 52) = ((2 ^ 52 : ℤ) : ℚ) := by
    norm_num [zpow_neg]
  rw [this, roundHalfEven_intCast]
  norm_num [zpow_neg]

theorem roundHalfEven_sub_le (x : ℚ) : |(roundHalfEven x : ℚ) - x| ≤ 1 / 2 := by
  have h1 := Int.floor_le x
  have h2 := Int.lt_floor_add_one x
  unfold roundHalfEven
  rw [abs_le]
  split_ifs <;> push_cast <;> constructor <;> linarith

theorem binade_le_of_lt_one {q : ℚ} (h0 : 0 < q) (h1 : q < 1) : binade q ≤ -1 := by
  have hlog : Int.log 2 |q| < 0 := by
    rw [← Int.lt_zpow_iff_log_lt (by norm_num) (abs_pos.mpr (ne_of_gt h0)), abs_of_pos h0]
    simpa using h1
  unfold binade
  exact max_le (by omega) (by norm_num)

theorem roundDouble_sub_le (q : ℚ) : |roundDouble q - q| ≤ 2 ^ (binade q - 53) := by
  have hu := ulp_pos q
  have heq : roundDouble q - q =
      ((roundHalfEven (q / 2 ^ (binade q - 52)) : ℚ) - q / 2 ^ (binade q - 52)) *
        2 ^ (binade q - 52) := by
    unfold roundDouble
    field_simp
  rw [heq, abs_mul, abs_of_pos hu]
  have hsplit : (2 : ℚ) ^ (binade q - 53) = 1 / 2 * 2 ^ (binade q - 52) := by
    have : binade q - 53 = -1 + (binade q - 52) := by ring
    rw [this, zpow_add₀ (by norm_num)]
    norm_num
  rw [hsplit]
  exact mul_le_mul_of_nonneg_right (roundHalfEven_sub_le _) (le_of_lt hu)

theorem roundDouble_unit_error {q : ℚ} (h0 : 0 ≤ q) (h1 : q ≤ 1) :
    |roundDouble q - q| ≤ 1 / 2 ^ 54 := by
  rcases eq_or_lt_of_le h0 with hz | hpos
  · rw [← hz, roundDouble_zero]
    norm_num
  · rcases eq_or_lt_of_le h1 with ho | hlt
    · rw [ho, roundDouble_one]
      norm_num
    · have hb := binade_le_of_lt_one hpos hlt
      calc |roundDouble q - q| ≤ 2 ^ (binade q - 53) := roundDouble_sub_le q
        _ ≤ 2 ^ (-54 : ℤ) := zpow_le_zpow_right₀ (by norm_num) (by omega)
        _ = 1 / 2 ^ 54 := by norm_num [zpow_neg]

/-! ## Genome VM: theorems -/

theorem capture_canMutate (ctx : TickContext) (rt : GenomeRuntime) :
    (capture ctx rt).buffer.canMutate = false := rfl

theorem compute_canMutate_closed (host : JsHost) (ctx : TickContext) (rt : GenomeRuntime)
    (hgate : canMutateOf ctx.bundle = false) (hbuf : rt.buffer.canMutate = false) :
    (compute host ctx rt).buffer.canMutate = false := by
  unfold compute
  simp only
  split_ifs
  · exact hbuf
  · exact hbuf
  · exact hbuf
  · exact hbuf
  · split
    · exact hbuf
    · exact hgate

theorem commitBundle_closed (buffer : GenomeBuffer) (b : Bundle) (h : buffer.canMutate = false) :
    commitBundle buffer b =
      { b with interpretation_bias := some (b.interpretation_bias.getD emptyBias) } := by
  simp [commitBundle, h]

theorem genomeTick_closed (host : JsHost) (tick : Option ℤ) (dt : JsVal) (b : Bundle)
    (rt : GenomeRuntime) (halive : b.alive = .bool false) :
    (genomeTick host { tick := tick, dt := dt, bundle := some b } rt).2 =
      some { b with interpretation_bias := some (b.interpretation_bias.getD emptyBias) } := by
  have hgate : canMutateOf (some b) = false := by simp [canMutateOf, halive]
  have h := compute_canMutate_closed host { tick := tick, dt := dt, bundle := some b }
    (capture { tick := tick, dt := dt, bundle := some b } rt) hgate rfl
  simp only [genomeTick, commit, Option.map_some']
  rw [commitBundle_closed _ _ h]

/-- C4: a run of any number of ticks (capture, compute, commit) against a record whose
`alive` flag is false leaves the record's `distress` and `bond` bias fields as they were
before the run, whatever the program and the state of the VM. -/
theorem runOnBundle_dead_record_keeps_bias (host : JsHost) (ticks : List TickMeta)
    (rt : GenomeRuntime) (b : Bundle) (halive : b.alive = .bool false) :
    (runOnBundle host ticks rt b).2.distress = b.distress ∧
      (runOnBundle host ticks rt b).2.bond = b.bond ∧
      (runOnBundle host ticks rt b).2.alive = .bool false := by
  induction ticks generalizing rt b with
  | nil => exact ⟨rfl, rfl, halive⟩
  | cons m rest ih =>
    simp only [runOnBundle]
    rw [genomeTick_closed host m.tick m.dt b rt halive]
    simp only [Option.getD_some]
    obtain ⟨h1, h2, h3⟩ := ih
      (genomeTick host { tick := m.tick, dt := m.dt, bundle := some b } rt).1
      { b with interpretation_bias := some (b.interpretation_bias.getD emptyBias) } halive
    refine ⟨?_, ?_, h3⟩
    · rw [h1]; cases hb : b.interpretation_bias <;> simp [Bundle.distress, hb, emptyBias]
    · rw [h2]; cases hb : b.interpretation_bias <;> simp [Bundle.bond, hb, emptyBias]

theorem runOnBundle_dead_record_keeps_bias_witness :
    deadRecord.alive = .bool false ∧
      (runOnBundle basicHost [⟨some 0, .num (.finite 1)⟩, ⟨some 1, .num (.finite 1)⟩]
          (createGenomeRuntime basicHost exploreProgram) deadRecord).2.distress =
        deadRecord.distress ∧
      (runOnBundle basicHost [⟨some 0, .num (.finite 1)⟩, ⟨some 1, .num (.finite 1)⟩]
          (createGenomeRuntime basicHost exploreProgram) deadRecord).2.bond = deadRecord.bond ∧
      (runOnBundle basicHost [⟨some 0, .num (.finite 1)⟩, ⟨some 1, .num (.finite 1)⟩]
          (createGenomeRuntime basicHost exploreProgram) deadRecord).2.alive = .bool false :=
  ⟨rfl, runOnBundle_dead_record_keeps_bias basicHost _ _ deadRecord rfl⟩

/-- C5: on the record `{ alive: false, hunger: 0, chi: 0 }`, which has no
`interpretation_bias` field, one tick of the program `exploreProgram` stages a distress
update with the gate closed, and `commit` still writes to the record: afterwards it has an
`interpretation_bias` field holding the empty object, so the record is not what it was. -/
theorem commit_gate_closed_adds_bias_field :
    (compute basicHost { tick := some 0, dt := .num (.finite 1), bundle := some deadRecordNoBias }
        (capture { tick := some 0, dt := .num (.finite 1), bundle := some deadRecordNoBias }
          (createGenomeRuntime basicHost exploreProgram))).buffer.canMutate = false ∧
      (compute basicHost { tick := some 0, dt := .num (.finite 1), bundle := some deadRecordNoBias }
        (capture { tick := some 0, dt := .num (.finite 1), bundle := some deadRecordNoBias }
          (createGenomeRuntime basicHost exploreProgram))).buffer.biasUpdates.distress =
        some (.finite 1) ∧
      (genomeTick basicHost { tick := some 0, dt := .num (.finite 1), bundle := some deadRecordNoBias }
        (createGenomeRuntime basicHost exploreProgram)).2 =
        some { deadRecordNoBias with interpretation_bias := some emptyBias } ∧
      (genomeTick basicHost { tick := some 0, dt := .num (.finite 1), bundle := some deadRecordNoBias }
        (createGenomeRuntime basicHost exploreProgram)).2 ≠ some deadRecordNoBias := by
  have hgate := compute_canMutate_closed basicHost
    { tick := some 0, dt := .num (.finite 1), bundle := some deadRecordNoBias }
    (capture { tick := some 0, dt := .num (.finite 1), bundle := some deadRecordNoBias }
      (createGenomeRuntime basicHost exploreProgram)) rfl rfl
  have htick := genomeTick_closed basicHost (some 0) (.num (.finite 1)) deadRecordNoBias
    (createGenomeRuntime basicHost exploreProgram) rfl
  refine ⟨hgate, ?_, htick, ?_⟩
  · decide
  · rw [htick]
    simp [deadRecordNoBias]

theorem normalize_gotoThousand (host : JsHost) :
    normalizeGenomeProgram host gotoThousand = [{ op := .GOTO, args := [.finite 0] }] ∧
      normalizeGenomeProgram host gotoThousandPositional = [{ op := .GOTO, args := [.finite 0] }] := by
  have hup := host.upper_name .GOTO
  simp only [Opcode.name] at hup
  have hspec : specFor "GOTO" = some .GOTO := by decide
  have hfloor : ⌊(1000 : ℚ)⌋ = 1000 := by simp
  constructor
  · simp [gotoThousand, normalizeGenomeProgram, prepareEntries, normalizeInstruction,
      JsVal.truthy, getProp, List.lookup, JsVal.or, resolveOp, hup, hspec, prepareArgs, elemAt,
      toFiniteNumber, finalizeArgs, numAt, clampIndex, hfloor]
  · simp [gotoThousandPositional, normalizeGenomeProgram, prepareEntries, normalizeInstruction,
      JsVal.truthy, resolveOp, hup, hspec, prepareArgs, elemAt,
      toFiniteNumber, finalizeArgs, numAt, clampIndex, hfloor]

theorem genomeTick_goto_zero (host : JsHost) (ctx : TickContext) (rt : GenomeRuntime)
    (hprog : rt.program = [{ op := .GOTO, args := [.finite 0] }])
    (hip : rt.state.ip = 0) (hhalted : rt.state.halted = false) :
    (genomeTick host ctx rt).1.program = [{ op := .GOTO, args := [.finite 0] }] ∧
      (genomeTick host ctx rt).1.state.ip = 0 ∧ (genomeTick host ctx rt).1.state.halted = false := by
  by_cases hguard : rt.state.lastTick = ctx.tick.getD 0
  · simp [genomeTick, commit, compute, capture, resetBuffer, hprog, hip, hhalted, hguard]
  · simp [genomeTick, commit, compute, capture, resetBuffer, hprog, hip, hhalted, hguard,
      execInstruction, JsNum.lt, JsNum.floor]

/-- C6: the single-instruction program `GOTO(1000)` normalizes to `GOTO(0)`, and a VM
created with it has `ip = 0` and `halted = false` after every run of ticks (capture,
compute, commit), whatever the tick contexts: ip never leaves the program. -/
theorem goto_thousand_clamped_and_safe (host : JsHost) (ctxs : List TickContext) :
    normalizeGenomeProgram host gotoThousand = [{ op := .GOTO, args := [.finite 0] }] ∧
      normalizeGenomeProgram host gotoThousandPositional = [{ op := .GOTO, args := [.finite 0] }] ∧
      (runContexts host ctxs (createGenomeRuntime host gotoThousand)).state.ip = 0 ∧
      (runContexts host ctxs (createGenomeRuntime host gotoThousand)).state.halted = false ∧
      (runContexts host ctxs (createGenomeRuntime host gotoThousandPositional)).state.ip = 0 ∧
      (runContexts host ctxs (createGenomeRuntime host gotoThousandPositional)).state.halted = false := by
  obtain ⟨hn1, hn2⟩ := normalize_gotoThousand host
  have hrun : ∀ (cs : List TickContext) (rt : GenomeRuntime),
      rt.program = [{ op := .GOTO, args := [.finite 0] }] → rt.state.ip = 0 →
      rt.state.halted = false →
      (runContexts host cs rt).state.ip = 0 ∧ (runContexts host cs rt).state.halted = false := by
    intro cs
    induction cs with
    | nil => intro rt _ hip hh; exact ⟨hip, hh⟩
    | cons c rest ih =>
      intro rt hp hip hh
      obtain ⟨h1, h2, h3⟩ := genomeTick_goto_zero host c rt hp hip hh
      exact ih _ h1 h2 h3
  have hc1 : (createGenomeRuntime host gotoThousand).program = [{ op := .GOTO, args := [.finite 0] }] ∧
      (createGenomeRuntime host gotoThousand).state.ip = 0 ∧
      (createGenomeRuntime host gotoThousand).state.halted = false := by
    have ht : gotoThousand.truthy = true := rfl
    simp only [createGenomeRuntime, ht, if_true, setProgram, hn1]
    simp
  have hc2 : (createGenomeRuntime host gotoThousandPositional).program =
        [{ op := .GOTO, args := [.finite 0] }] ∧
      (createGenomeRuntime host gotoThousandPositional).state.ip = 0 ∧
      (createGenomeRuntime host gotoThousandPositional).state.halted = false := by
    have ht : gotoThousandPositional.truthy = true := rfl
    simp only [createGenomeRuntime, ht, if_true, setProgram, hn2]
    simp
  exact ⟨hn1, hn2, (hrun ctxs _ hc1.1 hc1.2.1 hc1.2.2).1, (hrun ctxs _ hc1.1 hc1.2.1 hc1.2.2).2,
    (hrun ctxs _ hc2.1 hc2.2.1 hc2.2.2).1, (hrun ctxs _ hc2.1 hc2.2.1 hc2.2.2).2⟩

/-- C7: right after `commit`, the snapshot built by `buildSnapshot(tick)` has the `ip`
and the `halted` flag of `getState()` and the program of `getProgram()`, for every
program, state, buffer and context. -/
theorem buildSnapshot_after_commit (ctx : TickContext) (rt : GenomeRuntime) (tick : ℤ) :
    (buildSnapshot tick (commit ctx rt).1).ip = (getState (commit ctx rt).1).ip ∧
      (buildSnapshot tick (commit ctx rt).1).halted = (getState (commit ctx rt).1).halted ∧
      (buildSnapshot tick (commit ctx rt).1).program = getProgram (commit ctx rt).1 := by
  refine ⟨rfl, ?_, rfl⟩
  simp only [buildSnapshot, buildSnapshotPayload, getState, commit]
  cases rt.buffer.halted <;> simp
theorem genomeTick_sameInputs (host : JsHost) (c1 c2 : TickContext) (rt : GenomeRuntime)
    (h : sameInputs c1 c2) :
    (genomeTick host c1 rt).1 = (genomeTick host c2 rt).1 ∧
      ((genomeTick host c1 rt).2.map fun b => b.interpretation_bias) =
        ((genomeTick host c2 rt).2.map fun b => b.interpretation_bias) := by
  obtain ⟨t1, dt1, b1⟩ := c1
  obtain ⟨t2, dt2, b2⟩ := c2
  obtain ⟨ht, hb⟩ := h
  simp only at ht hb
  subst ht
  cases b1 with
  | none =>
    cases b2 with
    | none => exact ⟨rfl, rfl⟩
    | some r2 => simp at hb
  | some r1 =>
    cases b2 with
    | none => simp at hb
    | some r2 =>
      obtain ⟨a1, h1, x1, i1, o1⟩ := r1
      obtain ⟨a2, h2, x2, i2, o2⟩ := r2
      simp only [Option.map_some', Bundle.inputs, Option.some.injEq, Prod.mk.injEq] at hb
      obtain ⟨rfl, rfl, rfl, rfl⟩ := hb
      exact ⟨rfl, rfl⟩

theorem fixtureLoop_hooks (s1 s2 : TcScheduler (GenomeRuntime × Bundle))
    (h : s1.hooks = s2.hooks) (steps : ℕ) (tick : ℤ) (world : GenomeRuntime × Bundle) :
    fixtureLoop s1 steps tick world = fixtureLoop s2 steps tick world := by
  induction steps generalizing tick world with
  | zero => rfl
  | succ n ih =>
    simp only [fixtureLoop, TcScheduler.runPhase, TcScheduler.beginTick, TcScheduler.endTick, h]
    rw [ih]

/-- C10: under direct phase invocation the observations of a run of the Genome VM, the
snapshot and the record's bias map after each tick, are a function of the program and of
the per-tick tick index and record liveness, hunger, chi and bias map: two runs from the
same runtime whose contexts agree on these produce the same observations, whatever `dt`
and other record fields they carry; and the manifests of `runGenomeFixtureCase` are the
same for both values of the scheduler's `enabled` flag, and for every label and seed. -/
theorem genome_run_deterministic (host : JsHost) (rt : GenomeRuntime)
    (ctxs1 ctxs2 : List TickContext) (h : List.Forall₂ sameInputs ctxs1 ctxs2)
    (testCase : GenomeTestCase) (label : String) (seed : JsVal) (e1 e2 : Bool) :
    genomeTrace host ctxs1 rt = genomeTrace host ctxs2 rt ∧
      runGenomeFixtureCase host { testCase with label := label, seed := seed } e1 =
        runGenomeFixtureCase host testCase e2 := by
  constructor
  · induction h generalizing rt with
    | nil => rfl
    | cons hc _ ih =>
      obtain ⟨h1, h2⟩ := genomeTick_sameInputs host _ _ rt hc
      simp only [genomeTrace]
      rw [h1, h2, hc.1, ih]
  · simp only [runGenomeFixtureCase]
    apply fixtureLoop_hooks
    rfl

theorem genome_run_deterministic_witness :
    List.Forall₂ sameInputs
        [{ tick := some 0, dt := .num (.finite 1), bundle := some liveRecord }]
        [{ tick := some 0, dt := .num (.finite 16), bundle := some liveRecordTagged }] ∧
      (genomeTrace basicHost [{ tick := some 0, dt := .num (.finite 1), bundle := some liveRecord }]
          (createGenomeRuntime basicHost exploreProgram) =
        genomeTrace basicHost
          [{ tick := some 0, dt := .num (.finite 16), bundle := some liveRecordTagged }]
          (createGenomeRuntime basicHost exploreProgram) ∧
      runGenomeFixtureCase basicHost { exploreCase with label := "other", seed := .num (.finite 42) }
          true =
        runGenomeFixtureCase basicHost exploreCase false) :=
  ⟨List.Forall₂.cons ⟨rfl, rfl⟩ List.Forall₂.nil,
   genome_run_deterministic basicHost (createGenomeRuntime basicHost exploreProgram) _ _
    (List.Forall₂.cons ⟨rfl, rfl⟩ List.Forall₂.nil) exploreCase "other" (.num (.finite 42))
    true false⟩

/-! ## Genome VM: compute and commit, theorems -/

theorem execInstruction_fst (host : JsHost) (bundle : Option Bundle) (instruction : Instruction)
    (nextIp : JsNum) (u1 u2 : BiasUpdates) :
    (execInstruction host bundle instruction nextIp u1).1 =
      (execInstruction host bundle instruction nextIp u2).1 := by
  unfold execInstruction
  cases instruction.op <;> simp only <;> split_ifs <;> rfl

theorem execInstruction_snd_idem (host : JsHost) (bundle : Option Bundle)
    (instruction : Instruction) (n1 n2 : JsNum) (u : BiasUpdates) :
    (execInstruction host bundle instruction n1
        (execInstruction host bundle instruction n2 u).2).2 =
      (execInstruction host bundle instruction n2 u).2 := by
  unfold execInstruction
  cases instruction.op <;> simp only <;> split_ifs <;> rfl

theorem getElem?_toNat_some_of_range (program : List Instruction) (ip : ℤ)
    (h0 : 0 ≤ ip) (h1 : ip ≤ (program.length : ℤ) - 1) :
    ∃ instruction, program[ip.toNat]? = some instruction := by
  have hlt : ip.toNat < program.length := by omega
  exact ⟨program[ip.toNat], List.getElem?_eq_getElem hlt⟩

theorem compute_guard (host : JsHost) (ctx : TickContext) (rt : GenomeRuntime)
    (h : rt.state.lastTick = ctx.tick.getD 0) : compute host ctx rt = rt := by
  simp [compute, h]

theorem compute_empty (host : JsHost) (ctx : TickContext) (rt : GenomeRuntime)
    (hfresh : rt.state.lastTick ≠ ctx.tick.getD 0) (hempty : rt.program.length = 0) :
    compute host ctx rt = haltEmpty rt := by
  simp [compute, hfresh, hempty]

theorem compute_halted (host : JsHost) (ctx : TickContext) (rt : GenomeRuntime)
    (hfresh : rt.state.lastTick ≠ ctx.tick.getD 0) (hne : rt.program.length ≠ 0)
    (hhalted : rt.state.halted = true) : compute host ctx rt = haltFrozen rt := by
  simp [compute, hfresh, hne, hhalted]

theorem compute_outOfRange (host : JsHost) (ctx : TickContext) (rt : GenomeRuntime)
    (hfresh : rt.state.lastTick ≠ ctx.tick.getD 0) (hne : rt.program.length ≠ 0)
    (hrun : rt.state.halted = false)
    (hout : rt.state.ip < 0 ∨ rt.state.ip > (rt.program.length : ℤ) - 1) :
    compute host ctx rt = haltOutOfRange rt ((rt.program.length : ℤ) - 1) := by
  simp [compute, hfresh, hne, hrun, hout]

theorem compute_exec (host : JsHost) (ctx : TickContext) (rt : GenomeRuntime)
    (instruction : Instruction)
    (hfresh : rt.state.lastTick ≠ ctx.tick.getD 0) (hne : rt.program.length ≠ 0)
    (hrun : rt.state.halted = false)
    (h0 : 0 ≤ rt.state.ip) (h1 : rt.state.ip ≤ (rt.program.length : ℤ) - 1)
    (hins : rt.program[rt.state.ip.toNat]? = some instruction) :
    compute host ctx rt = { rt with buffer := stagedBuffer host ctx rt instruction } := by
  have hin : ¬ (rt.state.ip < 0 ∨ rt.state.ip > (rt.program.length : ℤ) - 1) := by omega
  simp only [compute, hfresh, hne, hrun, hin, if_false, hins, stagedBuffer]
  simp

theorem stagedBuffer_idem (host : JsHost) (ctx : TickContext) (rt : GenomeRuntime)
    (instruction : Instruction) :
    stagedBuffer host ctx { rt with buffer := stagedBuffer host ctx rt instruction } instruction =
      stagedBuffer host ctx rt instruction := by
  simp only [stagedBuffer]
  rw [execInstruction_snd_idem,
    execInstruction_fst host ctx.bundle instruction _
      (execInstruction host ctx.bundle instruction (.finite (rt.state.ip + 1))
        rt.buffer.biasUpdates).2 rt.buffer.biasUpdates]

/-- C11 (as amended): on every state that is halted, or whose program is empty, or whose
ip lies inside the program, a second `compute` in a row leaves the whole runtime, state and
staging buffer, as the first call left it. -/
theorem compute_idempotent_in_range (host : JsHost) (ctx : TickContext) (rt : GenomeRuntime)
    (h : rt.state.halted = true ∨ rt.program.length = 0 ∨
      (0 ≤ rt.state.ip ∧ rt.state.ip ≤ (rt.program.length : ℤ) - 1)) :
    compute host ctx (compute host ctx rt) = compute host ctx rt := by
  by_cases hguard : rt.state.lastTick = ctx.tick.getD 0
  · rw [compute_guard host ctx rt hguard, compute_guard host ctx rt hguard]
  · by_cases hempty : rt.program.length = 0
    · rw [compute_empty host ctx rt hguard hempty]
      rw [compute_empty host ctx (haltEmpty rt) hguard hempty]
      rfl
    · by_cases hhalted : rt.state.halted = true
      · rw [compute_halted host ctx rt hguard hempty hhalted]
        rw [compute_halted host ctx (haltFrozen rt) hguard hempty hhalted]
        rfl
      · have hrun : rt.state.halted = false := by simpa using hhalted
        rcases h with h | h | ⟨h0, h1⟩
        · exact absurd h hhalted
        · exact absurd h hempty
        · obtain ⟨instruction, hins⟩ := getElem?_toNat_some_of_range rt.program rt.state.ip h0 h1
          rw [compute_exec host ctx rt instruction hguard hempty hrun h0 h1 hins]
          rw [compute_exec host ctx { rt with buffer := stagedBuffer host ctx rt instruction }
            instruction hguard hempty hrun h0 h1 hins]
          simp only [stagedBuffer_idem]

theorem compute_idempotent_in_range_witness :
    ((createGenomeRuntime basicHost exploreProgram).state.halted = true ∨
        (createGenomeRuntime basicHost exploreProgram).program.length = 0 ∨
        (0 ≤ (createGenomeRuntime basicHost exploreProgram).state.ip ∧
          (createGenomeRuntime basicHost exploreProgram).state.ip ≤
            ((createGenomeRuntime basicHost exploreProgram).program.length : ℤ) - 1)) ∧
      compute basicHost firstTickContext
          (compute basicHost firstTickContext (createGenomeRuntime basicHost exploreProgram)) =
        compute basicHost firstTickContext (createGenomeRuntime basicHost exploreProgram) :=
  ⟨Or.inr (Or.inr (by decide)),
   compute_idempotent_in_range basicHost firstTickContext
    (createGenomeRuntime basicHost exploreProgram) (Or.inr (Or.inr (by decide)))⟩

/-- C11 (counterexample): on the state `{ ip: 5, halted: false, lastTick: -1 }` with the
one-instruction program `GOTO(0)`, the first `compute` of tick 0 stages next-ip 0 and
halts the state, and a second `compute` in a row stages next-ip 5. -/
theorem compute_twice_differs_on_stray_ip :
    (compute basicHost firstTickContext strayRuntime).buffer.nextIp = .finite 0 ∧
      (compute basicHost firstTickContext
        (compute basicHost firstTickContext strayRuntime)).buffer.nextIp = .finite 5 ∧
      (compute basicHost firstTickContext
        (compute basicHost firstTickContext strayRuntime)).buffer ≠
        (compute basicHost firstTickContext strayRuntime).buffer := by
  decide
theorem setProgram_consistent (host : JsHost) (programSource : JsVal) (info : ProgramInfo)
    (rt : GenomeRuntime) : (setProgram host programSource info rt).Consistent := by
  constructor
  · intro h
    simpa [setProgram] using h
  · intro h
    simp only [setProgram, beq_eq_false_iff_ne, ne_eq] at h ⊢
    have hpos : 0 < (normalizeGenomeProgram host programSource).length := Nat.pos_of_ne_zero h
    omega

theorem commit_consistent (ctx : TickContext) (rt : GenomeRuntime) :
    (commit ctx rt).1.Consistent := by
  constructor
  · intro h
    have h' : rt.program.length = 0 := h
    simp [commit, h']
  · intro h
    simp only [commit, Bool.or_eq_false_iff, decide_eq_false_iff_not, not_lt] at h ⊢
    obtain ⟨⟨⟨_, h1⟩, h2⟩, _⟩ := h
    exact ⟨h1, h2⟩

/-- C12 (as amended): `compute` never changes ip, last-tick or the program, and it never
clears the halted flag; on every state consistent with its program (an empty program is
halted, a state that is not halted has its ip inside the program) it leaves the state as
it was, so that only the staging buffer changes; `setProgram` and `commit` leave such
states. -/
theorem compute_state_frame (host : JsHost) (ctx : TickContext) (rt : GenomeRuntime)
    (programSource : JsVal) (info : ProgramInfo) :
    (compute host ctx rt).state.ip = rt.state.ip ∧
      (compute host ctx rt).state.lastTick = rt.state.lastTick ∧
      (compute host ctx rt).program = rt.program ∧
      (rt.state.halted = true → (compute host ctx rt).state.halted = true) ∧
      (rt.Consistent → (compute host ctx rt).state = rt.state) ∧
      (setProgram host programSource info rt).Consistent ∧
      (commit ctx rt).1.Consistent := by
  refine ⟨?_, ?_, ?_, ?_, ?_, setProgram_consistent host programSource info rt,
    commit_consistent ctx rt⟩
  · unfold compute
    simp only
    split_ifs <;> try rfl
    split <;> rfl
  · unfold compute
    simp only
    split_ifs <;> try rfl
    split <;> rfl
  · unfold compute
    simp only
    split_ifs <;> try rfl
    split <;> rfl
  · intro hh
    unfold compute
    simp only
    split_ifs <;> try first | exact hh | rfl
  · intro hc
    obtain ⟨hc1, hc2⟩ := hc
    by_cases hguard : rt.state.lastTick = ctx.tick.getD 0
    · rw [compute_guard host ctx rt hguard]
    · by_cases hempty : rt.program.length = 0
      · rw [compute_empty host ctx rt hguard hempty]
        have hh := hc1 hempty
        cases hs : rt.state with
        | mk ip halted lastTick =>
          rw [hs] at hh
          simp only at hh
          simp [haltEmpty, hs, hh]
      · by_cases hhalted : rt.state.halted = true
        · rw [compute_halted host ctx rt hguard hempty hhalted]
          rfl
        · have hrun : rt.state.halted = false := by simpa using hhalted
          obtain ⟨h0, h1⟩ := hc2 hrun
          obtain ⟨instruction, hins⟩ := getElem?_toNat_some_of_range rt.program rt.state.ip h0 h1
          rw [compute_exec host ctx rt instruction hguard hempty hrun h0 h1 hins]

theorem compute_state_frame_witness :
    (createGenomeRuntime basicHost exploreProgram).Consistent ∧
      (compute basicHost firstTickContext (createGenomeRuntime basicHost exploreProgram)).state =
        (createGenomeRuntime basicHost exploreProgram).state :=
  ⟨⟨by decide, fun _ => by decide⟩,
   (compute_state_frame basicHost firstTickContext (createGenomeRuntime basicHost exploreProgram)
      exploreProgram noInfo).2.2.2.2.1 ⟨by decide, fun _ => by decide⟩⟩

/-- C12 (counterexample): on the state `{ ip: 0, halted: false, lastTick: -1 }` with an
empty program, `compute` sets the halted flag of the state. -/
theorem compute_halts_state_on_empty_program :
    unhaltedEmptyRuntime.state.halted = false ∧
      (compute basicHost firstTickContext unhaltedEmptyRuntime).state.halted = true ∧
      (compute basicHost firstTickContext unhaltedEmptyRuntime).state ≠
        unhaltedEmptyRuntime.state := by
  decide
theorem commit_after_frozen (ctx : TickContext) (rt : GenomeRuntime) (ip : ℤ)
    (hnext : rt.buffer.nextIp = .finite (ip : ℚ)) (hhalted : rt.buffer.halted = true) :
    (commit ctx rt).1.state.ip = ip ∧ (commit ctx rt).1.state.halted = true := by
  simp [commit, hnext, hhalted]

theorem clampIndex_outside (ip lastIndex : ℤ) (hlast : 0 ≤ lastIndex)
    (hout : ip < 0 ∨ ip > lastIndex) :
    clampIndex (.finite (ip : ℚ)) lastIndex = if ip < 0 then 0 else lastIndex := by
  have hmax : max 0 lastIndex = lastIndex := max_eq_right hlast
  simp only [clampIndex, Int.floor_intCast, hmax]
  split_ifs <;> omega

/-- C13 (as amended): on a tick not yet processed, `compute` raises no error and stages
`halted = true` in each of the three cases. When the state is halted or the program is
empty the staged next-ip is the current ip and the following `commit` leaves ip unchanged
and the state halted. When the state is not halted, the program is not empty and ip lies
outside `[0, length-1]`, the staged next-ip is ip clamped into the program, 0 below it and
`length-1` above it, and the following `commit` moves ip there and leaves the state
halted. -/
theorem compute_halts_and_freezes_or_clamps (host : JsHost) (ctx : TickContext)
    (rt : GenomeRuntime) (hfresh : rt.state.lastTick ≠ ctx.tick.getD 0) :
    ((rt.state.halted = true ∨ rt.program.length = 0) →
        (compute host ctx rt).buffer.halted = true ∧
        (compute host ctx rt).buffer.nextIp = .finite (rt.state.ip : ℚ) ∧
        (commit ctx (compute host ctx rt)).1.state.ip = rt.state.ip ∧
        (commit ctx (compute host ctx rt)).1.state.halted = true) ∧
      (rt.state.halted = false → rt.program.length ≠ 0 →
        (rt.state.ip < 0 ∨ rt.state.ip > (rt.program.length : ℤ) - 1) →
        (compute host ctx rt).buffer.halted = true ∧
        (compute host ctx rt).buffer.nextIp =
          .finite (((if rt.state.ip < 0 then 0 else (rt.program.length : ℤ) - 1 : ℤ)) : ℚ) ∧
        (commit ctx (compute host ctx rt)).1.state.ip =
          (if rt.state.ip < 0 then 0 else (rt.program.length : ℤ) - 1) ∧
        (commit ctx (compute host ctx rt)).1.state.halted = true) := by
  constructor
  · intro h
    have hbuf : (compute host ctx rt).buffer.halted = true ∧
        (compute host ctx rt).buffer.nextIp = .finite (rt.state.ip : ℚ) := by
      by_cases hempty : rt.program.length = 0
      · rw [compute_empty host ctx rt hfresh hempty]
        exact ⟨rfl, rfl⟩
      · have hhalted : rt.state.halted = true := by
          rcases h with h | h
          · exact h
          · exact absurd h hempty
        rw [compute_halted host ctx rt hfresh hempty hhalted]
        exact ⟨rfl, rfl⟩
    exact ⟨hbuf.1, hbuf.2, commit_after_frozen ctx _ _ hbuf.2 hbuf.1⟩
  · intro hrun hne hout
    have hlast : (0 : ℤ) ≤ (rt.program.length : ℤ) - 1 := by
      have := Nat.pos_of_ne_zero hne
      omega
    have hbuf : (compute host ctx rt).buffer.halted = true ∧
        (compute host ctx rt).buffer.nextIp =
          .finite (((if rt.state.ip < 0 then 0 else (rt.program.length : ℤ) - 1 : ℤ)) : ℚ) := by
      rw [compute_outOfRange host ctx rt hfresh hne hrun hout]
      refine ⟨rfl, ?_⟩
      simp only [haltOutOfRange]
      rw [clampIndex_outside _ _ hlast hout]
    exact ⟨hbuf.1, hbuf.2, commit_after_frozen ctx _ _ hbuf.2 hbuf.1⟩

theorem compute_halts_and_freezes_or_clamps_witness :
    strayRuntime.state.lastTick ≠ firstTickContext.tick.getD 0 ∧
      (((strayRuntime.state.halted = true ∨ strayRuntime.program.length = 0) →
        (compute basicHost firstTickContext strayRuntime).buffer.halted = true ∧
        (compute basicHost firstTickContext strayRuntime).buffer.nextIp =
          .finite (strayRuntime.state.ip : ℚ) ∧
        (commit firstTickContext (compute basicHost firstTickContext strayRuntime)).1.state.ip =
          strayRuntime.state.ip ∧
        (commit firstTickContext
          (compute basicHost firstTickContext strayRuntime)).1.state.halted = true) ∧
      (strayRuntime.state.halted = false → strayRuntime.program.length ≠ 0 →
        (strayRuntime.state.ip < 0 ∨
          strayRuntime.state.ip > (strayRuntime.program.length : ℤ) - 1) →
        (compute basicHost firstTickContext strayRuntime).buffer.halted = true ∧
        (compute basicHost firstTickContext strayRuntime).buffer.nextIp =
          .finite (((if strayRuntime.state.ip < 0 then 0
            else (strayRuntime.program.length : ℤ) - 1 : ℤ)) : ℚ) ∧
        (commit firstTickContext (compute basicHost firstTickContext strayRuntime)).1.state.ip =
          (if strayRuntime.state.ip < 0 then 0 else (strayRuntime.program.length : ℤ) - 1) ∧
        (commit firstTickContext
          (compute basicHost firstTickContext strayRuntime)).1.state.halted = true)) :=
  ⟨by decide, compute_halts_and_freezes_or_clamps basicHost firstTickContext strayRuntime
    (by decide)⟩

/-- C13 (counterexample): with the one-instruction program `GOTO(0)` and the state
`{ ip: 5, halted: false, lastTick: -1 }`, whose ip lies outside `[0, 0]`, `compute` of tick
0 stages next-ip 0, not the current ip 5, and the following `commit` moves ip to 0. On
the halted state already stamped with tick 0, `compute` of tick 0 stages nothing: the
stale buffer keeps `halted = false` and next-ip 1, and the following `commit` moves ip
to 1. -/
theorem compute_does_not_freeze_stray_ip :
    (strayRuntime.state.ip < 0 ∨ strayRuntime.state.ip > (strayRuntime.program.length : ℤ) - 1) ∧
      (compute basicHost firstTickContext strayRuntime).buffer.nextIp = .finite 0 ∧
      (compute basicHost firstTickContext strayRuntime).buffer.nextIp ≠
        .finite (strayRuntime.state.ip : ℚ) ∧
      (commit firstTickContext (compute basicHost firstTickContext strayRuntime)).1.state.ip = 0 ∧
      staleBufferRuntime.state.halted = true ∧
      (compute basicHost firstTickContext staleBufferRuntime).buffer.halted = false ∧
      (compute basicHost firstTickContext staleBufferRuntime).buffer.nextIp = .finite 1 ∧
      (commit firstTickContext
        (compute basicHost firstTickContext staleBufferRuntime)).1.state.ip = 1 := by
  decide

theorem mem_normalize_args (host : JsHost) (programInput : JsVal) (instruction : Instruction)
    (h : instruction ∈ normalizeGenomeProgram host programInput) :
    ∃ prepared, instruction.args =
      finalizeArgs instruction.op prepared
        (((normalizeGenomeProgram host programInput).length : ℤ) - 1) := by
  cases programInput with
  | arr entries =>
    rw [normalizeGenomeProgram_length]
    simp only [normalizeGenomeProgram, List.mem_map] at h
    obtain ⟨entry, _, rfl⟩ := h
    exact ⟨entry.args, rfl⟩
  | undefined => simp [normalizeGenomeProgram] at h
  | null => simp [normalizeGenomeProgram] at h
  | bool b => simp [normalizeGenomeProgram] at h
  | num n => simp [normalizeGenomeProgram] at h
  | str s => simp [normalizeGenomeProgram] at h
  | obj f => simp [normalizeGenomeProgram] at h

theorem normalized_unit_arg (host : JsHost) (programInput : JsVal) (op : Opcode) (x : JsNum)
    (hop : op = .SET_EXPLORE ∨ op = .SET_BOND_THRESHOLD)
    (h : ({ op := op, args := [x] } : Instruction) ∈ normalizeGenomeProgram host programInput) :
    ∃ v : ℚ, x = .finite v ∧ 0 ≤ v ∧ v ≤ 1 := by
  obtain ⟨prepared, hargs⟩ := mem_normalize_args host programInput _ h
  rcases hop with rfl | rfl
  · simp only [finalizeArgs, List.cons.injEq, and_true] at hargs
    exact ⟨_, hargs, (clamp_bounds _ 0 1 (by norm_num)).1, (clamp_bounds _ 0 1 (by norm_num)).2⟩
  · simp only [finalizeArgs, List.cons.injEq, and_true] at hargs
    exact ⟨_, hargs, (clamp_bounds _ 0 1 (by norm_num)).1, (clamp_bounds _ 0 1 (by norm_num)).2⟩

theorem mem_of_getElem?_eq_some {α : Type} (l : List α) (i : ℕ) (a : α) (h : l[i]? = some a) :
    a ∈ l := by
  obtain ⟨hi, rfl⟩ := List.getElem?_eq_some.mp h
  exact List.getElem_mem hi

theorem genomeTick_exec (host : JsHost) (ctx : TickContext) (rt : GenomeRuntime)
    (instruction : Instruction)
    (hfresh : rt.state.lastTick ≠ ctx.tick.getD 0) (hrun : rt.state.halted = false)
    (h0 : 0 ≤ rt.state.ip) (hins : rt.program[rt.state.ip.toNat]? = some instruction) :
    compute host ctx (capture ctx rt) =
        { capture ctx rt with buffer := stagedBuffer host ctx (capture ctx rt) instruction } ∧
      (genomeTick host ctx rt).2 =
        ctx.bundle.map (commitBundle (stagedBuffer host ctx (capture ctx rt) instruction)) := by
  obtain ⟨hlt, _⟩ := List.getElem?_eq_some.mp hins
  have hne : rt.program.length ≠ 0 := by omega
  have h1 : rt.state.ip ≤ (rt.program.length : ℤ) - 1 := by omega
  have hc := compute_exec host ctx (capture ctx rt) instruction hfresh hne hrun h0 h1 hins
  refine ⟨hc, ?_⟩
  simp only [genomeTick]
  rw [hc]
  rfl

/-- C14 (as amended): with a program installed by normalization, on a tick that executes
the instruction at ip against a record whose `alive` flag is not `false`, `commit` copies
the staged key alone: after `SET_EXPLORE(x)` the record's `distress` is `x` and its `bond`
is as before, and after `SET_BOND_THRESHOLD(t)` its `bond` is the double nearest to
`1 - t`, which is within `2 ^ -54` of `1 - t`, and its `distress` is as before. -/
theorem commit_copies_each_staged_key (host : JsHost) (programInput : JsVal)
    (rt : GenomeRuntime) (tick : Option ℤ) (dt : JsVal) (b : Bundle)
    (hprog : rt.program = normalizeGenomeProgram host programInput)
    (hfresh : rt.state.lastTick ≠ tick.getD 0) (hrun : rt.state.halted = false)
    (h0 : 0 ≤ rt.state.ip) (hgate : b.alive ≠ .bool false) :
    (∀ x : JsNum, rt.program[rt.state.ip.toNat]? = some { op := .SET_EXPLORE, args := [x] } →
        ∃ b2 : Bundle, (genomeTick host { tick := tick, dt := dt, bundle := some b } rt).2 = some b2 ∧
          b2.distress = some (.num x) ∧ b2.bond = b.bond) ∧
      (∀ t : ℚ, rt.program[rt.state.ip.toNat]? =
          some { op := .SET_BOND_THRESHOLD, args := [.finite t] } →
        ∃ b2 : Bundle, (genomeTick host { tick := tick, dt := dt, bundle := some b } rt).2 = some b2 ∧
          b2.bond = some (.num (.finite (roundDouble (1 - t)))) ∧
          |roundDouble (1 - t) - (1 - t)| ≤ 1 / 2 ^ 54 ∧ b2.distress = b.distress) := by
  have hopen : canMutateOf (some b) = true := by
    cases hb : b.alive with
    | bool v =>
      cases v with
      | false => exact absurd hb hgate
      | true => simp [canMutateOf, hb]
    | undefined => simp [canMutateOf, hb]
    | null => simp [canMutateOf, hb]
    | num n => simp [canMutateOf, hb]
    | str s => simp [canMutateOf, hb]
    | arr items => simp [canMutateOf, hb]
    | obj fields => simp [canMutateOf, hb]
  constructor
  · intro x hins
    obtain ⟨v, rfl, hv0, hv1⟩ := normalized_unit_arg host programInput .SET_EXPLORE x (Or.inl rfl)
      (hprog ▸ mem_of_getElem?_eq_some _ _ _ hins)
    obtain ⟨_, hb⟩ := genomeTick_exec host { tick := tick, dt := dt, bundle := some b } rt _
      hfresh hrun h0 hins
    refine ⟨_, hb, ?_, ?_⟩
    · simp [commitBundle, stagedBuffer, hopen, execInstruction, applyBiasUpdates, capture,
        resetBuffer, Bundle.distress, clamp01, clamp_of_mem _ _ _ hv0 hv1]
    · cases hib : b.interpretation_bias <;>
        simp [commitBundle, stagedBuffer, hopen, execInstruction, applyBiasUpdates, capture,
          resetBuffer, Bundle.bond, hib, emptyBias]
  · intro t hins
    obtain ⟨v, hv, hv0, hv1⟩ := normalized_unit_arg host programInput .SET_BOND_THRESHOLD
      (.finite t) (Or.inr rfl) (hprog ▸ mem_of_getElem?_eq_some _ _ _ hins)
    have htv : t = v := by simpa using hv
    subst htv
    obtain ⟨_, hb⟩ := genomeTick_exec host { tick := tick, dt := dt, bundle := some b } rt _
      hfresh hrun h0 hins
    have h1 : (0 : ℚ) ≤ 1 - t := by linarith
    have h2 : 1 - t ≤ (1 : ℚ) := by linarith
    have hr := roundDouble_unit h1 h2
    refine ⟨_, hb, ?_, roundDouble_unit_error h1 h2, ?_⟩
    · simp [commitBundle, stagedBuffer, hopen, execInstruction, applyBiasUpdates, capture,
        resetBuffer, Bundle.bond, clamp01, clamp_of_mem _ _ _ hv0 hv1,
        clamp_of_mem _ _ _ hr.1 hr.2]
    · cases hib : b.interpretation_bias <;>
        simp [commitBundle, stagedBuffer, hopen, execInstruction, applyBiasUpdates, capture,
          resetBuffer, Bundle.distress, hib, emptyBias]

theorem commit_copies_each_staged_key_witness :
    ∃ b2 : Bundle,
      (genomeTick basicHost { tick := some 0, dt := .num (.finite 1), bundle := some liveRecord }
        (createGenomeRuntime basicHost exploreProgram)).2 = some b2 ∧
      b2.distress = some (.num (.finite 1)) ∧ b2.bond = liveRecord.bond :=
  (commit_copies_each_staged_key basicHost exploreProgram
    (createGenomeRuntime basicHost exploreProgram) (some 0) (.num (.finite 1)) liveRecord rfl
    (by decide) rfl (by decide) (by simp [liveRecord])).1 (.finite 1) (by decide)

theorem GenomeRuntime.Executes.compute_eq {rt : GenomeRuntime} {ctx : TickContext}
    {instruction : Instruction} (h : rt.Executes ctx instruction) (host : JsHost) :
    compute host ctx rt = { rt with buffer := stagedBuffer host ctx rt instruction } := by
  obtain ⟨hfresh, hrun, h0, hins⟩ := h
  obtain ⟨hlt, _⟩ := List.getElem?_eq_some.mp hins
  exact compute_exec host ctx rt instruction hfresh (by omega) hrun h0 (by omega) hins

theorem clamp_eq_max_min (v lo hi : ℚ) (h : lo ≤ hi) :
    clamp (.finite v) lo hi = max lo (min hi v) := by
  unfold clamp
  simp only
  split_ifs with h1 h2
  · rw [max_eq_left]
    exact le_trans (min_le_right _ _) (le_of_lt h1)
  · rw [min_eq_left (le_of_lt h2), max_eq_right h]
  · rw [min_eq_right (not_lt.mp h2), max_eq_right (not_lt.mp h1)]

theorem compute_stages_bond (host : JsHost) (ctx : TickContext) (rt : GenomeRuntime) (t : ℚ)
    (hexec : rt.Executes ctx { op := .SET_BOND_THRESHOLD, args := [.finite t] })
    (ht0 : 0 ≤ t) (ht1 : t ≤ 1) :
    (compute host ctx rt).buffer.biasUpdates.bond = some (.finite (roundDouble (1 - t))) := by
  rw [hexec.compute_eq host]
  have ha : (0 : ℚ) ≤ 1 - t := by linarith
  have hb : 1 - t ≤ (1 : ℚ) := by linarith
  have hr := roundDouble_unit ha hb
  simp [stagedBuffer, execInstruction, clamp01, clamp_of_mem _ _ _ ht0 ht1,
    clamp_of_mem _ _ _ hr.1 hr.2]

/-- C15 (as amended): executing a `SET_BOND_THRESHOLD(t)` with `t` in `[0,1]`, as
normalization leaves it, `compute` stages as `bond` the double nearest to `1 - t`, which
is within `2 ^ -54` of `1 - t`; and of two such instructions with thresholds `t1 ≤ t2`,
the one with the lower threshold stages the greater or equal bond. -/
theorem staged_bond_is_inverse (host : JsHost) (ctx1 ctx2 : TickContext)
    (rt1 rt2 : GenomeRuntime) (t1 t2 : ℚ)
    (hexec1 : rt1.Executes ctx1 { op := .SET_BOND_THRESHOLD, args := [.finite t1] })
    (hexec2 : rt2.Executes ctx2 { op := .SET_BOND_THRESHOLD, args := [.finite t2] })
    (h0 : 0 ≤ t1) (h12 : t1 ≤ t2) (h1 : t2 ≤ 1) :
    ∃ b1 b2 : ℚ,
      (compute host ctx1 rt1).buffer.biasUpdates.bond = some (.finite b1) ∧
      (compute host ctx2 rt2).buffer.biasUpdates.bond = some (.finite b2) ∧
      b1 = roundDouble (1 - t1) ∧ b2 = roundDouble (1 - t2) ∧
      |b1 - (1 - t1)| ≤ 1 / 2 ^ 54 ∧ |b2 - (1 - t2)| ≤ 1 / 2 ^ 54 ∧ b2 ≤ b1 :=
  ⟨roundDouble (1 - t1), roundDouble (1 - t2),
    compute_stages_bond host ctx1 rt1 t1 hexec1 h0 (le_trans h12 h1),
    compute_stages_bond host ctx2 rt2 t2 hexec2 (le_trans h0 h12) h1, rfl, rfl,
    roundDouble_unit_error (by linarith) (by linarith),
    roundDouble_unit_error (by linarith) (by linarith),
    roundDouble_mono (by linarith) (by linarith)⟩

theorem staged_bond_is_inverse_witness :
    (createGenomeRuntime basicHost (bondProgram 0)).Executes firstTickContext
        { op := .SET_BOND_THRESHOLD, args := [.finite 0] } ∧
      (createGenomeRuntime basicHost (bondProgram 1)).Executes firstTickContext
        { op := .SET_BOND_THRESHOLD, args := [.finite 1] } ∧
      ∃ b1 b2 : ℚ,
        (compute basicHost firstTickContext
          (createGenomeRuntime basicHost (bondProgram 0))).buffer.biasUpdates.bond =
          some (.finite b1) ∧
        (compute basicHost firstTickContext
          (createGenomeRuntime basicHost (bondProgram 1))).buffer.biasUpdates.bond =
          some (.finite b2) ∧
        b1 = roundDouble (1 - 0) ∧ b2 = roundDouble (1 - 1) ∧
        |b1 - (1 - 0)| ≤ 1 / 2 ^ 54 ∧ |b2 - (1 - 1)| ≤ 1 / 2 ^ 54 ∧ b2 ≤ b1 :=
  ⟨by decide, by decide,
   staged_bond_is_inverse basicHost firstTickContext firstTickContext
    (createGenomeRuntime basicHost (bondProgram 0)) (createGenomeRuntime basicHost (bondProgram 1))
    0 1 (by decide) (by decide) (by norm_num) (by norm_num) (by norm_num)⟩

theorem stage_int_nextIp (q : ℚ) (n lastIndex : ℤ) (hq : q = (n : ℚ)) (hn : 0 ≤ n) :
    (if (JsNum.lt (.finite q) (.finite 0) || JsNum.lt (.finite (lastIndex : ℚ)) (.finite q)) = true
      then (if JsNum.lt (.finite q) (.finite 0) = true then JsNum.finite 0 else .finite q)
      else (JsNum.finite q).floor) = .finite q := by
  subst hq
  have hn' : ¬ ((n : ℚ) < 0) := by
    have : (0 : ℚ) ≤ (n : ℚ) := by exact_mod_cast hn
    exact not_lt.mpr this
  simp only [JsNum.lt, JsNum.floor, hn', decide_False, Bool.false_or, Int.floor_intCast]
  split_ifs <;> first | rfl | contradiction

theorem normalized_branch_args (host : JsHost) (programInput : JsVal) (op : Opcode) (v tq : ℚ)
    (hop : op = .IF_HUNGER_GT ∨ op = .IF_CHI_LT)
    (h : ({ op := op, args := [.finite v, .finite tq] } : Instruction) ∈
      normalizeGenomeProgram host programInput) :
    ∃ t : ℤ, tq = (t : ℚ) ∧ 0 ≤ t := by
  obtain ⟨prepared, hargs⟩ := mem_normalize_args host programInput _ h
  have hpos : 0 < (normalizeGenomeProgram host programInput).length := List.length_pos_of_mem h
  have hlast : (0 : ℤ) ≤ ((normalizeGenomeProgram host programInput).length : ℤ) - 1 := by omega
  rcases hop with rfl | rfl
  · simp only [finalizeArgs, List.cons.injEq, JsNum.finite.injEq, and_true] at hargs
    exact ⟨_, hargs.2, (clampIndex_bounds _ _ hlast).1⟩
  · simp only [finalizeArgs, List.cons.injEq, JsNum.finite.injEq, and_true] at hargs
    exact ⟨_, hargs.2, (clampIndex_bounds _ _ hlast).1⟩

theorem execInstruction_hunger (host : JsHost) (bundle : Option Bundle) (v tq : ℚ)
    (nextIp : JsNum) (updates : BiasUpdates) (hunger : ℚ)
    (hh : hunger = match bundle with
      | some b => clamp01 (.finite (toFiniteNumber host b.hunger 0))
      | none => 0) :
    (execInstruction host bundle { op := .IF_HUNGER_GT, args := [.finite v, .finite tq] }
      nextIp updates).1 = if v < hunger then .finite tq else nextIp := by
  subst hh
  cases bundle <;> simp only [execInstruction, JsNum.lt, List.getElem?_cons_zero,
    Option.getD_some, List.getElem?_cons_succ, decide_eq_true_eq] <;> split_ifs <;> rfl

theorem execInstruction_chi (host : JsHost) (bundle : Option Bundle) (v tq : ℚ)
    (nextIp : JsNum) (updates : BiasUpdates) (chi : ℚ)
    (hc : chi = match bundle with
      | some b => clamp (asNumber (nullish b.chi (.num (.finite 0)))) 0 MAX_CHI_THRESHOLD
      | none => 0) :
    (execInstruction host bundle { op := .IF_CHI_LT, args := [.finite v, .finite tq] }
      nextIp updates).1 = if chi < v then .finite tq else nextIp := by
  subst hc
  cases bundle <;> simp only [execInstruction, JsNum.lt, List.getElem?_cons_zero,
    Option.getD_some, List.getElem?_cons_succ, decide_eq_true_eq] <;> split_ifs <;> rfl

theorem stagedBuffer_branch (host : JsHost) (ctx : TickContext) (rt : GenomeRuntime)
    (instruction : Instruction) (c : Prop) [Decidable c] (t : ℤ) (ht : 0 ≤ t)
    (hip : 0 ≤ rt.state.ip)
    (hstep : (execInstruction host ctx.bundle instruction (.finite ((rt.state.ip : ℚ) + 1))
      rt.buffer.biasUpdates).1 = if c then .finite (t : ℚ) else .finite ((rt.state.ip : ℚ) + 1)) :
    (stagedBuffer host ctx rt instruction).nextIp =
      if c then .finite (t : ℚ) else .finite ((rt.state.ip : ℚ) + 1) := by
  simp only [stagedBuffer, hstep]
  by_cases hc : c
  · simp only [hc, if_true]
    exact stage_int_nextIp _ t _ rfl ht
  · simp only [hc, if_false]
    exact stage_int_nextIp _ (rt.state.ip + 1) _ (by push_cast; rfl) (by omega)

/-- C16: with a program installed by normalization, executing `IF_HUNGER_GT(threshold,
target)` at ip stages next-ip `target` when the record's hunger clamped to `[0,1]` is
strictly greater than the threshold and `ip + 1` otherwise, and executing
`IF_CHI_LT(threshold, target)` stages next-ip `target` when the record's chi clamped to
`[0, MAX]` is strictly less than the threshold and `ip + 1` otherwise, where
`MAX = 4 * startChi = 60`; without a record both quantities are 0. -/
theorem conditional_opcodes_next_ip (host : JsHost) (programInput : JsVal) (ctx : TickContext)
    (rt : GenomeRuntime) (v tq : ℚ)
    (hprog : rt.program = normalizeGenomeProgram host programInput) :
    (rt.Executes ctx { op := .IF_HUNGER_GT, args := [.finite v, .finite tq] } →
        ∃ hunger : ℚ, 0 ≤ hunger ∧ hunger ≤ 1 ∧ (ctx.bundle = none → hunger = 0) ∧
          (∀ b q, ctx.bundle = some b → b.hunger = .num (.finite q) → hunger = max 0 (min 1 q)) ∧
          (compute host ctx rt).buffer.nextIp =
            if v < hunger then .finite tq else .finite ((rt.state.ip : ℚ) + 1)) ∧
      (rt.Executes ctx { op := .IF_CHI_LT, args := [.finite v, .finite tq] } →
        ∃ chi : ℚ, 0 ≤ chi ∧ chi ≤ 60 ∧ (ctx.bundle = none → chi = 0) ∧
          (∀ b q, ctx.bundle = some b → b.chi = .num (.finite q) → chi = max 0 (min 60 q)) ∧
          (compute host ctx rt).buffer.nextIp =
            if chi < v then .finite tq else .finite ((rt.state.ip : ℚ) + 1)) ∧
      MAX_CHI_THRESHOLD = 4 * startChi ∧ MAX_CHI_THRESHOLD = 60 := by
  have hmax : MAX_CHI_THRESHOLD = 60 := by norm_num [MAX_CHI_THRESHOLD, startChi]
  have h60 : (0 : ℚ) ≤ MAX_CHI_THRESHOLD := MAX_CHI_THRESHOLD_nonneg
  refine ⟨?_, ?_, by norm_num [MAX_CHI_THRESHOLD, startChi], hmax⟩
  · intro hexec
    obtain ⟨t, rfl, ht⟩ := normalized_branch_args host programInput .IF_HUNGER_GT v tq
      (Or.inl rfl) (hprog ▸ mem_of_getElem?_eq_some _ _ _ hexec.2.2.2)
    have hnext : ∀ hunger : ℚ, (hunger = match ctx.bundle with
        | some b => clamp01 (.finite (toFiniteNumber host b.hunger 0))
        | none => 0) →
        (compute host ctx rt).buffer.nextIp =
          if v < hunger then .finite (t : ℚ) else .finite ((rt.state.ip : ℚ) + 1) := by
      intro hunger hh
      rw [hexec.compute_eq host]
      exact stagedBuffer_branch host ctx rt _ (v < hunger) t ht hexec.2.2.1
        (execInstruction_hunger host ctx.bundle v t _ _ hunger hh)
    cases hb : ctx.bundle with
    | none =>
      refine ⟨0, le_refl _, by norm_num, fun _ => rfl, fun b q h => by simp at h, ?_⟩
      exact hnext 0 (by rw [hb])
    | some b =>
      refine ⟨clamp01 (.finite (toFiniteNumber host b.hunger 0)),
        (clamp_bounds _ 0 1 (by norm_num)).1, (clamp_bounds _ 0 1 (by norm_num)).2,
        fun h => by simp at h, ?_, hnext _ (by rw [hb])⟩
      intro b2 q hb2 hq
      have hbb : b = b2 := by simpa using hb2
      subst hbb
      rw [hq, toFiniteNumber_finite]
      exact clamp_eq_max_min q 0 1 (by norm_num)
  · intro hexec
    obtain ⟨t, rfl, ht⟩ := normalized_branch_args host programInput .IF_CHI_LT v tq
      (Or.inr rfl) (hprog ▸ mem_of_getElem?_eq_some _ _ _ hexec.2.2.2)
    have hnext : ∀ chi : ℚ, (chi = match ctx.bundle with
        | some b => clamp (asNumber (nullish b.chi (.num (.finite 0)))) 0 MAX_CHI_THRESHOLD
        | none => 0) →
        (compute host ctx rt).buffer.nextIp =
          if chi < v then .finite (t : ℚ) else .finite ((rt.state.ip : ℚ) + 1) := by
      intro chi hc
      rw [hexec.compute_eq host]
      exact stagedBuffer_branch host ctx rt _ (chi < v) t ht hexec.2.2.1
        (execInstruction_chi host ctx.bundle v t _ _ chi hc)
    cases hb : ctx.bundle with
    | none =>
      refine ⟨0, le_refl _, by norm_num, fun _ => rfl, fun b q h => by simp at h, ?_⟩
      exact hnext 0 (by rw [hb])
    | some b =>
      have hle : clamp (asNumber (nullish b.chi (.num (.finite 0)))) 0 MAX_CHI_THRESHOLD ≤ 60 := by
        have h := (clamp_bounds (asNumber (nullish b.chi (.num (.finite 0)))) 0 _ h60).2
        rw [hmax] at h
        rw [hmax]
        exact h
      refine ⟨clamp (asNumber (nullish b.chi (.num (.finite 0)))) 0 MAX_CHI_THRESHOLD,
        (clamp_bounds _ 0 _ h60).1, hle, fun h => by simp at h, ?_, hnext _ (by rw [hb])⟩
      intro b2 q hb2 hq
      have hbb : b = b2 := by simpa using hb2
      subst hbb
      rw [hq]
      simp only [nullish, asNumber]
      rw [hmax]
      exact clamp_eq_max_min q 0 60 (by norm_num)

theorem conditional_opcodes_next_ip_witness :
    (createGenomeRuntime basicHost branchProgram).program =
        normalizeGenomeProgram basicHost branchProgram ∧
      ∃ hunger : ℚ, 0 ≤ hunger ∧ hunger ≤ 1 ∧ (liveContext.bundle = none → hunger = 0) ∧
        (∀ b q, liveContext.bundle = some b → b.hunger = .num (.finite q) →
          hunger = max 0 (min 1 q)) ∧
        (compute basicHost liveContext (createGenomeRuntime basicHost branchProgram)).buffer.nextIp =
          if 0 < hunger then .finite 2
          else .finite (((createGenomeRuntime basicHost branchProgram).state.ip : ℚ) + 1) :=
  ⟨rfl, (conditional_opcodes_next_ip basicHost branchProgram liveContext
    (createGenomeRuntime basicHost branchProgram) 0 2 rfl).1 (by decide)⟩

/-! ## Normalization: accepted entries and argument ranges -/

theorem map_op_rawInstruction (x : Option Opcode) (args : List JsVal) :
    (x.map fun op => ({ op := op, args := args } : RawInstruction)).map (fun r => r.op) = x := by
  cases x <;> rfl

theorem normalizeInstruction_op (host : JsHost) (entry : JsVal) :
    (normalizeInstruction host entry).map (fun r => r.op) = acceptedOpcode host entry := by
  unfold normalizeInstruction acceptedOpcode
  by_cases ht : entry.truthy = true
  · simp only [ht, Bool.not_true, Bool.false_eq_true, if_false, if_true]
    cases entry with
    | str s => exact map_op_rawInstruction _ _
    | arr items =>
      cases items with
      | nil => rfl
      | cons opInput rest =>
        cases opInput with
        | str s => exact map_op_rawInstruction _ _
        | undefined => rfl
        | null => rfl
        | bool b => rfl
        | num n => rfl
        | arr a => rfl
        | obj f => rfl
    | obj fields =>
      simp only [resolveOp]
      cases ((getProp fields "op").or (getProp fields "instruction")).or (getProp fields "code") with
      | str s => exact map_op_rawInstruction _ _
      | undefined => rfl
      | null => rfl
      | bool b => rfl
      | num n => rfl
      | arr a => rfl
      | obj f => rfl
    | undefined => rfl
    | null => rfl
    | bool b => rfl
    | num n => rfl
  · simp [ht]

theorem prepareEntries_op (host : JsHost) (entries : List JsVal) :
    (prepareEntries host entries).map (fun e => e.op) = entries.filterMap (acceptedOpcode host) := by
  unfold prepareEntries
  rw [List.map_filterMap]
  congr 1
  funext entry
  rw [← normalizeInstruction_op]
  cases normalizeInstruction host entry <;> rfl

/-- C17 (as amended): `normalizeGenomeProgram` is total; for every input list its output
has one instruction, in the original relative order, for exactly the entries that are
truthy and whose opcode input (the bare name, the first element of an array, or
`op || instruction || code` of an object) is a string that upper-cases to one of the five
opcode names; every other entry is dropped, and a non-list input yields the empty
program. -/
theorem normalize_keeps_accepted_entries (host : JsHost) (entries : List JsVal) (other : JsVal) :
    (normalizeGenomeProgram host (.arr entries)).map (fun i => i.op) =
        entries.filterMap (acceptedOpcode host) ∧
      ((∀ items, other ≠ .arr items) → normalizeGenomeProgram host other = []) := by
  constructor
  · rw [← prepareEntries_op]
    simp [normalizeGenomeProgram, List.map_map, Function.comp]
  · intro h
    cases other with
    | arr items => exact absurd rfl (h items)
    | undefined => rfl
    | null => rfl
    | bool b => rfl
    | num n => rfl
    | str s => rfl
    | obj f => rfl

theorem normalize_keeps_accepted_entries_witness :
    ((normalizeGenomeProgram basicHost
        (.arr [.str "nope", .str "goto", .num (.finite 3), .arr [.str "SET_EXPLORE"]])).map
          (fun i => i.op) =
        [JsVal.str "nope", .str "goto", .num (.finite 3), .arr [.str "SET_EXPLORE"]].filterMap
          (acceptedOpcode basicHost)) ∧
      [JsVal.str "nope", .str "goto", .num (.finite 3), .arr [.str "SET_EXPLORE"]].filterMap
          (acceptedOpcode basicHost) = [.GOTO, .SET_EXPLORE] ∧
      normalizeGenomeProgram basicHost (.str "GOTO") = [] :=
  ⟨(normalize_keeps_accepted_entries basicHost _ (.str "GOTO")).1, by decide,
   (normalize_keeps_accepted_entries basicHost [] (.str "GOTO")).2 (fun items h => by cases h)⟩

/-- C17 (counterexample): the list `[{ instruction: 'GOTO' }, 'goto']` has no entry whose
bare name, first array element or `op` field is one of the five opcode names, yet its
normalization has two instructions, both `GOTO`. -/
theorem normalize_keeps_alias_and_lowercase_entries :
    [JsVal.obj [("instruction", .str "GOTO")], .str "goto"].filterMap claimedOpcode = [] ∧
      (normalizeGenomeProgram basicHost
        (.arr [.obj [("instruction", .str "GOTO")], .str "goto"])).map (fun i => i.op) =
        [.GOTO, .GOTO] := by
  decide

theorem toFiniteNumber_of_not_finite (host : JsHost) (value : JsVal)
    (h : (jsNumber host value).isFinite = false) : toFiniteNumber host value 0 = 0 := by
  unfold toFiniteNumber
  cases value with
  | num n => cases n <;> simp_all [jsNumber, JsNum.isFinite]
  | undefined => rfl
  | null => simp [jsNumber, JsNum.isFinite] at h
  | bool b => simp [jsNumber, JsNum.isFinite] at h
  | str s =>
    simp only [jsNumber] at h ⊢
    cases hn : host.toNumber (.str s) <;> simp_all [JsNum.isFinite]
  | arr a =>
    simp only [jsNumber] at h ⊢
    cases hn : host.toNumber (.arr a) <;> simp_all [JsNum.isFinite]
  | obj f =>
    simp only [jsNumber] at h ⊢
    cases hn : host.toNumber (.obj f) <;> simp_all [JsNum.isFinite]

theorem clamp01_bounds (value : JsNum) : 0 ≤ clamp01 value ∧ clamp01 value ≤ 1 :=
  clamp_bounds value 0 1 (by norm_num)

theorem finalizeArgs_unit_head (op : Opcode)
    (hop : op = .IF_HUNGER_GT ∨ op = .SET_EXPLORE ∨ op = .SET_BOND_THRESHOLD)
    (prepared : List JsNum) (lastIndex : ℤ) :
    ∃ v : ℚ, (finalizeArgs op prepared lastIndex)[0]? = some (.finite v) ∧ 0 ≤ v ∧ v ≤ 1 := by
  rcases hop with rfl | rfl | rfl <;>
    exact ⟨clamp01 (numAt prepared 0), by simp [finalizeArgs], (clamp01_bounds _).1,
      (clamp01_bounds _).2⟩

theorem clamp_zero (hi : ℚ) (h : 0 ≤ hi) : clamp (.finite 0) 0 hi = 0 :=
  clamp_of_mem 0 0 hi (le_refl _) h

theorem clampIndex_zero (lastIndex : ℤ) : clampIndex (.finite 0) lastIndex = 0 := by
  unfold clampIndex
  simp only [Int.floor_zero]
  split_ifs <;> first | rfl | omega

theorem finalize_prepare_not_finite (host : JsHost) (op : Opcode) (args : List JsVal)
    (lastIndex : ℤ) (i : ℕ) (hi : i < op.arity)
    (h : (jsNumber host (elemAt args i)).isFinite = false) :
    (finalizeArgs op (prepareArgs host op args) lastIndex)[i]? = some (.finite 0) := by
  have h0 := toFiniteNumber_of_not_finite host (elemAt args i) h
  cases op <;> simp only [Opcode.arity] at hi
  all_goals
    interval_cases i <;>
      simp [finalizeArgs, prepareArgs, numAt, h0, clamp01, clamp_zero, clampIndex_zero,
        MAX_CHI_THRESHOLD_nonneg]

theorem mem_normalize_provenance (host : JsHost) (entries : List JsVal)
    (instruction : Instruction)
    (h : instruction ∈ normalizeGenomeProgram host (.arr entries)) :
    ∃ entry ∈ entries, ∃ r : RawInstruction, normalizeInstruction host entry = some r ∧
      instruction = ⟨r.op, finalizeArgs r.op (prepareArgs host r.op r.args)
          (((normalizeGenomeProgram host (.arr entries)).length : ℤ) - 1)⟩ := by
  rw [normalizeGenomeProgram_length]
  simp only [normalizeGenomeProgram, List.mem_map, prepareEntries, List.mem_filterMap,
    Option.map_eq_some'] at h
  obtain ⟨e, ⟨entry, hentry, r, hr, rfl⟩, rfl⟩ := h
  exact ⟨entry, hentry, r, hr, rfl⟩

/-- C18 (as amended): in every program output by `normalizeGenomeProgram`, the threshold
of `IF_HUNGER_GT`, the intensity of `SET_EXPLORE` and the threshold of
`SET_BOND_THRESHOLD` lie in `[0,1]` and the threshold of `IF_CHI_LT` lies in `[0,60]`;
every instruction comes from an entry of the input, and each of its arguments whose input
value is missing, or a number that is not finite, or a value that `Number` does not
convert to a finite number, is 0. -/
theorem normalized_arguments_clamped (host : JsHost) (entries : List JsVal)
    (instruction : Instruction)
    (hmem : instruction ∈ normalizeGenomeProgram host (.arr entries)) :
    ((instruction.op = .IF_HUNGER_GT ∨ instruction.op = .SET_EXPLORE ∨
          instruction.op = .SET_BOND_THRESHOLD) →
        ∃ v : ℚ, instruction.args[0]? = some (.finite v) ∧ 0 ≤ v ∧ v ≤ 1) ∧
      (instruction.op = .IF_CHI_LT →
        ∃ v : ℚ, instruction.args[0]? = some (.finite v) ∧ 0 ≤ v ∧ v ≤ 60) ∧
      (∃ entry ∈ entries, ∃ r : RawInstruction, normalizeInstruction host entry = some r ∧
        instruction.op = r.op ∧
        ∀ i, i < r.op.arity →
          (elemAt r.args i = .undefined ∨ (jsNumber host (elemAt r.args i)).isFinite = false) →
          instruction.args[i]? = some (.finite 0)) := by
  obtain ⟨entry, hentry, r, hr, hins⟩ := mem_normalize_provenance host entries instruction hmem
  have h01 : (0 : ℚ) ≤ 1 := by norm_num
  have hmax : MAX_CHI_THRESHOLD = 60 := by norm_num [MAX_CHI_THRESHOLD, startChi]
  refine ⟨?_, ?_, entry, hentry, r, hr, by rw [hins], ?_⟩
  · intro hop
    rw [hins] at hop ⊢
    exact finalizeArgs_unit_head _ hop _ _
  · intro hop
    rw [hins] at hop ⊢
    simp only at hop
    rw [hop]
    refine ⟨clamp (numAt (prepareArgs host .IF_CHI_LT r.args) 0) 0 MAX_CHI_THRESHOLD,
      by simp [finalizeArgs], (clamp_bounds _ 0 _ MAX_CHI_THRESHOLD_nonneg).1, ?_⟩
    have h := (clamp_bounds (numAt (prepareArgs host .IF_CHI_LT r.args) 0) 0 _
      MAX_CHI_THRESHOLD_nonneg).2
    rw [hmax] at h
    rw [hmax]
    exact h
  · intro i hi hbad
    rw [hins]
    apply finalize_prepare_not_finite host r.op r.args _ i hi
    rcases hbad with hbad | hbad
    · rw [hbad]; rfl
    · exact hbad

theorem normalized_arguments_clamped_witness :
    ({ op := .SET_EXPLORE, args := [.finite 1] } : Instruction) ∈
        normalizeGenomeProgram basicHost (.arr [.arr [.str "SET_EXPLORE", .num (.finite 7)]]) ∧
      ∃ v : ℚ, ({ op := .SET_EXPLORE, args := [.finite 1] } : Instruction).args[0]? =
        some (.finite v) ∧ 0 ≤ v ∧ v ≤ 1 :=
  ⟨by decide,
   (normalized_arguments_clamped basicHost [.arr [.str "SET_EXPLORE", .num (.finite 7)]]
    { op := .SET_EXPLORE, args := [.finite 1] } (by decide)).1 (Or.inr (Or.inl rfl))⟩

/-- C18 (counterexample): in `[['SET_EXPLORE', true]]` the argument is the boolean `true`,
which is not a finite number, and the normalized intensity is 1, not 0. -/
theorem normalize_coerces_boolean_argument :
    normalizeGenomeProgram basicHost (.arr [.arr [.str "SET_EXPLORE", .bool true]]) =
        [{ op := .SET_EXPLORE, args := [.finite 1] }] ∧
      (normalizeGenomeProgram basicHost (.arr [.arr [.str "SET_EXPLORE", .bool true]])).map
        (fun i => i.args[0]?) ≠ [some (.finite 0)] := by
  decide

/-! ## Program initializers: theorems -/

theorem genomeTick_empty (host : JsHost) (ctx : TickContext) (rt : GenomeRuntime)
    (hprog : rt.program = []) (hip : rt.state.ip = 0) (hhalted : rt.state.halted = true) :
    (genomeTick host ctx rt).1.program = [] ∧ (genomeTick host ctx rt).1.state.ip = 0 ∧
      (genomeTick host ctx rt).1.state.halted = true ∧
      (genomeTick host ctx rt).1.buffer.executed = none ∧
      (genomeTick host ctx rt).1.buffer.biasUpdates = { distress := none, bond := none } := by
  by_cases hguard : rt.state.lastTick = ctx.tick.getD 0
  · simp [genomeTick, commit, compute, capture, resetBuffer, hprog, hip, hhalted, hguard]
  · simp [genomeTick, commit, compute, capture, resetBuffer, hprog, hip, hhalted, hguard,
      haltEmpty]

theorem runContexts_empty (host : JsHost) (ctxs : List TickContext) (rt : GenomeRuntime)
    (hprog : rt.program = []) (hip : rt.state.ip = 0) (hhalted : rt.state.halted = true)
    (hexec : rt.buffer.executed = none)
    (hupd : rt.buffer.biasUpdates = { distress := none, bond := none }) :
    (runContexts host ctxs rt).state.ip = 0 ∧ (runContexts host ctxs rt).state.halted = true ∧
      (runContexts host ctxs rt).buffer.executed = none ∧
      (runContexts host ctxs rt).buffer.biasUpdates = { distress := none, bond := none } := by
  induction ctxs generalizing rt with
  | nil => exact ⟨hip, hhalted, hexec, hupd⟩
  | cons ctx rest ih =>
    obtain ⟨h1, h2, h3, h4, h5⟩ := genomeTick_empty host ctx rt hprog hip hhalted
    exact ih _ h1 h2 h3 h4 h5

/-- C19: after `setProgram` with an empty program, and after the `empty` initializer, the
state is `ip = 0`, `halted = true`; after any run of ticks from there the state is still
`ip = 0`, `halted = true`, the buffer records no executed instruction and its bias-update
map is empty. -/
theorem empty_program_permanently_halted (host : JsHost) (info : ProgramInfo)
    (rt : GenomeRuntime) (ctxs : List TickContext) :
    ((setProgram host (.arr []) info rt).state.ip = 0 ∧
        (setProgram host (.arr []) info rt).state.halted = true ∧
        (runContexts host ctxs (setProgram host (.arr []) info rt)).state.ip = 0 ∧
        (runContexts host ctxs (setProgram host (.arr []) info rt)).state.halted = true ∧
        (runContexts host ctxs (setProgram host (.arr []) info rt)).buffer.executed = none ∧
        (runContexts host ctxs (setProgram host (.arr []) info rt)).buffer.biasUpdates =
          { distress := none, bond := none }) ∧
      ((applyInitializer host genomeEmptyInitializer rt).program = [] ∧
        (applyInitializer host genomeEmptyInitializer rt).state.ip = 0 ∧
        (applyInitializer host genomeEmptyInitializer rt).state.halted = true ∧
        (runContexts host ctxs (applyInitializer host genomeEmptyInitializer rt)).state.ip = 0 ∧
        (runContexts host ctxs (applyInitializer host genomeEmptyInitializer rt)).state.halted =
          true ∧
        (runContexts host ctxs
          (applyInitializer host genomeEmptyInitializer rt)).buffer.executed = none ∧
        (runContexts host ctxs
          (applyInitializer host genomeEmptyInitializer rt)).buffer.biasUpdates =
          { distress := none, bond := none }) := by
  have h1 := runContexts_empty host ctxs (setProgram host (.arr []) info rt) rfl rfl rfl rfl rfl
  have h2 := runContexts_empty host ctxs (applyInitializer host genomeEmptyInitializer rt)
    rfl rfl rfl rfl rfl
  exact ⟨⟨rfl, rfl, h1⟩, ⟨rfl, rfl, rfl, h2⟩⟩

theorem mulberry32_range (a : ℕ) : 0 ≤ (mulberry32 a).2 ∧ (mulberry32 a).2 < 1 := by
  simp only [mulberry32]
  constructor
  · positivity
  · rw [div_lt_one (by norm_num)]
    exact_mod_cast Nat.mod_lt _ (by norm_num)

theorem floor_mul_range (r : ℚ) (k : ℤ) (hr0 : 0 ≤ r) (hr1 : r < 1) (hk : 0 < k) :
    0 ≤ ⌊r * (k : ℚ)⌋ ∧ ⌊r * (k : ℚ)⌋ ≤ k - 1 := by
  have hkq : (0 : ℚ) < (k : ℚ) := by exact_mod_cast hk
  constructor
  · exact Int.floor_nonneg.mpr (mul_nonneg hr0 (le_of_lt hkq))
  · have hlt : r * (k : ℚ) < (k : ℚ) := by nlinarith
    have : ⌊r * (k : ℚ)⌋ < k := Int.floor_lt.mpr hlt
    omega

theorem randomLength_bounds (lo hi : ℤ) (a : ℕ) (h : lo ≤ hi) :
    lo ≤ (randomLength lo hi a).1 ∧ (randomLength lo hi a).1 ≤ hi := by
  unfold randomLength
  split_ifs with heq
  · simp only
    omega
  · simp only
    obtain ⟨h0, h1⟩ := mulberry32_range a
    have hk : 0 < hi - lo + 1 := by omega
    obtain ⟨hf0, hf1⟩ := floor_mul_range (mulberry32 a).2 (hi - lo + 1) h0 h1 hk
    constructor <;> omega

theorem randomLoop_length (pool : List Opcode) (lastIndex : ℤ) (n a : ℕ) :
    (randomLoop pool lastIndex n a).length = n := by
  induction n generalizing a with
  | zero => rfl
  | succ n ih => simp [randomLoop, ih]

theorem genomeRandomInitializer_length (mixSeed : JsVal → ℕ → ℕ) (options : RandomOptions) :
    ((genomeRandomInitializer mixSeed options).program.length : ℤ) =
      (randomLength (max 0 ⌊options.minLength⌋) (max (max 0 ⌊options.minLength⌋) ⌊options.maxLength⌋)
        (mixSeed options.seed 0x47534e4d % 4294967296)).1 := by
  have hb := randomLength_bounds (max 0 ⌊options.minLength⌋)
    (max (max 0 ⌊options.minLength⌋) ⌊options.maxLength⌋)
    (mixSeed options.seed 0x47534e4d % 4294967296) (le_max_left _ _)
  have h0 : (0 : ℤ) ≤ max 0 ⌊options.minLength⌋ := le_max_left _ _
  simp only [genomeRandomInitializer, randomLoop_length]
  omega

/-- C20: for every seed, `genomeRandomInitializer` with the default options returns a
program of between 3 and 9 instructions; for every seed and all options with finite
`minLength` and `maxLength`, the length of the program lies between
`max(0, floor(minLength))` and `max(that minimum, floor(maxLength))`, both inclusive. -/
theorem genomeRandomInitializer_length_bounds (mixSeed : JsVal → ℕ → ℕ) (seed : JsVal)
    (options : RandomOptions) :
    3 ≤ (genomeRandomInitializer mixSeed (defaultRandomOptions seed)).program.length ∧
      (genomeRandomInitializer mixSeed (defaultRandomOptions seed)).program.length ≤ 9 ∧
      max 0 ⌊options.minLength⌋ ≤ ((genomeRandomInitializer mixSeed options).program.length : ℤ) ∧
      ((genomeRandomInitializer mixSeed options).program.length : ℤ) ≤
        max (max 0 ⌊options.minLength⌋) ⌊options.maxLength⌋ := by
  have hgen : ∀ o : RandomOptions,
      max 0 ⌊o.minLength⌋ ≤ ((genomeRandomInitializer mixSeed o).program.length : ℤ) ∧
      ((genomeRandomInitializer mixSeed o).program.length : ℤ) ≤
        max (max 0 ⌊o.minLength⌋) ⌊o.maxLength⌋ := by
    intro o
    rw [genomeRandomInitializer_length]
    exact randomLength_bounds _ _ _ (le_max_left _ _)
  obtain ⟨hd0, hd1⟩ := hgen (defaultRandomOptions seed)
  have h3 : ⌊(3 : ℚ)⌋ = 3 := by simp
  have h9 : ⌊(9 : ℚ)⌋ = 9 := by simp
  simp only [defaultRandomOptions, h3, h9] at hd0 hd1
  refine ⟨?_, ?_, (hgen options).1, (hgen options).2⟩
  · have : (3 : ℤ) ≤ max 0 3 := le_max_right _ _
    simp only [defaultRandomOptions]
    omega
  · have : max (max (0 : ℤ) 3) 9 = 9 := by decide
    simp only [defaultRandomOptions]
    omega

/-! ## Initializers: pools, ether, glider, rule table -/

theorem randomInstruction_op (pool : List Opcode) (lastIndex : ℤ) (a : ℕ) :
    (randomInstruction pool lastIndex a).1.op =
      pool.getD ⌊(mulberry32 a).2 * (pool.length : ℚ)⌋.toNat .SET_EXPLORE := by
  unfold randomInstruction
  simp only
  split <;> simp_all

theorem getD_mem_or_default {α : Type} (l : List α) (i : ℕ) (d : α) :
    l.getD i d ∈ l ∨ l.getD i d = d := by
  by_cases h : i < l.length
  · left
    rw [List.getD_eq_getElem _ _ h]
    exact List.getElem_mem h
  · right
    simp [List.getElem?_eq_none (not_lt.mp h)]

theorem randomLoop_op (pool : List Opcode) (lastIndex : ℤ) (n a : ℕ) (instruction : Instruction)
    (h : instruction ∈ randomLoop pool lastIndex n a) :
    instruction.op ∈ pool ∨ instruction.op = .SET_EXPLORE := by
  induction n generalizing a with
  | zero => simp [randomLoop] at h
  | succ n ih =>
    simp only [randomLoop, List.mem_cons] at h
    rcases h with h | h
    · rw [h, randomInstruction_op]
      exact getD_mem_or_default _ _ _
    · exact ih _ h

/-- C21: for every seed and all length options, the program returned by
`genomeRandomInitializer` has no `GOTO` instruction when `allowGoto` is false and no
`IF_CHI_LT` instruction when `includeChi` is false. -/
theorem genomeRandomInitializer_respects_pool (mixSeed : JsVal → ℕ → ℕ)
    (options : RandomOptions) :
    (options.allowGoto = false →
        ∀ instruction ∈ (genomeRandomInitializer mixSeed options).program,
          instruction.op ≠ .GOTO) ∧
      (options.includeChi = false →
        ∀ instruction ∈ (genomeRandomInitializer mixSeed options).program,
          instruction.op ≠ .IF_CHI_LT) := by
  constructor
  · intro hflag instruction hmem hop
    rcases randomLoop_op _ _ _ _ _ hmem with h | h
    · rw [hop, hflag] at h
      revert h
      cases options.includeChi <;> decide
    · rw [hop] at h
      exact absurd h (by decide)
  · intro hflag instruction hmem hop
    rcases randomLoop_op _ _ _ _ _ hmem with h | h
    · rw [hop, hflag] at h
      revert h
      cases options.allowGoto <;> decide
    · rw [hop] at h
      exact absurd h (by decide)

theorem genomeRandomInitializer_respects_pool_witness :
    (∀ instruction ∈ (genomeRandomInitializer (fun _ _ => 12345)
        { seed := .num (.finite 0), minLength := 3, maxLength := 9, allowGoto := false,
          includeChi := false }).program, instruction.op ≠ .GOTO) ∧
      (∀ instruction ∈ (genomeRandomInitializer (fun _ _ => 12345)
        { seed := .num (.finite 0), minLength := 3, maxLength := 9, allowGoto := false,
          includeChi := false }).program, instruction.op ≠ .IF_CHI_LT) :=
  ⟨(genomeRandomInitializer_respects_pool (fun _ _ => 12345)
      { seed := .num (.finite 0), minLength := 3, maxLength := 9, allowGoto := false,
        includeChi := false }).1 rfl,
   (genomeRandomInitializer_respects_pool (fun _ _ => 12345)
      { seed := .num (.finite 0), minLength := 3, maxLength := 9, allowGoto := false,
        includeChi := false }).2 rfl⟩

/-- C22: for every width, every integer phase and every index `i < width`, cell `i` of
the ether initializer is `ETHER_PATTERN[(phase + i) mod 16]` with the non-negative
modulus, where `ETHER_PATTERN` is `0,0,0,1,0,0,1,1,0,1,1,1,1,0,0,0`; phases `p` and
`p + 16` give the same cells. -/
theorem rule110EtherInitializer_cell (width : ℕ) (phase : ℤ) (i : ℕ) (hi : i < width) :
    (rule110EtherInitializer width phase)[i]? =
        ETHER_PATTERN[((phase + (i : ℤ)) % 16).toNat]? ∧
      0 ≤ (phase + (i : ℤ)) % 16 ∧ (phase + (i : ℤ)) % 16 < 16 ∧
      ETHER_PATTERN = [0, 0, 0, 1, 0, 0, 1, 1, 0, 1, 1, 1, 1, 0, 0, 0] ∧
      rule110EtherInitializer width (phase + 16) = rule110EtherInitializer width phase := by
  have hlt : ((phase + (i : ℤ)) % 16).toNat < ETHER_PATTERN.length := by
    have : ETHER_PATTERN.length = 16 := rfl
    omega
  refine ⟨?_, by omega, by omega, rfl, ?_⟩
  · rw [fillPattern_ether, List.getElem?_map, List.getElem?_range hi]
    simp only [Option.map_some']
    rw [List.getD_eq_getElem _ _ hlt, List.getElem?_eq_getElem hlt]
  · rw [fillPattern_ether, fillPattern_ether]
    apply List.map_congr_left
    intro j _
    have h : (phase + 16 + (j : ℤ)) % 16 = (phase + (j : ℤ)) % 16 := by omega
    rw [h]

theorem rule110EtherInitializer_cell_witness :
    (rule110EtherInitializer 16 (-3))[5]? = ETHER_PATTERN[(((-3 : ℤ) + ((5 : ℕ) : ℤ)) % 16).toNat]? ∧
      0 ≤ ((-3 : ℤ) + ((5 : ℕ) : ℤ)) % 16 ∧ ((-3 : ℤ) + ((5 : ℕ) : ℤ)) % 16 < 16 ∧
      ETHER_PATTERN = [0, 0, 0, 1, 0, 0, 1, 1, 0, 1, 1, 1, 1, 0, 0, 0] ∧
      rule110EtherInitializer 16 (-3 + 16) = rule110EtherInitializer 16 (-3) :=
  rule110EtherInitializer_cell 16 (-3) 5 (by decide)

/-- C24: `RULE_TABLE` has eight entries and entry `n` is bit `n` of the number 110, that
is `floor(110 / 2^n) mod 2`, for every `n` from 0 to 7. -/
theorem RULE_TABLE_encodes_rule_110 (n : Fin 8) :
    RULE_TABLE.length = 8 ∧ RULE_TABLE[n.val]? = some (110 / 2 ^ n.val % 2) := by
  revert n
  decide

theorem overlayFrom_length (pattern : List ℕ) (begin : ℤ) (i n : ℕ) (target : List ℕ) :
    (overlayFrom pattern begin i n target).length = target.length := by
  induction n generalizing i target with
  | zero => rfl
  | succ n ih =>
    simp only [overlayFrom]
    split_ifs
    · rfl
    · exact ih _ _
    · rw [ih, List.length_set]

theorem overlayFrom_getElem? (pattern : List ℕ) (b i n : ℕ) (target : List ℕ) (j : ℕ) :
    (overlayFrom pattern (b : ℤ) i n target)[j]? =
      if b + i ≤ j ∧ j < b + i + n ∧ j < target.length
      then some (toUint8 (pattern.getD (j - b) 0)) else target[j]? := by
  induction n generalizing i target with
  | zero =>
    have : ¬ (b + i ≤ j ∧ j < b + i + 0 ∧ j < target.length) := by omega
    simp only [overlayFrom, this, if_false]
  | succ n ih =>
    simp only [overlayFrom]
    by_cases hge : (b : ℤ) + (i : ℤ) ≥ (target.length : ℤ)
    · have : ¬ (b + i ≤ j ∧ j < b + i + (n + 1) ∧ j < target.length) := by omega
      simp only [hge, if_true, this, if_false]
    · have hneg : ¬ ((b : ℤ) + (i : ℤ) < 0) := by omega
      have hnat : ((b : ℤ) + (i : ℤ)).toNat = b + i := by omega
      simp only [hge, if_false, hneg, hnat]
      rw [ih, List.length_set, List.getElem?_set]
      have hlt : b + i < target.length := by omega
      by_cases hj : b + i = j
      · have hc1 : ¬ (b + (i + 1) ≤ j ∧ j < b + (i + 1) + n ∧ j < target.length) := by omega
        have hc2 : b + i ≤ j ∧ j < b + i + (n + 1) ∧ j < target.length := by omega
        have hi : j - b = i := by omega
        simp only [hc1, if_false, hj, hc2, if_true, hi, and_self]
        have hjl : j < target.length := by omega
        simp [hjl]
      · by_cases hc : b + (i + 1) ≤ j ∧ j < b + (i + 1) + n ∧ j < target.length
        · have hc2 : b + i ≤ j ∧ j < b + i + (n + 1) ∧ j < target.length := by omega
          simp only [hc, hc2, if_true, and_self]
        · have hc2 : ¬ (b + i ≤ j ∧ j < b + i + (n + 1) ∧ j < target.length) := by omega
          simp only [hc, hc2, if_false, hj]

theorem clampOffset_bounds (offset : JsNum) (width : ℕ) (hw : 1 ≤ width) :
    0 ≤ clampOffset offset width ∧ clampOffset offset width ≤ (width : ℤ) - 1 := by
  unfold clampOffset
  cases offset with
  | finite q =>
    simp only
    split_ifs with h1 h2
    · omega
    · omega
    · have hq0 : (0 : ℚ) ≤ q := not_lt.mp h1
      have hq1 : q ≤ (width : ℚ) - 1 := not_lt.mp h2
      constructor
      · exact Int.floor_nonneg.mpr hq0
      · have : ⌊q⌋ ≤ ⌊(width : ℚ) - 1⌋ := Int.floor_mono hq1
        have hfl : ⌊(width : ℚ) - 1⌋ = (width : ℤ) - 1 := by
          have : ((width : ℚ) - 1) = (((width : ℤ) - 1 : ℤ) : ℚ) := by push_cast; ring
          rw [this, Int.floor_intCast]
        omega
  | nan => simp only; omega
  | posInf => simp only; omega
  | negInf => simp only; omega

theorem clampOffset_finite (q : ℚ) (width : ℕ) (hw : 1 ≤ width) :
    clampOffset (.finite q) width = max 0 (min ((width : ℤ) - 1) ⌊q⌋) := by
  unfold clampOffset
  simp only
  have hfl : ⌊(width : ℚ) - 1⌋ = (width : ℤ) - 1 := by
    have : ((width : ℚ) - 1) = (((width : ℤ) - 1 : ℤ) : ℚ) := by push_cast; ring
    rw [this, Int.floor_intCast]
  split_ifs with h1 h2
  · have : ⌊q⌋ < 0 := Int.floor_lt.mpr (by exact_mod_cast h1)
    omega
  · have : (width : ℤ) - 1 ≤ ⌊q⌋ := by
      rw [← hfl]
      exact Int.floor_mono (le_of_lt h2)
    omega
  · have hq0 : (0 : ℚ) ≤ q := not_lt.mp h1
    have hq1 : q ≤ (width : ℚ) - 1 := not_lt.mp h2
    have h0 : 0 ≤ ⌊q⌋ := Int.floor_nonneg.mpr hq0
    have h1' : ⌊q⌋ ≤ (width : ℤ) - 1 := by
      rw [← hfl]
      exact Int.floor_mono hq1
    omega

theorem clampOffset_of_mem (s width : ℕ) (hs : s ≤ width - 1) (hw : 1 ≤ width) :
    clampOffset (.finite ((s : ℤ) : ℚ)) width = (s : ℤ) := by
  rw [clampOffset_finite _ _ hw, Int.floor_intCast]
  omega

theorem gliderStart_bounds (width : ℕ) (offset : Option JsNum) (hw : 1 ≤ width) :
    0 ≤ gliderStart width offset ∧ gliderStart width offset ≤ (width : ℤ) - 1 := by
  cases offset with
  | none =>
    simp only [gliderStart]
    have : GLIDER_PATTERN.length / 2 = 7 := rfl
    omega
  | some o => exact clampOffset_bounds o width hw

theorem toUint8_glider (i : ℕ) : toUint8 (GLIDER_PATTERN.getD i 0) = GLIDER_PATTERN.getD i 0 := by
  rcases getD_bit GLIDER_PATTERN (by decide) i with h | h <;> rw [h] <;> rfl

/-- C23: for every width of at least 1, every phase and every offset, the glider
initializer returns `width` cells: with `start` the index it reports as
`metadata.offset`, cell `start + i` is `GLIDER_PATTERN[i]` for every `i < 14` with
`start + i < width`, and every other cell is the ether cell for the phase. `start` lies
in `[0, width-1]`; it is `max(0, floor(width/2) - 7)` when no offset is given and the
floor of a given finite offset clamped into `[0, width-1]`. -/
theorem rule110GliderInitializer_cells (width : ℕ) (phase : ℤ) (offset : Option JsNum)
    (hw : 1 ≤ width) :
    ∃ start : ℕ, (start : ℤ) = gliderStart width offset ∧ start ≤ width - 1 ∧
      (offset = none → (start : ℤ) = max 0 (((width / 2 : ℕ) : ℤ) - 7)) ∧
      (∀ q : ℚ, offset = some (.finite q) →
        (start : ℤ) = max 0 (min ((width : ℤ) - 1) ⌊q⌋)) ∧
      GLIDER_PATTERN.length = 14 ∧
      (rule110GliderInitializer width phase offset).cells.length = width ∧
      (∀ j, j < width →
        (rule110GliderInitializer width phase offset).cells[j]? =
          if start ≤ j ∧ j < start + 14 then GLIDER_PATTERN[j - start]?
          else (rule110EtherInitializer width phase)[j]?) ∧
      getProp (rule110GliderInitializer width phase offset).metadata "offset" =
        .num (.finite (start : ℤ)) := by
  obtain ⟨h0, h1⟩ := gliderStart_bounds width offset hw
  have hnat : ((gliderStart width offset).toNat : ℤ) = gliderStart width offset :=
    Int.toNat_of_nonneg h0
  have hlen : (fillPattern width ETHER_PATTERN phase).length = width := by simp [fillPattern]
  refine ⟨(gliderStart width offset).toNat, hnat, by omega, ?_, ?_, rfl, ?_, ?_, ?_⟩
  · intro ho
    rw [hnat, ho]
    rfl
  · intro q ho
    rw [hnat, ho]
    exact clampOffset_finite q width hw
  · simp only [rule110GliderInitializer, overlayPattern, overlayFrom_length, hlen]
  · intro j hj
    have hclamp : clampOffset (.finite ((gliderStart width offset : ℤ) : ℚ)) width =
        ((gliderStart width offset).toNat : ℤ) := by
      rw [← hnat]
      exact clampOffset_of_mem _ width (by omega) hw
    simp only [rule110GliderInitializer, overlayPattern, hlen, hclamp]
    rw [overlayFrom_getElem?]
    simp only [Nat.add_zero, hlen, rule110EtherInitializer]
    have h14 : GLIDER_PATTERN.length = 14 := rfl
    rw [h14]
    by_cases hc : (gliderStart width offset).toNat ≤ j ∧ j < (gliderStart width offset).toNat + 14
    · have hc2 : (gliderStart width offset).toNat ≤ j ∧
          j < (gliderStart width offset).toNat + 14 ∧ j < width := ⟨hc.1, hc.2, hj⟩
      have hi : j - (gliderStart width offset).toNat < GLIDER_PATTERN.length := by omega
      simp only [hc, hc2, and_self, if_true, toUint8_glider]
      rw [List.getD_eq_getElem _ _ hi, List.getElem?_eq_getElem hi]
    · have hc2 : ¬ ((gliderStart width offset).toNat ≤ j ∧
          j < (gliderStart width offset).toNat + 14 ∧ j < width) := by
        intro h
        exact hc ⟨h.1, h.2.1⟩
      simp only [hc, hc2, if_false]
  · simp only [rule110GliderInitializer, getProp, hnat]
    rfl

theorem rule110GliderInitializer_cells_witness :
    ∃ start : ℕ, (start : ℤ) = gliderStart 20 (some (.finite 15)) ∧ start ≤ 20 - 1 ∧
      ((some (JsNum.finite 15) : Option JsNum) = none → (start : ℤ) = max 0 (((20 / 2 : ℕ) : ℤ) - 7)) ∧
      (∀ q : ℚ, (some (JsNum.finite 15) : Option JsNum) = some (.finite q) →
        (start : ℤ) = max 0 (min (((20 : ℕ) : ℤ) - 1) ⌊q⌋)) ∧
      GLIDER_PATTERN.length = 14 ∧
      (rule110GliderInitializer 20 0 (some (.finite 15))).cells.length = 20 ∧
      (∀ j, j < 20 →
        (rule110GliderInitializer 20 0 (some (.finite 15))).cells[j]? =
          if start ≤ j ∧ j < start + 14 then GLIDER_PATTERN[j - start]?
          else (rule110EtherInitializer 20 0)[j]?) ∧
      getProp (rule110GliderInitializer 20 0 (some (.finite 15))).metadata "offset" =
        .num (.finite (start : ℤ)) :=
  rule110GliderInitializer_cells 20 0 (some (.finite 15)) (by decide)

/-! ## Overlay store: theorems -/

theorem mathMaxOne_floor_cases (x : JsNum) (hx : x ≠ .nan) :
    (∃ k : ℤ, 1 ≤ k ∧ mathMaxOne x.floor = .finite (k : ℚ)) ∨ mathMaxOne x.floor = .posInf := by
  cases x with
  | finite q =>
    left
    refine ⟨max 1 ⌊q⌋, le_max_left _ _, ?_⟩
    simp [JsNum.floor, mathMaxOne, Int.cast_max]
  | nan => exact absurd rfl hx
  | posInf =>
    right
    simp [JsNum.floor, mathMaxOne]
  | negInf =>
    left
    refine ⟨1, le_refl _, ?_⟩
    simp [JsNum.floor, mathMaxOne]

theorem normalizeMaxEntries_cases (host : JsHost) (v : JsVal)
    (hnum : v.truthy = true → jsNumber host v ≠ .nan) :
    (∃ k : ℤ, 1 ≤ k ∧ normalizeMaxEntries host v = .finite (k : ℚ)) ∨
      normalizeMaxEntries host v = .posInf := by
  unfold normalizeMaxEntries
  cases ht : v.truthy with
  | true =>
    have hor : v.or (.num (.finite 1)) = v := by simp [JsVal.or, ht]
    rw [hor]
    exact mathMaxOne_floor_cases _ (hnum ht)
  | false =>
    have hor : v.or (.num (.finite 1)) = .num (.finite 1) := by simp [JsVal.or, ht]
    rw [hor]
    exact mathMaxOne_floor_cases _ (by simp [jsNumber])

theorem truncateEntries_length (k : ℤ) (hk : 1 ≤ k) (entries : List OverlayEntry) :
    ((truncateEntries (.finite (k : ℚ)) entries).length : ℤ) ≤ k := by
  unfold truncateEntries
  simp only [JsNum.lt, Int.floor_intCast, decide_eq_true_eq]
  split_ifs with h
  · rw [List.length_take]
    omega
  · have h' : ((entries.length : ℤ) : ℚ) ≤ (k : ℚ) := by
      have := not_lt.mp h
      exact_mod_cast this
    exact_mod_cast h'

theorem truncateEntries_posInf (entries : List OverlayEntry) :
    truncateEntries .posInf entries = entries := by
  simp [truncateEntries, JsNum.lt]

theorem configure_bounded (host : JsHost) (options : OverlayOptions) (s : OverlayStore)
    (hnum : (OverlayCall.configure options).numericMax host) :
    (s.configure host options).Bounded := by
  have hcases : (∃ k : ℤ, 1 ≤ k ∧
      normalizeMaxEntries host (options.maxEntries.getD (.num (.finite 6))) =
        .finite (k : ℚ)) ∨
      normalizeMaxEntries host (options.maxEntries.getD (.num (.finite 6))) = .posInf := by
    apply normalizeMaxEntries_cases
    cases hm : options.maxEntries with
    | none =>
      intro _
      simp [jsNumber]
    | some v =>
      intro ht
      exact hnum v hm ht
  constructor
  · rcases hcases with ⟨k, hk, hm⟩ | hm
    · left
      refine ⟨k, hk, hm, ?_⟩
      simp only [OverlayStore.configure, hm]
      split_ifs
      · simp only [List.length_nil]
        omega
      · exact truncateEntries_length k hk _
    · right
      exact hm
  · intro h
    simp only [OverlayStore.configure] at h ⊢
    simp [h]

theorem configure_disabled_empty (host : JsHost) (options : OverlayOptions) (s : OverlayStore)
    (h : (s.configure host options).enabled = false) :
    (s.configure host options).entries = [] := by
  simp only [OverlayStore.configure] at h ⊢
  simp [h]

theorem recordSnapshot_bounded (entry : OverlayEntry) (now : JsVal) (s : OverlayStore)
    (h : s.Bounded) : (s.recordSnapshot entry now).Bounded := by
  unfold OverlayStore.recordSnapshot
  split_ifs with h1 h2
  · exact h
  · exact h
  · constructor
    · rcases h.1 with ⟨k, hk, hm, _⟩ | hm
      · left
        refine ⟨k, hk, hm, ?_⟩
        simp only [hm]
        exact truncateEntries_length k hk _
      · right
        exact hm
    · intro hen
      simp only at hen
      simp [hen] at h1

theorem recordSnapshot_disabled_empty (entry : OverlayEntry) (now : JsVal) (s : OverlayStore)
    (h : s.enabled = false → s.entries = []) :
    (s.recordSnapshot entry now).enabled = false → (s.recordSnapshot entry now).entries = [] := by
  unfold OverlayStore.recordSnapshot
  split_ifs with h1 h2
  · exact h
  · exact h
  · intro hen
    simp only at hen
    simp [hen] at h1

theorem clear_bounded (s : OverlayStore) (h : s.Bounded) : s.clear.Bounded := by
  constructor
  · rcases h.1 with ⟨k, hk, hm, _⟩ | hm
    · left
      refine ⟨k, hk, hm, ?_⟩
      simp only [OverlayStore.clear, List.length_nil]
      omega
    · right
      exact hm
  · intro _
    rfl

theorem initial_bounded : OverlayStore.initial.Bounded := by
  constructor
  · left
    exact ⟨6, by norm_num, by simp [OverlayStore.initial], by simp [OverlayStore.initial]⟩
  · intro _
    rfl

theorem overlayCalls_bounded (host : JsHost) (calls : List OverlayCall) (s : OverlayStore)
    (hnum : ∀ c ∈ calls, c.numericMax host) (h : s.Bounded) :
    (overlayCalls host calls s).Bounded := by
  induction calls generalizing s with
  | nil => exact h
  | cons c rest ih =>
    have hrest : ∀ c1 ∈ rest, c1.numericMax host := fun c1 hc1 =>
      hnum c1 (List.mem_cons_of_mem _ hc1)
    cases c with
    | configure options =>
      exact ih _ hrest (configure_bounded host options s (hnum _ (List.mem_cons_self _ _)))
    | recordSnapshot entry now => exact ih _ hrest (recordSnapshot_bounded entry now s h)
    | clear => exact ih _ hrest (clear_bounded s h)

theorem overlayCalls_disabled_empty (host : JsHost) (calls : List OverlayCall)
    (s : OverlayStore) (h : s.enabled = false → s.entries = []) :
    (overlayCalls host calls s).enabled = false → (overlayCalls host calls s).entries = [] := by
  induction calls generalizing s with
  | nil => exact h
  | cons c rest ih =>
    cases c with
    | configure options => exact ih _ (configure_disabled_empty host options s)
    | recordSnapshot entry now => exact ih _ (recordSnapshot_disabled_empty entry now s h)
    | clear => exact ih _ (fun _ => rfl)

/-- C25 (counterexample): `configure({ enabled: true, maxEntries: 'abc' })` on a new store
stores NaN as `maxEntries`, which is neither an integer of at least 1 nor `Infinity`, and
seven `recordSnapshot` calls after it leave seven entries: no comparison with NaN
truncates the list. -/
theorem configure_non_numeric_is_unbounded :
    (overlayCalls basicHost [.configure nonNumericOptions] OverlayStore.initial).maxEntries =
        .nan ∧
      (overlayCalls basicHost
        (.configure nonNumericOptions ::
          recordAll (List.replicate 7 (sampleEntry "a" 1, .num (.finite 0))))
        OverlayStore.initial).maxEntries = .nan ∧
      (overlayCalls basicHost
        (.configure nonNumericOptions ::
          recordAll (List.replicate 7 (sampleEntry "a" 1, .num (.finite 0))))
        OverlayStore.initial).getEntries.length = 7 ∧
      ¬ (overlayCalls basicHost
        (.configure nonNumericOptions ::
          recordAll (List.replicate 7 (sampleEntry "a" 1, .num (.finite 0))))
        OverlayStore.initial).Bounded := by
  have hmax : (overlayCalls basicHost
      (.configure nonNumericOptions ::
        recordAll (List.replicate 7 (sampleEntry "a" 1, .num (.finite 0))))
      OverlayStore.initial).maxEntries = .nan := by
    decide
  refine ⟨by decide, hmax, by decide, ?_⟩
  intro hb
  rcases hb.1 with ⟨k, _, hk, _⟩ | hinf
  · rw [hmax] at hk
    exact JsNum.noConfusion hk
  · rw [hmax] at hinf
    exact JsNum.noConfusion hinf

/-- C25 (as amended): after every sequence of `configure`, `recordSnapshot` and `clear`
calls on a new store in which every `maxEntries` given to `configure` is absent, falsy, or
a value that `Number(value)` converts to a number, `maxEntries` is an integer of at least
1, or `Infinity`, and the number of stored entries is at most `maxEntries`; and after every
sequence of calls whatever, the store holds no entries while it is disabled. -/
theorem overlay_store_bounded (host : JsHost) (calls : List OverlayCall)
    (hnum : ∀ c ∈ calls, c.numericMax host) :
    ((∃ m : ℤ, 1 ≤ m ∧
          (overlayCalls host calls OverlayStore.initial).maxEntries = .finite (m : ℚ) ∧
          ((overlayCalls host calls OverlayStore.initial).getEntries.length : ℤ) ≤ m) ∨
        (overlayCalls host calls OverlayStore.initial).maxEntries = .posInf) ∧
      (∀ calls1 : List OverlayCall,
        (overlayCalls host calls1 OverlayStore.initial).enabled = false →
          (overlayCalls host calls1 OverlayStore.initial).getEntries = []) :=
  ⟨(overlayCalls_bounded host calls _ hnum initial_bounded).1,
    fun calls1 => overlayCalls_disabled_empty host calls1 _ (fun _ => rfl)⟩

theorem overlay_store_bounded_witness :
    (∀ c ∈ [OverlayCall.configure enabledOptions,
        .recordSnapshot (sampleEntry "a" 1) (.num (.finite 10)),
        .recordSnapshot (sampleEntry "b" 2) (.num (.finite 11)),
        .recordSnapshot (sampleEntry "c" 3) (.num (.finite 12))],
        c.numericMax basicHost) ∧
      ((∃ m : ℤ, 1 ≤ m ∧
          (overlayCalls basicHost [OverlayCall.configure enabledOptions,
            .recordSnapshot (sampleEntry "a" 1) (.num (.finite 10)),
            .recordSnapshot (sampleEntry "b" 2) (.num (.finite 11)),
            .recordSnapshot (sampleEntry "c" 3) (.num (.finite 12))]
            OverlayStore.initial).maxEntries = .finite (m : ℚ) ∧
          ((overlayCalls basicHost [OverlayCall.configure enabledOptions,
            .recordSnapshot (sampleEntry "a" 1) (.num (.finite 10)),
            .recordSnapshot (sampleEntry "b" 2) (.num (.finite 11)),
            .recordSnapshot (sampleEntry "c" 3) (.num (.finite 12))]
            OverlayStore.initial).getEntries.length : ℤ) ≤ m) ∨
        (overlayCalls basicHost [OverlayCall.configure enabledOptions,
          .recordSnapshot (sampleEntry "a" 1) (.num (.finite 10)),
          .recordSnapshot (sampleEntry "b" 2) (.num (.finite 11)),
          .recordSnapshot (sampleEntry "c" 3) (.num (.finite 12))]
          OverlayStore.initial).maxEntries = .posInf) :=
  have hnum : ∀ c ∈ [OverlayCall.configure enabledOptions,
      .recordSnapshot (sampleEntry "a" 1) (.num (.finite 10)),
      .recordSnapshot (sampleEntry "b" 2) (.num (.finite 11)),
      .recordSnapshot (sampleEntry "c" 3) (.num (.finite 12))],
      c.numericMax basicHost := by
    intro c hc
    simp only [List.mem_cons, List.mem_singleton, List.not_mem_nil, or_false] at hc
    rcases hc with rfl | rfl | rfl | rfl
    · intro v hv _
      simp only [enabledOptions, Option.some.injEq] at hv
      subst hv
      simp [jsNumber]
    · trivial
    · trivial
    · trivial
  ⟨hnum, (overlay_store_bounded basicHost _ hnum).1⟩

/-! ## Genome VM: halted states, the last-tick guard and capture -/

theorem compute_after_capture_halted (host : JsHost) (ctx : TickContext) (rt : GenomeRuntime)
    (hhalted : rt.state.halted = true) :
    (compute host ctx (capture ctx rt)).buffer.halted = true ∧
      (compute host ctx (capture ctx rt)).buffer.nextIp = .finite (rt.state.ip : ℚ) ∧
      (compute host ctx (capture ctx rt)).buffer.executed = none ∧
      (compute host ctx (capture ctx rt)).buffer.biasUpdates = { distress := none, bond := none } ∧
      (compute host ctx (capture ctx rt)).buffer.canMutate = false ∧
      (compute host ctx (capture ctx rt)).program = rt.program ∧
      (compute host ctx (capture ctx rt)).state.ip = rt.state.ip := by
  by_cases hguard : rt.state.lastTick = ctx.tick.getD 0
  · simp [compute, capture, resetBuffer, hguard, hhalted]
  · by_cases hempty : rt.program.length = 0
    · simp [compute, capture, resetBuffer, hguard, hempty, haltEmpty]
    · simp [compute, capture, resetBuffer, hguard, hempty, hhalted, haltFrozen]

theorem genomeTick_halted (host : JsHost) (ctx : TickContext) (rt : GenomeRuntime)
    (hhalted : rt.state.halted = true) :
    (genomeTick host ctx rt).1.state.halted = true ∧
      (genomeTick host ctx rt).1.state.ip = rt.state.ip ∧
      (genomeTick host ctx rt).1.program = rt.program ∧
      (genomeTick host ctx rt).1.buffer.executed = none ∧
      (genomeTick host ctx rt).2 = ctx.bundle.map (fun b =>
        { b with interpretation_bias := some (b.interpretation_bias.getD emptyBias) }) := by
  obtain ⟨h1, h2, h3, _, h5, h6, _⟩ := compute_after_capture_halted host ctx rt hhalted
  refine ⟨?_, ?_, ?_, ?_, ?_⟩
  · simp [genomeTick, commit, h1]
  · simp [genomeTick, commit, h2]
  · simpa [genomeTick, commit] using h6
  · simpa [genomeTick, commit] using h3
  · simp only [genomeTick, commit]
    congr 1
    funext b
    exact commitBundle_closed _ b h5

theorem runContexts_halted (host : JsHost) (ctxs : List TickContext) (rt : GenomeRuntime)
    (hhalted : rt.state.halted = true) :
    (runContexts host ctxs rt).state.halted = true ∧
      (runContexts host ctxs rt).state.ip = rt.state.ip ∧
      (runContexts host ctxs rt).program = rt.program := by
  induction ctxs generalizing rt with
  | nil => exact ⟨hhalted, rfl, rfl⟩
  | cons ctx rest ih =>
    obtain ⟨h1, h2, h3, _, _⟩ := genomeTick_halted host ctx rt hhalted
    obtain ⟨i1, i2, i3⟩ := ih (genomeTick host ctx rt).1 h1
    exact ⟨i1, i2.trans h2, i3.trans h3⟩

theorem bias_getD_distress (b : Bundle) :
    Bundle.distress { b with interpretation_bias := some (b.interpretation_bias.getD emptyBias) } =
      b.distress := by
  cases h : b.interpretation_bias <;> simp [Bundle.distress, h, emptyBias]

theorem bias_getD_bond (b : Bundle) :
    Bundle.bond { b with interpretation_bias := some (b.interpretation_bias.getD emptyBias) } =
      b.bond := by
  cases h : b.interpretation_bias <;> simp [Bundle.bond, h, emptyBias]

theorem bondProgram_halts :
    (genomeTick basicHost liveContext
        (createGenomeRuntime basicHost (bondProgram 0))).1.state.halted = true := by
  have hex : (createGenomeRuntime basicHost (bondProgram 0)).Executes liveContext
      ⟨.SET_BOND_THRESHOLD, [.finite 0]⟩ := by decide
  obtain ⟨hc, _⟩ := genomeTick_exec basicHost liveContext _ _ hex.1 hex.2.1 hex.2.2.1 hex.2.2.2
  have hlen : (createGenomeRuntime basicHost (bondProgram 0)).program.length = 1 := by decide
  have hip : (createGenomeRuntime basicHost (bondProgram 0)).state.ip = 0 := by decide
  simp only [genomeTick]
  rw [hc]
  simp [commit, stagedBuffer, execInstruction, capture, hlen, hip, JsNum.lt]

/-- C26: halted is terminal for the Genome VM. From a state whose halted flag is true,
after any run of ticks, a further tick (capture, compute, commit) on any context leaves
halted true, the ip and the program as they were at the start, stages and records no
executed instruction, and leaves the `distress` and `bond` bias fields of the record of
the context as they were before that tick. -/
theorem halted_is_terminal (host : JsHost) (rt : GenomeRuntime) (ctxs : List TickContext)
    (ctx : TickContext) (hhalted : rt.state.halted = true) :
    (genomeTick host ctx (runContexts host ctxs rt)).1.state.halted = true ∧
      (genomeTick host ctx (runContexts host ctxs rt)).1.state.ip = rt.state.ip ∧
      (genomeTick host ctx (runContexts host ctxs rt)).1.program = rt.program ∧
      (compute host ctx (capture ctx (runContexts host ctxs rt))).buffer.executed = none ∧
      (compute host ctx (capture ctx (runContexts host ctxs rt))).buffer.biasUpdates =
        { distress := none, bond := none } ∧
      (genomeTick host ctx (runContexts host ctxs rt)).1.buffer.executed = none ∧
      (∀ b : Bundle, ctx.bundle = some b →
        ∃ b1 : Bundle, (genomeTick host ctx (runContexts host ctxs rt)).2 = some b1 ∧
          b1.distress = b.distress ∧ b1.bond = b.bond ∧ b1.alive = b.alive ∧
          b1.hunger = b.hunger ∧ b1.chi = b.chi ∧ b1.rest = b.rest) := by
  obtain ⟨r1, r2, r3⟩ := runContexts_halted host ctxs rt hhalted
  obtain ⟨g1, g2, g3, g4, g5⟩ := genomeTick_halted host ctx (runContexts host ctxs rt) r1
  obtain ⟨_, _, c3, c4, _, _, _⟩ :=
    compute_after_capture_halted host ctx (runContexts host ctxs rt) r1
  refine ⟨g1, g2.trans r2, g3.trans r3, c3, c4, g4, ?_⟩
  intro b hb
  refine ⟨_, ?_, bias_getD_distress b, bias_getD_bond b, rfl, rfl, rfl, rfl⟩
  rw [g5, hb]
  rfl

theorem halted_is_terminal_witness :
    (createGenomeRuntime basicHost (bondProgram 0)).state.halted = false ∧
      (genomeTick basicHost liveContext
        (createGenomeRuntime basicHost (bondProgram 0))).1.state.halted = true ∧
      (genomeTick basicHost { tick := some 2, dt := .num (.finite 1), bundle := some liveRecord }
        (runContexts basicHost
          [{ tick := some 1, dt := .num (.finite 1), bundle := some liveRecord }]
          (genomeTick basicHost liveContext
            (createGenomeRuntime basicHost (bondProgram 0))).1)).1.state.halted = true :=
  ⟨by decide, bondProgram_halts,
    (halted_is_terminal basicHost
      (genomeTick basicHost liveContext (createGenomeRuntime basicHost (bondProgram 0))).1
      [{ tick := some 1, dt := .num (.finite 1), bundle := some liveRecord }]
      { tick := some 2, dt := .num (.finite 1), bundle := some liveRecord }
      bondProgram_halts).1⟩

theorem genomeTick_guarded (host : JsHost) (ctx : TickContext) (rt : GenomeRuntime)
    (hcons : rt.Consistent) (htick : rt.state.lastTick = ctx.tick.getD 0) :
    (genomeTick host ctx rt).1.state = rt.state ∧
      (genomeTick host ctx rt).1.program = rt.program ∧
      compute host ctx (capture ctx rt) = capture ctx rt ∧
      (genomeTick host ctx rt).2 = ctx.bundle.map (fun b =>
        { b with interpretation_bias := some (b.interpretation_bias.getD emptyBias) }) := by
  have hc : compute host ctx (capture ctx rt) = capture ctx rt :=
    compute_guard host ctx (capture ctx rt) htick
  refine ⟨?_, ?_, hc, ?_⟩
  · simp only [genomeTick]
    rw [hc]
    obtain ⟨h1, h2⟩ := hcons
    cases hs : rt.state with
    | mk ip halted lastTick =>
      rw [hs] at h1 h2 htick
      simp only at h1 h2 htick
      simp only [commit, capture, resetBuffer, hs, Int.floor_intCast]
      cases halted with
      | true => simp [htick]
      | false =>
        obtain ⟨a, b⟩ := h2 rfl
        have hne : rt.program.length ≠ 0 := by
          intro h0
          have := h1 h0
          simp at this
        simp [htick, hne]
        omega
  · simp only [genomeTick]
    rw [hc]
    rfl
  · simp only [genomeTick]
    rw [hc]
    simp only [commit]
    congr 1

theorem commitBundle_closed_fixed (b : Bundle) (bias : BiasMap)
    (h : b.interpretation_bias = some bias) :
    ({ b with interpretation_bias := some (b.interpretation_bias.getD emptyBias) } : Bundle) = b := by
  cases b with
  | mk alive hunger chi ib rest =>
    simp only at h
    subst h
    rfl

theorem genomeTick_bias_some (host : JsHost) (ctx : TickContext) (rt : GenomeRuntime)
    (b : Bundle) (h : (genomeTick host ctx rt).2 = some b) :
    ∃ bias : BiasMap, b.interpretation_bias = some bias := by
  simp only [genomeTick, commit] at h
  cases hb : ctx.bundle with
  | none => simp [hb] at h
  | some b0 =>
    simp only [hb, Option.map_some', Option.some.injEq] at h
    subst h
    exact ⟨_, rfl⟩

/-- C27: the last-tick guard prevents double application. After a full cycle (capture,
compute, commit) on any runtime and context, a second full cycle whose context carries the
same tick index leaves the state (ip, halted, last-tick) and the program as the first left
them, executes nothing, leaves the `distress` and `bond` fields of the record of its
context as they were, and, when that record is the one the first cycle returned, leaves
the whole record as it was. -/
theorem last_tick_guard_prevents_double_application (host : JsHost) (rt : GenomeRuntime)
    (ctx1 ctx2 : TickContext) (htick : ctx2.tick.getD 0 = ctx1.tick.getD 0) :
    (genomeTick host ctx2 (genomeTick host ctx1 rt).1).1.state =
        (genomeTick host ctx1 rt).1.state ∧
      (genomeTick host ctx2 (genomeTick host ctx1 rt).1).1.program =
        (genomeTick host ctx1 rt).1.program ∧
      (compute host ctx2 (capture ctx2 (genomeTick host ctx1 rt).1)).buffer.executed = none ∧
      (compute host ctx2 (capture ctx2 (genomeTick host ctx1 rt).1)).buffer.biasUpdates =
        { distress := none, bond := none } ∧
      (∀ b : Bundle, ctx2.bundle = some b →
        ∃ b2 : Bundle, (genomeTick host ctx2 (genomeTick host ctx1 rt).1).2 = some b2 ∧
          b2.distress = b.distress ∧ b2.bond = b.bond ∧ b2.alive = b.alive ∧
          b2.hunger = b.hunger ∧ b2.chi = b.chi ∧ b2.rest = b.rest) ∧
      (∀ b : Bundle, (genomeTick host ctx1 rt).2 = some b → ctx2.bundle = some b →
        (genomeTick host ctx2 (genomeTick host ctx1 rt).1).2 = some b) := by
  have hcons : (genomeTick host ctx1 rt).1.Consistent := commit_consistent ctx1 _
  have hlast : (genomeTick host ctx1 rt).1.state.lastTick = ctx2.tick.getD 0 := by
    rw [htick]
    rfl
  obtain ⟨g1, g2, g3, g4⟩ := genomeTick_guarded host ctx2 (genomeTick host ctx1 rt).1 hcons hlast
  refine ⟨g1, g2, ?_, ?_, ?_, ?_⟩
  · rw [g3]
    rfl
  · rw [g3]
    rfl
  · intro b hb
    refine ⟨_, ?_, bias_getD_distress b, bias_getD_bond b, rfl, rfl, rfl, rfl⟩
    rw [g4, hb]
    rfl
  · intro b hfirst hb
    obtain ⟨bias, hbias⟩ := genomeTick_bias_some host ctx1 rt b hfirst
    rw [g4, hb]
    simp only [Option.map_some']
    rw [commitBundle_closed_fixed b bias hbias]

theorem last_tick_guard_prevents_double_application_witness :
    (some 0 : Option ℤ).getD 0 = (none : Option ℤ).getD 0 ∧
      (genomeTick basicHost { tick := some 0, dt := .num (.finite 2), bundle := some liveRecord }
        (genomeTick basicHost { tick := none, dt := .num (.finite 1), bundle := some liveRecord }
          (createGenomeRuntime basicHost exploreProgram)).1).1.state =
        (genomeTick basicHost { tick := none, dt := .num (.finite 1), bundle := some liveRecord }
          (createGenomeRuntime basicHost exploreProgram)).1.state :=
  ⟨rfl,
    (last_tick_guard_prevents_double_application basicHost
      (createGenomeRuntime basicHost exploreProgram)
      { tick := none, dt := .num (.finite 1), bundle := some liveRecord }
      { tick := some 0, dt := .num (.finite 2), bundle := some liveRecord } rfl).1⟩

/-- C28: `capture` resets the staging buffer and changes nothing else. After `capture` the
staged current ip and next ip are the ip of the state, the staged halted flag is the halted
flag of the state, no instruction is recorded as executed, the bias-update map is empty
and the mutation gate is closed; the state (ip, halted, last-tick), the program and the
runtime information are as before. The record of the context is not an output of
`capture`, which never writes to it. -/
theorem capture_resets_buffer_only (ctx : TickContext) (rt : GenomeRuntime) :
    (capture ctx rt).buffer.nextIp = .finite (rt.state.ip : ℚ) ∧
      (capture ctx rt).buffer.ipCurrent = rt.state.ip ∧
      (capture ctx rt).buffer.halted = rt.state.halted ∧
      (capture ctx rt).buffer.executed = none ∧
      (capture ctx rt).buffer.biasUpdates = { distress := none, bond := none } ∧
      (capture ctx rt).buffer.canMutate = false ∧
      (capture ctx rt).state = rt.state ∧
      getState (capture ctx rt) = getState rt ∧
      (capture ctx rt).program = rt.program ∧
      (capture ctx rt).info.metadata = rt.info.metadata ∧
      (capture ctx rt).info.origin = rt.info.origin ∧
      (capture ctx rt).info.manifestKey = rt.info.manifestKey :=
  ⟨rfl, rfl, rfl, rfl, rfl, rfl, rfl, rfl, rfl, rfl, rfl, rfl⟩

/-! ## Rule 110: width and cell invariant -/

theorem writeLoop_truncatePad {α : Type} (width : ℕ) (l : List α) (d : α) (g : α → ℕ) :
    writeLoop (min width l.length) (fun i => g (l.getD i d)) (List.replicate width 0) =
      specTruncatePad width (l.map g) := by
  apply List.ext_getElem?
  intro i
  rw [writeLoop_getElem?]
  simp only [specTruncatePad, List.length_replicate, List.length_map]
  by_cases h1 : i < min width l.length
  · have hw : i < width := lt_of_lt_of_le h1 (min_le_left _ _)
    have hl : i < l.length := lt_of_lt_of_le h1 (min_le_right _ _)
    rw [if_pos ⟨h1, hw⟩, List.getElem?_append_left (by simp; omega),
      List.getElem?_take_of_lt hw, List.getElem?_map, List.getElem?_eq_getElem hl,
      List.getD_eq_getElem _ _ hl]
    rfl
  · rw [if_neg (fun h => h1 h.1)]
    rw [List.getElem?_append_right (by simp; omega)]
    simp only [List.length_take, List.length_map]
    by_cases hw : i < width
    · have hl : l.length ≤ i := by
        by_contra hc
        exact h1 (lt_min hw (not_le.mp hc))
      rw [List.getElem?_replicate, List.getElem?_replicate, if_pos hw, if_pos (by omega)]
    · rw [List.getElem?_replicate, List.getElem?_replicate, if_neg hw, if_neg (by omega)]

theorem copyCells_eq_truncatePad (target current : List ℕ) (source : CellSource)
    (hfresh : source.isView = false) :
    copyCells target source = specTruncatePad target.length (specCellValues current source) := by
  cases source with
  | absent => simp [copyCells, specCellValues, specTruncatePad]
  | other => simp [copyCells, specCellValues, specTruncatePad]
  | typed view =>
    exact writeLoop_truncatePad target.length view 0 (fun v => if v ≠ 0 then 1 else 0)
  | array items => exact writeLoop_truncatePad target.length items .undefined toCellValue
  | string s =>
    exact writeLoop_truncatePad target.length s.data (Char.ofNat 0)
      (fun c => toCellValue (.str (String.singleton c)))
  | iterable items => exact writeLoop_truncatePad target.length items .undefined toCellValue
  | view start length => simp [CellSource.isView] at hfresh

theorem rule110SetState_wellFormed (cells : CellSource) (s : Rule110Stepper)
    (h : s.WellFormed) : (rule110SetState cells s).WellFormed := by
  refine ⟨?_, ?_, copyCells_bits _ _⟩
  · simp only [rule110SetState, copyCells_length]
    exact h.1
  · simp only [rule110SetState, List.length_replicate]
    exact h.2.1

theorem rule110Calls_wellFormed (calls : List Rule110Call) (s : Rule110Stepper)
    (h : s.WellFormed) :
    (rule110Calls calls s).WellFormed ∧ (rule110Calls calls s).width = s.width := by
  induction calls generalizing s with
  | nil => exact ⟨h, rfl⟩
  | cons c rest ih =>
    cases c with
    | tick ctx =>
      obtain ⟨i1, i2⟩ := ih (rule110Tick ctx s) (rule110Tick_wellFormed ctx s h)
      exact ⟨i1, i2⟩
    | setState cells =>
      obtain ⟨i1, i2⟩ := ih (rule110SetState cells s) (rule110SetState_wellFormed cells s h)
      exact ⟨i1, i2⟩

/-- C29 (counterexample): on a stepper of width 4 whose state is `1,1,1,1`,
`setState(getState().subarray(0, 2))` hands over a shorter input whose elements read `1,1`,
and the state afterwards is `0,0,0,0`, not the input padded with 0, which is `1,1,0,0`;
`setState(getState())` leaves `0,0,0,0` as well. -/
theorem setState_of_own_cells_installs_zeros :
    (createRule110Stepper 4 (.typed [1, 1, 1, 1])).current = [1, 1, 1, 1] ∧
      specCellValues (createRule110Stepper 4 (.typed [1, 1, 1, 1])).current (.view 0 2) =
        [1, 1] ∧
      specTruncatePad 4
          (specCellValues (createRule110Stepper 4 (.typed [1, 1, 1, 1])).current (.view 0 2)) =
        [1, 1, 0, 0] ∧
      (rule110SetState (.view 0 2) (createRule110Stepper 4 (.typed [1, 1, 1, 1]))).current =
        [0, 0, 0, 0] ∧
      (rule110SetState (.view 0 2) (createRule110Stepper 4 (.typed [1, 1, 1, 1]))).current ≠
        specTruncatePad 4
          (specCellValues (createRule110Stepper 4 (.typed [1, 1, 1, 1])).current (.view 0 2)) ∧
      (rule110SetState (.view 0 4) (createRule110Stepper 4 (.typed [1, 1, 1, 1]))).current =
        [0, 0, 0, 0] := by
  decide

/-- C29 (as amended): the state of the Rule 110 stepper is always a fixed-width array of
0/1 cells. After creation from any cells and after any sequence of ticks and `setState`
calls with any inputs, `current` has exactly `width` cells and each of them is 0 or 1. For
an input that is not a typed array on the memory of the stepper, the cells creation or
`setState` installs are the 0/1 readings of the elements of the input, cut at `width` when
the input is longer and continued with 0 when it is shorter; for an input that is a typed
array on the memory of the stepper they are all 0. -/
theorem rule110_state_fixed_width_bits (width : ℕ) (cells input : CellSource)
    (calls : List Rule110Call) (current : List ℕ) :
    (rule110Calls calls (createRule110Stepper width cells)).current.length = width ∧
      (∀ c ∈ (rule110Calls calls (createRule110Stepper width cells)).current, c = 0 ∨ c = 1) ∧
      (input.isView = false →
        (createRule110Stepper width input).current =
          specTruncatePad width (specCellValues current input)) ∧
      (input.isView = false →
        (rule110SetState input (rule110Calls calls (createRule110Stepper width cells))).current =
          specTruncatePad width (specCellValues current input)) ∧
      (input.isView = true →
        (createRule110Stepper width input).current = List.replicate width 0 ∧
        (rule110SetState input (rule110Calls calls (createRule110Stepper width cells))).current =
          List.replicate width 0) ∧
      (specTruncatePad width (specCellValues current input)).length = width ∧
      (∀ i : ℕ, i < width → i < (specCellValues current input).length →
        (specTruncatePad width (specCellValues current input))[i]? =
          (specCellValues current input)[i]?) ∧
      (∀ i : ℕ, i < width → (specCellValues current input).length ≤ i →
        (specTruncatePad width (specCellValues current input))[i]? = some 0) := by
  obtain ⟨hwf, hwidth⟩ := rule110Calls_wellFormed calls (createRule110Stepper width cells)
    (createRule110Stepper_wellFormed width cells)
  have hw : (rule110Calls calls (createRule110Stepper width cells)).width = width := hwidth
  have hlen : (rule110Calls calls (createRule110Stepper width cells)).current.length = width := by
    rw [hwf.1, hw]
  refine ⟨hlen, hwf.2.2, ?_, ?_, ?_, ?_, ?_, ?_⟩
  · intro hfresh
    simp only [createRule110Stepper]
    rw [copyCells_eq_truncatePad _ current input hfresh, List.length_replicate]
  · intro hfresh
    simp only [rule110SetState]
    rw [copyCells_eq_truncatePad _ current input hfresh, hlen]
  · intro hview
    cases input with
    | view start length =>
      constructor
      · simp only [createRule110Stepper]
        rw [copyCells_view, List.length_replicate]
      · simp only [rule110SetState]
        rw [copyCells_view, hlen]
    | absent => simp [CellSource.isView] at hview
    | other => simp [CellSource.isView] at hview
    | typed view => simp [CellSource.isView] at hview
    | array items => simp [CellSource.isView] at hview
    | string s => simp [CellSource.isView] at hview
    | iterable items => simp [CellSource.isView] at hview
  · simp only [specTruncatePad, List.length_append, List.length_take, List.length_replicate]
    omega
  · intro i hi hl
    simp only [specTruncatePad]
    rw [List.getElem?_append_left (by simp; omega), List.getElem?_take_of_lt hi]
  · intro i hi hl
    simp only [specTruncatePad]
    rw [List.getElem?_append_right (by simp; omega), List.getElem?_replicate]
    simp only [List.length_take]
    rw [if_pos (by omega)]

/-! ## Runtime manager: theorems -/

theorem teardownRule110Runtime_cleared (m : RuntimeManager) :
    (teardownRule110Runtime m).stepper = none ∧ (teardownRule110Runtime m).unsubscribe = none ∧
      (teardownRule110Runtime m).signature = none := ⟨rfl, rfl, rfl⟩

/-- C30: a failing teardown does not abort the host. When the stored `unsubscribe` throws
and `applyTcRuntimeConfig` is called with a configuration that is not enabled or whose mode
is not `rule110`, the call returns and throws nothing, the error is written to the console
after the lines already there, the stepper, the stored `unsubscribe` and the signature are
cleared, `window.rule110Stepper` is deleted when it held the stepper, and
`getActiveRule110Stepper` returns `null` afterwards. -/
theorem failing_teardown_is_reported (h : ManagerHost) (tcConfig : TcConfig)
    (registered : Except String Unit) (m : RuntimeManager) (error : String)
    (hthrows : m.unsubscribe = some (.error error))
    (hoff : tcConfig.enabled.truthy = false ∨ isRule110Mode tcConfig.mode = false) :
    ∃ m1 : RuntimeManager,
      applyTcRuntimeConfig h tcConfig registered m = .ok m1 ∧
        getActiveRule110Stepper m1 = none ∧
        m1.console = m.console ++ [("Failed to tear down Rule 110 stepper:", error)] ∧
        m1.unsubscribe = none ∧ m1.signature = none ∧
        (∀ s : ManagedStepper, m.stepper = some s → m.window = some (some s.id) →
          m1.window = some none) := by
  have hcond : (!tcConfig.enabled.truthy || !isRule110Mode tcConfig.mode) = true := by
    rcases hoff with h1 | h1 <;> simp [h1]
  refine ⟨teardownRule110Runtime
    { m with captureSnapshots := (buildRule110Spec h tcConfig).captureSnapshots,
             snapshotKey := (buildRule110Spec h tcConfig).snapshotKey }, ?_, rfl, ?_, rfl, rfl, ?_⟩
  · simp only [applyTcRuntimeConfig, hcond, if_true]
  · simp only [teardownRule110Runtime, hthrows]
  · intro s hs hw
    simp only [teardownRule110Runtime, hs, hw]
    simp

theorem failing_teardown_is_reported_witness :
    failingTeardownManager.unsubscribe = some (.error "boom") ∧
      ∃ m1 : RuntimeManager,
        applyTcRuntimeConfig basicManagerHost disabledConfig (.ok ()) failingTeardownManager =
            .ok m1 ∧
          getActiveRule110Stepper m1 = none ∧
          m1.console = failingTeardownManager.console ++
            [("Failed to tear down Rule 110 stepper:", "boom")] ∧
          m1.unsubscribe = none ∧ m1.signature = none ∧
          (∀ s : ManagedStepper, failingTeardownManager.stepper = some s →
            failingTeardownManager.window = some (some s.id) → m1.window = some none) :=
  ⟨rfl, failing_teardown_is_reported basicManagerHost disabledConfig (.ok ())
    failingTeardownManager "boom" rfl (Or.inl rfl)⟩

/-! ## Genome VM: the state after an executing tick -/

theorem execInstruction_next (host : JsHost) (bundle : Option Bundle) (instruction : Instruction)
    (nextIp : JsNum) (u : BiasUpdates) :
    (execInstruction host bundle instruction nextIp u).1 = nextIp ∨
      jumpTarget instruction = some (execInstruction host bundle instruction nextIp u).1 := by
  unfold execInstruction jumpTarget
  cases instruction.op <;> simp only
  · split_ifs
    · cases h : instruction.args[1]? <;> simp
    · left; rfl
  · split_ifs
    · cases h : instruction.args[1]? <;> simp
    · left; rfl
  · left; trivial
  · left; trivial
  · cases h : instruction.args[0]? <;> simp

theorem genomeTick_step (host : JsHost) (ctx : TickContext) (rt : GenomeRuntime)
    (instruction : Instruction) (n : ℤ) (hexec : rt.Executes ctx instruction)
    (hnext : (execInstruction host ctx.bundle instruction (.finite ((rt.state.ip : ℚ) + 1))
      { distress := none, bond := none }).1 = .finite (n : ℚ)) (hn : 0 ≤ n) :
    (genomeTick host ctx rt).1.state =
        { ip := n, halted := decide ((rt.program.length : ℤ) - 1 < n),
          lastTick := ctx.tick.getD 0 } ∧
      (genomeTick host ctx rt).1.program = rt.program ∧
      (genomeTick host ctx rt).1.buffer.executed =
        some { index := rt.state.ip, op := instruction.op, args := instruction.args } ∧
      (genomeTick host ctx rt).1.buffer.biasUpdates =
        (execInstruction host ctx.bundle instruction (.finite ((rt.state.ip : ℚ) + 1))
          { distress := none, bond := none }).2 := by
  obtain ⟨hfresh, hrun, h0, hins⟩ := hexec
  obtain ⟨hc, _⟩ := genomeTick_exec host ctx rt instruction hfresh hrun h0 hins
  obtain ⟨hlt, _⟩ := List.getElem?_eq_some.mp hins
  have hne : rt.program.length ≠ 0 := by omega
  have hstage : (stagedBuffer host ctx (capture ctx rt) instruction).nextIp = .finite (n : ℚ) := by
    simp only [stagedBuffer, capture, resetBuffer, hnext]
    exact stage_int_nextIp _ n _ rfl hn
  have hhalt : (stagedBuffer host ctx (capture ctx rt) instruction).halted =
      decide ((rt.program.length : ℤ) - 1 < n) := by
    simp only [stagedBuffer, capture, resetBuffer, hnext, JsNum.lt]
    have h1 : ¬ ((n : ℚ) < 0) := by
      have : (0 : ℚ) ≤ (n : ℚ) := by exact_mod_cast hn
      exact not_lt.mpr this
    have h2 : ((((rt.program.length : ℤ) - 1 : ℤ) : ℚ) < (n : ℚ)) ↔
        ((rt.program.length : ℤ) - 1 < n) := by exact_mod_cast Iff.rfl
    simp only [h1, decide_False, Bool.false_or]
    exact decide_eq_decide.mpr h2
  refine ⟨?_, ?_, ?_, ?_⟩
  · simp only [genomeTick]
    rw [hc]
    simp only [commit, hstage, hhalt, Int.floor_intCast]
    have hn' : ¬ (n < 0) := by omega
    by_cases hgt : (rt.program.length : ℤ) - 1 < n
    · simp [hgt, capture]
    · simp [hgt, hn', hne, capture]
  · simp only [genomeTick]
    rw [hc]
    rfl
  · simp only [genomeTick]
    rw [hc]
    rfl
  · simp only [genomeTick]
    rw [hc]
    rfl

theorem genomeTick_program (host : JsHost) (ctx : TickContext) (rt : GenomeRuntime) :
    (genomeTick host ctx rt).1.program = rt.program := by
  simp only [genomeTick, commit, compute, capture]
  split_ifs
  · rfl
  · rfl
  · rfl
  · rfl
  · split <;> rfl

theorem runContexts_program (host : JsHost) (ctxs : List TickContext) (rt : GenomeRuntime) :
    (runContexts host ctxs rt).program = rt.program := by
  induction ctxs generalizing rt with
  | nil => rfl
  | cons ctx rest ih =>
    simp only [runContexts]
    rw [ih, genomeTick_program]

theorem runContexts_append (host : JsHost) (l1 l2 : List TickContext) (rt : GenomeRuntime) :
    runContexts host (l1 ++ l2) rt = runContexts host l2 (runContexts host l1 rt) := by
  induction l1 generalizing rt with
  | nil => rfl
  | cons ctx rest ih =>
    simp only [List.cons_append, runContexts]
    exact ih _

theorem normalize_jumpsInside (host : JsHost) (programInput : JsVal) :
    JumpsInside (normalizeGenomeProgram host programInput) := by
  intro instruction hmem t ht
  obtain ⟨prepared, hargs⟩ := mem_normalize_args host programInput instruction hmem
  have hpos : 0 < (normalizeGenomeProgram host programInput).length := List.length_pos_of_mem hmem
  have hop : instruction.op = .IF_HUNGER_GT ∨ instruction.op = .IF_CHI_LT ∨
      instruction.op = .GOTO := by
    unfold jumpTarget at ht
    cases h : instruction.op <;> simp [h] at ht ⊢
  obtain ⟨n, hn, h0, h1⟩ := finalizeArgs_jumpTarget instruction.op prepared
    (((normalizeGenomeProgram host programInput).length : ℤ) - 1) (by omega) hop
  rw [← hargs] at hn
  have heta : ({ op := instruction.op, args := instruction.args } : Instruction) = instruction := rfl
  rw [heta, ht] at hn
  exact ⟨n, Option.some.inj hn, h0, h1⟩

theorem genomeTick_inside (host : JsHost) (ctx : TickContext) (rt : GenomeRuntime)
    (hjumps : JumpsInside rt.program) (hcons : rt.Consistent)
    (h0 : 0 ≤ rt.state.ip) (h1 : rt.state.ip ≤ (rt.program.length : ℤ)) :
    0 ≤ (genomeTick host ctx rt).1.state.ip ∧
      (genomeTick host ctx rt).1.state.ip ≤ (rt.program.length : ℤ) := by
  by_cases hguard : rt.state.lastTick = ctx.tick.getD 0
  · obtain ⟨hs, _⟩ := genomeTick_guarded host ctx rt hcons hguard
    rw [hs]
    exact ⟨h0, h1⟩
  · cases hh : rt.state.halted with
    | true =>
      obtain ⟨_, hip, _⟩ := genomeTick_halted host ctx rt hh
      rw [hip]
      exact ⟨h0, h1⟩
    | false =>
      obtain ⟨hlo, hhi⟩ := hcons.2 hh
      obtain ⟨instruction, hins⟩ :
          ∃ instruction, rt.program[rt.state.ip.toNat]? = some instruction := by
        have hlt : rt.state.ip.toNat < rt.program.length := by omega
        exact ⟨_, List.getElem?_eq_getElem hlt⟩
      have hexec : rt.Executes ctx instruction := ⟨hguard, hh, hlo, hins⟩
      have hmem := mem_of_getElem?_eq_some _ _ _ hins
      obtain ⟨n, hn, hn0, hn1⟩ : ∃ n : ℤ,
          (execInstruction host ctx.bundle instruction (.finite ((rt.state.ip : ℚ) + 1))
            { distress := none, bond := none }).1 = .finite (n : ℚ) ∧ 0 ≤ n ∧
            n ≤ (rt.program.length : ℤ) := by
        rcases execInstruction_next host ctx.bundle instruction (.finite ((rt.state.ip : ℚ) + 1))
          { distress := none, bond := none } with h | h
        · exact ⟨rt.state.ip + 1, by rw [h]; push_cast; rfl, by omega, by omega⟩
        · obtain ⟨n, hn, hn0, hn1⟩ := hjumps instruction hmem _ h
          exact ⟨n, hn, hn0, by omega⟩
      obtain ⟨hs, _⟩ := genomeTick_step host ctx rt instruction n hexec hn hn0
      rw [hs]
      exact ⟨hn0, hn1⟩

theorem runContexts_inside (host : JsHost) (ctxs : List TickContext) (rt : GenomeRuntime)
    (hjumps : JumpsInside rt.program) (hcons : rt.Consistent)
    (h0 : 0 ≤ rt.state.ip) (h1 : rt.state.ip ≤ (rt.program.length : ℤ)) :
    0 ≤ (runContexts host ctxs rt).state.ip ∧
      (runContexts host ctxs rt).state.ip ≤ (rt.program.length : ℤ) ∧
      (runContexts host ctxs rt).Consistent := by
  induction ctxs generalizing rt with
  | nil => exact ⟨h0, h1, hcons⟩
  | cons ctx rest ih =>
    obtain ⟨a, b⟩ := genomeTick_inside host ctx rt hjumps hcons h0 h1
    have hp := genomeTick_program host ctx rt
    have := ih (genomeTick host ctx rt).1 (by rw [hp]; exact hjumps)
      (commit_consistent ctx _) a (by rw [hp]; exact b)
    rw [hp] at this
    exact this

/-- C34: the reachable-state invariant of the Genome VM. After `setProgram` with any
program source, and after every run of ticks (capture, compute, commit) on any contexts
from there, the program is the normalized source, the state satisfies
`0 <= ip <= length`, and `halted = false` implies `0 <= ip <= length - 1`. -/
theorem reachable_state_invariant (host : JsHost) (programSource : JsVal) (info : ProgramInfo)
    (rt : GenomeRuntime) (ctxs : List TickContext) :
    (runContexts host ctxs (setProgram host programSource info rt)).program =
        normalizeGenomeProgram host programSource ∧
      0 ≤ (runContexts host ctxs (setProgram host programSource info rt)).state.ip ∧
      (runContexts host ctxs (setProgram host programSource info rt)).state.ip ≤
        ((normalizeGenomeProgram host programSource).length : ℤ) ∧
      ((runContexts host ctxs (setProgram host programSource info rt)).state.halted = false →
        0 ≤ (runContexts host ctxs (setProgram host programSource info rt)).state.ip ∧
          (runContexts host ctxs (setProgram host programSource info rt)).state.ip ≤
            ((normalizeGenomeProgram host programSource).length : ℤ) - 1) := by
  have hprog : (setProgram host programSource info rt).program =
      normalizeGenomeProgram host programSource := rfl
  have hrun := runContexts_program host ctxs (setProgram host programSource info rt)
  obtain ⟨a, b, c⟩ := runContexts_inside host ctxs (setProgram host programSource info rt)
    (by rw [hprog]; exact normalize_jumpsInside host programSource)
    (setProgram_consistent host programSource info rt) (le_refl _)
    (by rw [hprog]; exact Int.natCast_nonneg _)
  rw [hprog] at b
  refine ⟨hrun.trans hprog, a, b, ?_⟩
  intro hh
  have := c.2 hh
  rw [hrun, hprog] at this
  exact this

theorem genomeTick_running (host : JsHost) (ctx : TickContext) (rt : GenomeRuntime)
    (hland : ∀ (i : ℕ) (instruction : Instruction), rt.program[i]? = some instruction →
      ∀ bundle : Option Bundle, ∃ n : ℤ,
        (execInstruction host bundle instruction (.finite (((i : ℤ) : ℚ) + 1))
          { distress := none, bond := none }).1 = .finite (n : ℚ) ∧
        0 ≤ n ∧ n ≤ (rt.program.length : ℤ) - 1)
    (hrun : rt.state.halted = false) (h0 : 0 ≤ rt.state.ip)
    (h1 : rt.state.ip ≤ (rt.program.length : ℤ) - 1) :
    (genomeTick host ctx rt).1.state.halted = false ∧ 0 ≤ (genomeTick host ctx rt).1.state.ip ∧
      (genomeTick host ctx rt).1.state.ip ≤ (rt.program.length : ℤ) - 1 := by
  by_cases hguard : rt.state.lastTick = ctx.tick.getD 0
  · have hcons : rt.Consistent := by
      refine ⟨fun hlen => ?_, fun _ => ⟨h0, h1⟩⟩
      rw [hlen] at h1
      simp only [Nat.cast_zero] at h1
      omega
    obtain ⟨hs, _⟩ := genomeTick_guarded host ctx rt hcons hguard
    rw [hs]
    exact ⟨hrun, h0, h1⟩
  · have hlt : rt.state.ip.toNat < rt.program.length := by omega
    have hins : rt.program[rt.state.ip.toNat]? = some (rt.program.get ⟨_, hlt⟩) :=
      List.getElem?_eq_getElem hlt
    obtain ⟨n, hn, hn0, hn1⟩ := hland _ _ hins ctx.bundle
    rw [Int.toNat_of_nonneg h0] at hn
    obtain ⟨hs, _⟩ := genomeTick_step host ctx rt _ n ⟨hguard, hrun, h0, hins⟩ hn hn0
    rw [hs]
    refine ⟨?_, hn0, hn1⟩
    simp only [decide_eq_false_iff_not, not_lt]
    exact hn1

theorem runContexts_running (host : JsHost) (ctxs : List TickContext) (rt : GenomeRuntime)
    (hland : ∀ (i : ℕ) (instruction : Instruction), rt.program[i]? = some instruction →
      ∀ bundle : Option Bundle, ∃ n : ℤ,
        (execInstruction host bundle instruction (.finite (((i : ℤ) : ℚ) + 1))
          { distress := none, bond := none }).1 = .finite (n : ℚ) ∧
        0 ≤ n ∧ n ≤ (rt.program.length : ℤ) - 1)
    (hrun : rt.state.halted = false) (h0 : 0 ≤ rt.state.ip)
    (h1 : rt.state.ip ≤ (rt.program.length : ℤ) - 1) :
    (runContexts host ctxs rt).state.halted = false ∧ 0 ≤ (runContexts host ctxs rt).state.ip ∧
      (runContexts host ctxs rt).state.ip ≤ (rt.program.length : ℤ) - 1 := by
  induction ctxs generalizing rt with
  | nil => exact ⟨hrun, h0, h1⟩
  | cons ctx rest ih =>
    obtain ⟨a, b, c⟩ := genomeTick_running host ctx rt hland hrun h0 h1
    have hp := genomeTick_program host ctx rt
    have := ih (genomeTick host ctx rt).1 (by rw [hp]; exact hland) a b (by rw [hp]; exact c)
    rw [hp] at this
    exact this

theorem normalize_programToRaw (host : JsHost) (program : List Instruction)
    (hfinal : ∀ instruction ∈ program,
      finalizeArgs instruction.op (prepareArgs host instruction.op (instruction.args.map JsVal.num))
        ((program.length : ℤ) - 1) = instruction.args) :
    normalizeGenomeProgram host (programToRaw program) = program := by
  have hprep : ∀ l : List Instruction, prepareEntries host (l.map Instruction.toRaw) =
      l.map fun instruction =>
        ({ op := instruction.op,
           args := prepareArgs host instruction.op (instruction.args.map JsVal.num) } :
          Instruction) := by
    intro l
    induction l with
    | nil => rfl
    | cons entry rest ih =>
      simp only [prepareEntries, List.map_cons, List.filterMap_cons] at ih ⊢
      rw [normalizeInstruction_toRaw]
      simp only [Option.map_some']
      rw [ih]
  simp only [normalizeGenomeProgram, programToRaw]
  rw [hprep]
  simp only [List.length_map, List.map_map]
  conv_rhs => rw [← List.map_id program]
  apply List.map_congr_left
  intro instruction hmem
  simp only [Function.comp, id]
  rw [hfinal instruction hmem]

theorem hungerLoop_normalized (host : JsHost) :
    normalizeGenomeProgram host hungerLoopPreset = hungerLoopProgram := by
  have hraw : hungerLoopPreset = programToRaw hungerLoopProgram := by
    simp [hungerLoopPreset, programToRaw, hungerLoopProgram, Instruction.toRaw, Opcode.name]
  rw [hraw]
  apply normalize_programToRaw
  intro instruction hmem
  simp only [hungerLoopProgram, List.mem_cons, List.mem_singleton, List.not_mem_nil, or_false]
    at hmem
  rcases hmem with rfl | rfl | rfl | rfl <;>
    simp [finalizeArgs, prepareArgs, elemAt, numAt, toFiniteNumber, clamp01, clamp, clampIndex,
      hungerLoopProgram, JsNum.isFinite] <;> norm_num

theorem chiBranch_normalized (host : JsHost) :
    normalizeGenomeProgram host chiBranchPreset = chiBranchProgram := by
  have hraw : chiBranchPreset = programToRaw chiBranchProgram := by
    simp [chiBranchPreset, programToRaw, chiBranchProgram, Instruction.toRaw, Opcode.name]
  rw [hraw]
  apply normalize_programToRaw
  intro instruction hmem
  simp only [chiBranchProgram, List.mem_cons, List.mem_singleton, List.not_mem_nil, or_false]
    at hmem
  rcases hmem with rfl | rfl | rfl | rfl | rfl <;>
    simp [finalizeArgs, prepareArgs, elemAt, numAt, toFiniteNumber, clamp01, clamp, clampIndex,
      chiBranchProgram, JsNum.isFinite, MAX_CHI_THRESHOLD, startChi] <;> norm_num

theorem hungerLoop_lands (host : JsHost) (i : ℕ) (instruction : Instruction)
    (h : hungerLoopProgram[i]? = some instruction) (bundle : Option Bundle) :
    ∃ n : ℤ,
      (execInstruction host bundle instruction (.finite (((i : ℤ) : ℚ) + 1))
        { distress := none, bond := none }).1 = .finite (n : ℚ) ∧
      0 ≤ n ∧ n ≤ (hungerLoopProgram.length : ℤ) - 1 := by
  have hlen : (hungerLoopProgram.length : ℤ) - 1 = 3 := rfl
  rw [hlen]
  rcases i with _ | _ | _ | _ | i
  · simp only [hungerLoopProgram, List.getElem?_cons_zero, Option.some.injEq] at h
    subst h
    exact ⟨1, by simp [execInstruction], by norm_num, by norm_num⟩
  · simp only [hungerLoopProgram, List.getElem?_cons_succ, List.getElem?_cons_zero,
      Option.some.injEq] at h
    subst h
    by_cases hc : (execInstruction host bundle
        { op := .IF_HUNGER_GT, args := [.finite (3 / 5), .finite 3] }
        (.finite ((((0 + 1 : ℕ) : ℤ) : ℚ) + 1)) { distress := none, bond := none }).1 = .finite 3
    · exact ⟨3, by rw [hc]; norm_num, by norm_num, by norm_num⟩
    · refine ⟨2, ?_, by norm_num, by norm_num⟩
      simp only [execInstruction, List.getElem?_cons_zero, Option.getD_some,
        List.getElem?_cons_succ] at hc ⊢
      split_ifs at hc ⊢
      · exact absurd rfl hc
      · norm_num
  · simp only [hungerLoopProgram, List.getElem?_cons_succ, List.getElem?_cons_zero,
      Option.some.injEq] at h
    subst h
    exact ⟨3, by simp [execInstruction]; norm_num, by norm_num, by norm_num⟩
  · simp only [hungerLoopProgram, List.getElem?_cons_succ, List.getElem?_cons_zero,
      Option.some.injEq] at h
    subst h
    exact ⟨1, by simp [execInstruction], by norm_num, by norm_num⟩
  · simp [hungerLoopProgram] at h

theorem chiBranch_lands (host : JsHost) (i : ℕ) (instruction : Instruction)
    (h : chiBranchProgram[i]? = some instruction) (bundle : Option Bundle) :
    ∃ n : ℤ,
      (execInstruction host bundle instruction (.finite (((i : ℤ) : ℚ) + 1))
        { distress := none, bond := none }).1 = .finite (n : ℚ) ∧
      0 ≤ n ∧ n ≤ (chiBranchProgram.length : ℤ) - 1 := by
  have hlen : (chiBranchProgram.length : ℤ) - 1 = 4 := rfl
  rw [hlen]
  rcases i with _ | _ | _ | _ | _ | i
  · simp only [chiBranchProgram, List.getElem?_cons_zero, Option.some.injEq] at h
    subst h
    exact ⟨1, by simp [execInstruction], by norm_num, by norm_num⟩
  · simp only [chiBranchProgram, List.getElem?_cons_succ, List.getElem?_cons_zero,
      Option.some.injEq] at h
    subst h
    by_cases hc : (execInstruction host bundle
        { op := .IF_CHI_LT, args := [.finite 8, .finite 3] }
        (.finite ((((0 + 1 : ℕ) : ℤ) : ℚ) + 1)) { distress := none, bond := none }).1 = .finite 3
    · exact ⟨3, by rw [hc]; norm_num, by norm_num, by norm_num⟩
    · refine ⟨2, ?_, by norm_num, by norm_num⟩
      simp only [execInstruction, List.getElem?_cons_zero, Option.getD_some,
        List.getElem?_cons_succ] at hc ⊢
      split_ifs at hc ⊢
      · exact absurd rfl hc
      · norm_num
  · simp only [chiBranchProgram, List.getElem?_cons_succ, List.getElem?_cons_zero,
      Option.some.injEq] at h
    subst h
    exact ⟨0, by simp [execInstruction], by norm_num, by norm_num⟩
  · simp only [chiBranchProgram, List.getElem?_cons_succ, List.getElem?_cons_zero,
      Option.some.injEq] at h
    subst h
    exact ⟨4, by simp [execInstruction]; norm_num, by norm_num, by norm_num⟩
  · simp only [chiBranchProgram, List.getElem?_cons_succ, List.getElem?_cons_zero,
      Option.some.injEq] at h
    subst h
    exact ⟨0, by simp [execInstruction], by norm_num, by norm_num⟩
  · simp [chiBranchProgram] at h

/-- C36: the named presets never halt. For each of `hunger-loop` and `chi-branch`,
`cloneInstructionList` and `normalizeGenomeProgram` leave the program of the preset as it
is written, and after `setProgram` and any run of ticks, whatever tick index, hunger, chi
and record each context carries, the state has `halted = false` and its ip lies within
`[0, length - 1]`. -/
theorem presets_never_halt (host : JsHost) (info : ProgramInfo) (rt : GenomeRuntime)
    (ctxs : List TickContext) :
    (GENOME_PRESETS "hunger-loop" = some hungerLoopPreset ∧
        cloneInstructionList hungerLoopPreset = hungerLoopPreset ∧
        programToRaw (normalizeGenomeProgram host hungerLoopPreset) = hungerLoopPreset ∧
        (normalizeGenomeProgram host hungerLoopPreset).length = 4 ∧
        (runContexts host ctxs (setProgram host hungerLoopPreset info rt)).state.halted = false ∧
        0 ≤ (runContexts host ctxs (setProgram host hungerLoopPreset info rt)).state.ip ∧
        (runContexts host ctxs (setProgram host hungerLoopPreset info rt)).state.ip ≤ 4 - 1) ∧
      (GENOME_PRESETS "chi-branch" = some chiBranchPreset ∧
        cloneInstructionList chiBranchPreset = chiBranchPreset ∧
        programToRaw (normalizeGenomeProgram host chiBranchPreset) = chiBranchPreset ∧
        (normalizeGenomeProgram host chiBranchPreset).length = 5 ∧
        (runContexts host ctxs (setProgram host chiBranchPreset info rt)).state.halted = false ∧
        0 ≤ (runContexts host ctxs (setProgram host chiBranchPreset info rt)).state.ip ∧
        (runContexts host ctxs (setProgram host chiBranchPreset info rt)).state.ip ≤ 5 - 1) := by
  have hp1 : (setProgram host hungerLoopPreset info rt).program = hungerLoopProgram :=
    hungerLoop_normalized host
  have hp2 : (setProgram host chiBranchPreset info rt).program = chiBranchProgram :=
    chiBranch_normalized host
  have hs1 : (setProgram host hungerLoopPreset info rt).state.halted = false := by
    simp only [setProgram]
    rw [hungerLoop_normalized]
    rfl
  have hs2 : (setProgram host chiBranchPreset info rt).state.halted = false := by
    simp only [setProgram]
    rw [chiBranch_normalized]
    rfl
  have r1 := runContexts_running host ctxs (setProgram host hungerLoopPreset info rt)
    (by rw [hp1]; exact fun i instruction h bundle => hungerLoop_lands host i instruction h bundle)
    hs1 (le_refl _) (by rw [hp1]; show (0 : ℤ) ≤ _; decide)
  have r2 := runContexts_running host ctxs (setProgram host chiBranchPreset info rt)
    (by rw [hp2]; exact fun i instruction h bundle => chiBranch_lands host i instruction h bundle)
    hs2 (le_refl _) (by rw [hp2]; show (0 : ℤ) ≤ _; decide)
  rw [hp1] at r1
  rw [hp2] at r2
  refine ⟨⟨rfl, ?_, ?_, ?_, r1.1, r1.2.1, r1.2.2⟩, ⟨rfl, ?_, ?_, ?_, r2.1, r2.2.1, r2.2.2⟩⟩
  · simp [cloneInstructionList, hungerLoopPreset, getProp, List.lookup]
  · rw [hungerLoop_normalized]
    simp [hungerLoopPreset, programToRaw, hungerLoopProgram, Instruction.toRaw, Opcode.name]
  · rw [hungerLoop_normalized]
    rfl
  · simp [cloneInstructionList, chiBranchPreset, getProp, List.lookup]
  · rw [chiBranch_normalized]
    simp [chiBranchPreset, programToRaw, chiBranchProgram, Instruction.toRaw, Opcode.name]
  · rw [chiBranch_normalized]
    rfl


/-! ## Genome VM: programs of setters -/

theorem execInstruction_setter (host : JsHost) (bundle : Option Bundle) (instruction : Instruction)
    (nextIp : JsNum) (u : BiasUpdates)
    (hop : instruction.op = .SET_EXPLORE ∨ instruction.op = .SET_BOND_THRESHOLD) :
    (execInstruction host bundle instruction nextIp u).1 = nextIp := by
  unfold execInstruction
  rcases hop with h | h <;> rw [h]

theorem canMutateOf_alive (b : Bundle) (hgate : b.alive ≠ .bool false) :
    canMutateOf (some b) = true := by
  cases hb : b.alive with
  | bool v =>
    cases v with
    | false => exact absurd hb hgate
    | true => simp [canMutateOf, hb]
  | undefined => simp [canMutateOf, hb]
  | null => simp [canMutateOf, hb]
  | num n => simp [canMutateOf, hb]
  | str s => simp [canMutateOf, hb]
  | arr items => simp [canMutateOf, hb]
  | obj fields => simp [canMutateOf, hb]

theorem genomeTick_setter_record (host : JsHost) (ctx : TickContext) (rt : GenomeRuntime)
    (b : Bundle) (v : ℚ) (op : Opcode) (hb : ctx.bundle = some b)
    (hexec : rt.Executes ctx { op := op, args := [.finite v] })
    (hv0 : 0 ≤ v) (hv1 : v ≤ 1) (hgate : b.alive ≠ .bool false) :
    ∃ b2 : Bundle, (genomeTick host ctx rt).2 = some b2 ∧
      (op = .SET_EXPLORE → b2.distress = some (.num (.finite v))) ∧
      (op = .SET_BOND_THRESHOLD → b2.bond = some (.num (.finite (roundDouble (1 - v))))) := by
  have hopen := canMutateOf_alive b hgate
  obtain ⟨_, hrec⟩ := genomeTick_exec host ctx rt _ hexec.1 hexec.2.1 hexec.2.2.1 hexec.2.2.2
  rw [hb] at hrec
  have h1 : (0 : ℚ) ≤ 1 - v := by linarith
  have h2 : 1 - v ≤ (1 : ℚ) := by linarith
  have hr := roundDouble_unit h1 h2
  refine ⟨_, hrec, ?_, ?_⟩
  · intro hop
    subst hop
    simp [commitBundle, stagedBuffer, hb, hopen, execInstruction, applyBiasUpdates, capture,
      resetBuffer, Bundle.distress, clamp01, clamp_of_mem _ _ _ hv0 hv1]
  · intro hop
    subst hop
    simp [commitBundle, stagedBuffer, hb, hopen, execInstruction, applyBiasUpdates, capture,
      resetBuffer, Bundle.bond, clamp01, clamp_of_mem _ _ _ hv0 hv1, clamp_of_mem _ _ _ hr.1 hr.2]

theorem tickContexts_succ (dts : ℕ → JsVal) (bundles : ℕ → Option Bundle) (k : ℕ) :
    tickContexts dts bundles (k + 1) =
      tickContexts dts bundles k ++
        [{ tick := some (k : ℤ), dt := dts k, bundle := bundles k }] := by
  simp [tickContexts, List.range_succ]

theorem setters_run (host : JsHost) (programSource : JsVal) (info : ProgramInfo)
    (rt : GenomeRuntime) (dts : ℕ → JsVal) (bundles : ℕ → Option Bundle)
    (hlen : 1 ≤ (normalizeGenomeProgram host programSource).length)
    (hops : ∀ instruction ∈ normalizeGenomeProgram host programSource,
      instruction.op = .SET_EXPLORE ∨ instruction.op = .SET_BOND_THRESHOLD) (k : ℕ) :
    (runContexts host (tickContexts dts bundles k)
        (setProgram host programSource info rt)).program =
        normalizeGenomeProgram host programSource ∧
      (k < (normalizeGenomeProgram host programSource).length →
        (runContexts host (tickContexts dts bundles k)
          (setProgram host programSource info rt)).state =
          { ip := (k : ℤ), halted := false, lastTick := (k : ℤ) - 1 }) ∧
      ((normalizeGenomeProgram host programSource).length ≤ k →
        (runContexts host (tickContexts dts bundles k)
          (setProgram host programSource info rt)).state.ip =
            ((normalizeGenomeProgram host programSource).length : ℤ) ∧
        (runContexts host (tickContexts dts bundles k)
          (setProgram host programSource info rt)).state.halted = true) := by
  induction k with
  | zero =>
    refine ⟨rfl, fun _ => ?_, fun h => by omega⟩
    simp only [tickContexts, List.range_zero, List.map_nil, runContexts, setProgram]
    have hne : ((normalizeGenomeProgram host programSource).length == 0) = false := by
      simp only [beq_eq_false_iff_ne, ne_eq]
      omega
    rw [hne]
    rfl
  | succ k ih =>
    obtain ⟨hprog, hlow, hhigh⟩ := ih
    rw [tickContexts_succ, runContexts_append]
    simp only [runContexts]
    refine ⟨(genomeTick_program host _ _).trans hprog, ?_, ?_⟩
    · intro hk
      have hstate := hlow (by omega)
      have hlt : k < (normalizeGenomeProgram host programSource).length := by omega
      have hins : (runContexts host (tickContexts dts bundles k)
          (setProgram host programSource info rt)).program[(runContexts host
            (tickContexts dts bundles k)
            (setProgram host programSource info rt)).state.ip.toNat]? =
          some ((normalizeGenomeProgram host programSource).get ⟨k, hlt⟩) := by
        rw [hprog, hstate]
        exact List.getElem?_eq_getElem hlt
      have hexec : (runContexts host (tickContexts dts bundles k)
          (setProgram host programSource info rt)).Executes
          { tick := some (k : ℤ), dt := dts k, bundle := bundles k }
          ((normalizeGenomeProgram host programSource).get ⟨k, hlt⟩) := by
        refine ⟨?_, ?_, ?_, hins⟩
        · rw [hstate]
          simp only [Option.getD_some]
          omega
        · rw [hstate]
        · rw [hstate]
          exact Int.natCast_nonneg _
      obtain ⟨hs, _⟩ := genomeTick_step host _ _ _ ((k : ℤ) + 1) hexec
        (by
          rw [execInstruction_setter host _ _ _ _ (hops _ (List.get_mem _ _ _)), hstate]
          push_cast
          rfl)
        (by omega)
      rw [hs, hprog]
      have hd : decide (((normalizeGenomeProgram host programSource).length : ℤ) - 1 <
          (k : ℤ) + 1) = false := by
        simp only [decide_eq_false_iff_not, not_lt]
        omega
      rw [hd]
      simp only [Option.getD_some, Nat.cast_add, Nat.cast_one, add_sub_cancel_right]
    · intro hk
      by_cases hlt : k < (normalizeGenomeProgram host programSource).length
      · have hstate := hlow hlt
        have hins : (runContexts host (tickContexts dts bundles k)
            (setProgram host programSource info rt)).program[(runContexts host
              (tickContexts dts bundles k)
              (setProgram host programSource info rt)).state.ip.toNat]? =
            some ((normalizeGenomeProgram host programSource).get ⟨k, hlt⟩) := by
          rw [hprog, hstate]
          exact List.getElem?_eq_getElem hlt
        have hexec : (runContexts host (tickContexts dts bundles k)
            (setProgram host programSource info rt)).Executes
            { tick := some (k : ℤ), dt := dts k, bundle := bundles k }
            ((normalizeGenomeProgram host programSource).get ⟨k, hlt⟩) := by
          refine ⟨?_, ?_, ?_, hins⟩
          · rw [hstate]
            simp only [Option.getD_some]
            omega
          · rw [hstate]
          · rw [hstate]
            exact Int.natCast_nonneg _
        obtain ⟨hs, _⟩ := genomeTick_step host _ _ _ ((k : ℤ) + 1) hexec
          (by
            rw [execInstruction_setter host _ _ _ _ (hops _ (List.get_mem _ _ _)), hstate]
            push_cast
            rfl)
          (by omega)
        rw [hs, hprog]
        have hd : decide (((normalizeGenomeProgram host programSource).length : ℤ) - 1 <
            (k : ℤ) + 1) = true := by
          simp only [decide_eq_true_eq]
          omega
        rw [hd]
        simp only [and_true]
        omega
      · obtain ⟨hip, hh⟩ := hhigh (by omega)
        obtain ⟨g1, g2, _⟩ := genomeTick_halted host
          { tick := some (k : ℤ), dt := dts k, bundle := bundles k } _ hh
        exact ⟨g2.trans hip, g1⟩

/-- C35: falling off the end halts. For every program source whose normalized program has
length `n >= 1` and only `SET_EXPLORE` and `SET_BOND_THRESHOLD` instructions, run from
`setProgram` with the tick indices 0, 1, 2, ... on any records, the state after `k` ticks
is `ip = k`, `halted = false` for every `k < n` and `ip = n`, `halted = true` for every
`k >= n`; and tick `n`, which executes the last instruction against a record whose `alive`
flag is not `false`, still writes its bias update into the record: `distress = v` after
`SET_EXPLORE(v)` and as `bond` the double nearest to `1 - v` after
`SET_BOND_THRESHOLD(v)`. -/
theorem setters_fall_off_the_end (host : JsHost) (programSource : JsVal) (info : ProgramInfo)
    (rt : GenomeRuntime) (dts : ℕ → JsVal) (bundles : ℕ → Option Bundle) (k : ℕ)
    (hlen : 1 ≤ (normalizeGenomeProgram host programSource).length)
    (hops : ∀ instruction ∈ normalizeGenomeProgram host programSource,
      instruction.op = .SET_EXPLORE ∨ instruction.op = .SET_BOND_THRESHOLD) :
    (k < (normalizeGenomeProgram host programSource).length →
        (runContexts host (tickContexts dts bundles k)
          (setProgram host programSource info rt)).state.ip = (k : ℤ) ∧
        (runContexts host (tickContexts dts bundles k)
          (setProgram host programSource info rt)).state.halted = false) ∧
      ((normalizeGenomeProgram host programSource).length ≤ k →
        (runContexts host (tickContexts dts bundles k)
          (setProgram host programSource info rt)).state.ip =
            ((normalizeGenomeProgram host programSource).length : ℤ) ∧
        (runContexts host (tickContexts dts bundles k)
          (setProgram host programSource info rt)).state.halted = true) ∧
      (∀ (b : Bundle) (op : Opcode) (x : JsNum),
        bundles ((normalizeGenomeProgram host programSource).length - 1) = some b →
        b.alive ≠ .bool false →
        (normalizeGenomeProgram host programSource)[
          (normalizeGenomeProgram host programSource).length - 1]? =
            some { op := op, args := [x] } →
        ∃ (v : ℚ) (b2 : Bundle), x = .finite v ∧
          (genomeTick host
            { tick := some (((normalizeGenomeProgram host programSource).length - 1 : ℕ) : ℤ),
              dt := dts ((normalizeGenomeProgram host programSource).length - 1),
              bundle := bundles ((normalizeGenomeProgram host programSource).length - 1) }
            (runContexts host
              (tickContexts dts bundles ((normalizeGenomeProgram host programSource).length - 1))
              (setProgram host programSource info rt))).2 = some b2 ∧
          (op = .SET_EXPLORE → b2.distress = some (.num (.finite v))) ∧
          (op = .SET_BOND_THRESHOLD →
            b2.bond = some (.num (.finite (roundDouble (1 - v)))))) := by
  obtain ⟨_, hlow, hhigh⟩ := setters_run host programSource info rt dts bundles hlen hops k
  refine ⟨fun hk => ?_, hhigh, ?_⟩
  · rw [hlow hk]
    exact ⟨rfl, rfl⟩
  · intro b op x hb hgate hlast
    have hmem := mem_of_getElem?_eq_some _ _ _ hlast
    have hop : op = .SET_EXPLORE ∨ op = .SET_BOND_THRESHOLD := hops _ hmem
    obtain ⟨v, rfl, hv0, hv1⟩ := normalized_unit_arg host programSource op x hop hmem
    obtain ⟨hprog, hlow1, _⟩ := setters_run host programSource info rt dts bundles hlen hops
      ((normalizeGenomeProgram host programSource).length - 1)
    have hstate := hlow1 (by omega)
    have hexec : (runContexts host
        (tickContexts dts bundles ((normalizeGenomeProgram host programSource).length - 1))
        (setProgram host programSource info rt)).Executes
        { tick := some (((normalizeGenomeProgram host programSource).length - 1 : ℕ) : ℤ),
          dt := dts ((normalizeGenomeProgram host programSource).length - 1),
          bundle := bundles ((normalizeGenomeProgram host programSource).length - 1) }
        { op := op, args := [.finite v] } := by
      refine ⟨?_, ?_, ?_, ?_⟩
      · rw [hstate]
        simp only [Option.getD_some]
        omega
      · rw [hstate]
      · rw [hstate]
        exact Int.natCast_nonneg _
      · rw [hprog, hstate]
        exact hlast
    obtain ⟨b2, h1, h2, h3⟩ := genomeTick_setter_record host _ _ b v op hb hexec hv0 hv1 hgate
    exact ⟨v, b2, rfl, h1, h2, h3⟩

theorem setters_fall_off_the_end_witness :
    1 ≤ (normalizeGenomeProgram basicHost exploreProgram).length ∧
      (∀ instruction ∈ normalizeGenomeProgram basicHost exploreProgram,
        instruction.op = .SET_EXPLORE ∨ instruction.op = .SET_BOND_THRESHOLD) ∧
      ((runContexts basicHost
          (tickContexts (fun _ => .num (.finite 1)) (fun _ => some liveRecord) 5)
          (setProgram basicHost exploreProgram noInfo (freshRuntime defaultInfo))).state.ip =
            ((normalizeGenomeProgram basicHost exploreProgram).length : ℤ) ∧
        (runContexts basicHost
          (tickContexts (fun _ => .num (.finite 1)) (fun _ => some liveRecord) 5)
          (setProgram basicHost exploreProgram noInfo (freshRuntime defaultInfo))).state.halted =
            true) :=
  ⟨by decide, by decide,
    (setters_fall_off_the_end basicHost exploreProgram noInfo (freshRuntime defaultInfo)
      (fun _ => .num (.finite 1)) (fun _ => some liveRecord) 5 (by decide) (by decide)).2.1
      (by decide)⟩


/-! ## Genome VM: staging and liveness -/

theorem execInstruction_sameStaging (host : JsHost) (b1 b2 : Bundle)
    (hh : b1.hunger = b2.hunger) (hc : b1.chi = b2.chi) (instruction : Instruction)
    (nextIp : JsNum) (u : BiasUpdates) :
    execInstruction host (some b1) instruction nextIp u =
      execInstruction host (some b2) instruction nextIp u := by
  unfold execInstruction
  simp only [hh, hc]

theorem commit_closes_gate (ctx1 ctx2 : TickContext) (rt : GenomeRuntime)
    (ht : ctx1.tick = ctx2.tick) :
    (commit ctx1 rt).1 =
      (commit ctx2 { rt with buffer := { rt.buffer with canMutate := false } }).1 := by
  simp only [commit, ht]

theorem compute_sameStaging (host : JsHost) (c1 c2 : TickContext) (rt : GenomeRuntime)
    (h : sameStaging c1 c2) :
    ({ compute host c1 rt with
        buffer := { (compute host c1 rt).buffer with canMutate := false } } : GenomeRuntime) =
      { compute host c2 rt with
        buffer := { (compute host c2 rt).buffer with canMutate := false } } := by
  obtain ⟨t1, dt1, b1⟩ := c1
  obtain ⟨t2, dt2, b2⟩ := c2
  obtain ⟨ht, hb⟩ := h
  simp only at ht hb
  subst ht
  cases b1 with
  | none =>
    cases b2 with
    | none => rfl
    | some r2 => simp at hb
  | some r1 =>
    cases b2 with
    | none => simp at hb
    | some r2 =>
      simp only [Option.map_some', Option.some.injEq, Prod.mk.injEq] at hb
      have hstep := execInstruction_sameStaging host r1 r2 hb.1 hb.2
      simp only [compute]
      split_ifs
      · rfl
      · rfl
      · rfl
      · rfl
      · split
        · rfl
        · simp only [hstep]

theorem genomeTick_sameStaging (host : JsHost) (c1 c2 : TickContext) (rt : GenomeRuntime)
    (h : sameStaging c1 c2) : (genomeTick host c1 rt).1 = (genomeTick host c2 rt).1 := by
  have hcap : capture c1 rt = capture c2 rt := rfl
  simp only [genomeTick]
  rw [commit_closes_gate c1 c2 _ h.1, commit_closes_gate c2 c2 (compute host c2 _) rfl,
    compute_sameStaging host c1 c2 (capture c1 rt) h, hcap]

theorem genomeTick_record_frame (host : JsHost) (ctx : TickContext) (rt : GenomeRuntime)
    (b : Bundle) (hb : ctx.bundle = some b) :
    ∃ b2 : Bundle, (genomeTick host ctx rt).2 = some b2 ∧ b2.alive = b.alive ∧
      b2.hunger = b.hunger ∧ b2.chi = b.chi ∧ b2.rest = b.rest := by
  refine ⟨commitBundle (compute host ctx (capture ctx rt)).buffer b, ?_, rfl, rfl, rfl, rfl⟩
  simp only [genomeTick, commit, hb, Option.map_some']

/-- C31: staging occurs independently of liveness. Two runs of the Genome VM from the same
runtime whose contexts carry, tick by tick, the same tick index and records with the same
hunger and chi, whatever the `alive` flags and bias maps of the records, produce the same
sequence of ip, halted flag, executed instruction and staged bias updates, and end in the
same runtime; a tick changes no field of its record other than `interpretation_bias`. -/
theorem staging_independent_of_liveness (host : JsHost) (rt : GenomeRuntime)
    (ctxs1 ctxs2 : List TickContext) (h : List.Forall₂ sameStaging ctxs1 ctxs2) :
    stagingTrace host ctxs1 rt = stagingTrace host ctxs2 rt ∧
      runContexts host ctxs1 rt = runContexts host ctxs2 rt ∧
      (∀ (ctx : TickContext) (r : GenomeRuntime) (b : Bundle), ctx.bundle = some b →
        ∃ b2 : Bundle, (genomeTick host ctx r).2 = some b2 ∧ b2.alive = b.alive ∧
          b2.hunger = b.hunger ∧ b2.chi = b.chi ∧ b2.rest = b.rest) := by
  refine ⟨?_, ?_, fun ctx r b hb => genomeTick_record_frame host ctx r b hb⟩
  · induction h generalizing rt with
    | nil => rfl
    | cons hc _ ih =>
      simp only [stagingTrace]
      rw [genomeTick_sameStaging host _ _ rt hc, ih]
  · induction h generalizing rt with
    | nil => rfl
    | cons hc _ ih =>
      simp only [runContexts]
      rw [genomeTick_sameStaging host _ _ rt hc, ih]

theorem staging_independent_of_liveness_witness :
    List.Forall₂ sameStaging
        [{ tick := some 0, dt := .num (.finite 1), bundle := some liveRecord },
          { tick := some 1, dt := .num (.finite 1), bundle := some liveRecord }]
        [{ tick := some 0, dt := .num (.finite 1), bundle := some deadRecord },
          { tick := some 1, dt := .num (.finite 1), bundle := some deadRecord }] ∧
      liveRecord.alive = .bool true ∧ deadRecord.alive = .bool false ∧
      stagingTrace basicHost
          [{ tick := some 0, dt := .num (.finite 1), bundle := some liveRecord },
            { tick := some 1, dt := .num (.finite 1), bundle := some liveRecord }]
          (createGenomeRuntime basicHost exploreProgram) =
        stagingTrace basicHost
          [{ tick := some 0, dt := .num (.finite 1), bundle := some deadRecord },
            { tick := some 1, dt := .num (.finite 1), bundle := some deadRecord }]
          (createGenomeRuntime basicHost exploreProgram) :=
  ⟨List.Forall₂.cons ⟨rfl, rfl⟩ (List.Forall₂.cons ⟨rfl, rfl⟩ List.Forall₂.nil), rfl, rfl,
    (staging_independent_of_liveness basicHost (createGenomeRuntime basicHost exploreProgram)
      [{ tick := some 0, dt := .num (.finite 1), bundle := some liveRecord },
        { tick := some 1, dt := .num (.finite 1), bundle := some liveRecord }]
      [{ tick := some 0, dt := .num (.finite 1), bundle := some deadRecord },
        { tick := some 1, dt := .num (.finite 1), bundle := some deadRecord }]
      (List.Forall₂.cons ⟨rfl, rfl⟩ (List.Forall₂.cons ⟨rfl, rfl⟩ List.Forall₂.nil))).1⟩


/-! ## Genome VM: the presets on concrete records -/

theorem genomeTick_at (host : JsHost) (ctx : TickContext) (rt : GenomeRuntime)
    (program : List Instruction) (ip last n : ℤ) (instruction : Instruction)
    (u : BiasUpdates)
    (hprog : rt.program = program)
    (hstate : rt.state = { ip := ip, halted := false, lastTick := last })
    (h0 : 0 ≤ ip) (hins : program[ip.toNat]? = some instruction)
    (hfresh : last ≠ ctx.tick.getD 0)
    (hstep : execInstruction host ctx.bundle instruction (.finite ((ip : ℚ) + 1))
      { distress := none, bond := none } = (.finite (n : ℚ), u))
    (hn : 0 ≤ n) (hin : n ≤ (program.length : ℤ) - 1) :
    (genomeTick host ctx rt).1.program = program ∧
      (genomeTick host ctx rt).1.state =
        { ip := n, halted := false, lastTick := ctx.tick.getD 0 } ∧
      (genomeTick host ctx rt).1.buffer.executed =
        some { index := ip, op := instruction.op, args := instruction.args } ∧
      (genomeTick host ctx rt).1.buffer.biasUpdates = u := by
  have hexec : rt.Executes ctx instruction := by
    refine ⟨?_, ?_, ?_, ?_⟩
    · rw [hstate]
      exact hfresh
    · rw [hstate]
    · rw [hstate]
      exact h0
    · rw [hprog, hstate]
      exact hins
  have hip : rt.state.ip = ip := by rw [hstate]
  have hnext : (execInstruction host ctx.bundle instruction (.finite ((rt.state.ip : ℚ) + 1))
      { distress := none, bond := none }).1 = .finite (n : ℚ) := by
    rw [hip, hstep]
  obtain ⟨hs, hp, he, hu⟩ := genomeTick_step host ctx rt instruction n hexec hnext hn
  refine ⟨hp.trans hprog, ?_, ?_, ?_⟩
  · rw [hs, hprog]
    have hd : decide ((program.length : ℤ) - 1 < n) = false := by
      simp only [decide_eq_false_iff_not, not_lt]
      exact hin
    rw [hd]
  · rw [he, hip]
  · rw [hu, hip, hstep]

theorem hunger_of_recordWith (host : JsHost) (hunger chi : ℚ) (h0 : 0 ≤ hunger)
    (h1 : hunger ≤ 1) :
    clamp01 (.finite (toFiniteNumber host (recordWith hunger chi).hunger 0)) = hunger := by
  simp only [recordWith, toFiniteNumber_finite, clamp01]
  exact clamp_of_mem _ _ _ h0 h1

theorem chi_of_recordWith (hunger chi : ℚ) (h0 : 0 ≤ chi) (h1 : chi ≤ 60) :
    clamp (asNumber (nullish (recordWith hunger chi).chi (.num (.finite 0)))) 0
      MAX_CHI_THRESHOLD = chi := by
  have hmax : MAX_CHI_THRESHOLD = 60 := by norm_num [MAX_CHI_THRESHOLD, startChi]
  simp only [recordWith, nullish, asNumber, hmax]
  exact clamp_of_mem _ _ _ h0 h1

/-- C33 (failing input): the preset `hunger-loop` run for four ticks against a live record
with hunger 1. The check at ip 1 observes hunger above 0.6 and jumps to ip 3; the next tick
executes `GOTO(1)` and stages no bias update, and the tick after it is the next check at
ip 1: no `SET_EXPLORE` is executed between the two checks. -/
theorem hunger_loop_stages_no_explore_when_hungry :
    stagingTrace basicHost
        (tickContexts (fun _ => .num (.finite 1)) (fun _ => some (recordWith 1 0)) 4)
        (createGenomeRuntime basicHost hungerLoopPreset) =
      [{ ip := 1, halted := false,
         executed := some { index := 0, op := .SET_EXPLORE, args := [.finite (1 / 4)] },
         biasUpdates := { distress := some (.finite (1 / 4)), bond := none } },
       { ip := 3, halted := false,
         executed := some { index := 1, op := .IF_HUNGER_GT, args := [.finite (3 / 5), .finite 3] },
         biasUpdates := { distress := none, bond := none } },
       { ip := 1, halted := false,
         executed := some { index := 3, op := .GOTO, args := [.finite 1] },
         biasUpdates := { distress := none, bond := none } },
       { ip := 3, halted := false,
         executed := some { index := 1, op := .IF_HUNGER_GT, args := [.finite (3 / 5), .finite 3] },
         biasUpdates := { distress := none, bond := none } }] := by
  have hp0 : (createGenomeRuntime basicHost hungerLoopPreset).program = hungerLoopProgram := by
    simp only [createGenomeRuntime, hungerLoopPreset, JsVal.truthy, if_true]
    exact hungerLoop_normalized basicHost
  have hs0 : (createGenomeRuntime basicHost hungerLoopPreset).state =
      { ip := 0, halted := false, lastTick := -1 } := by
    simp only [createGenomeRuntime, hungerLoopPreset, JsVal.truthy, if_true, setProgram]
    rw [show normalizeGenomeProgram basicHost (JsVal.arr _) = hungerLoopProgram from
      hungerLoop_normalized basicHost]
    rfl
  have hh := hunger_of_recordWith basicHost 1 0 (by norm_num) (by norm_num)
  obtain ⟨hp1, hs1, he1, hu1⟩ := genomeTick_at basicHost
    { tick := some ((0 : ℕ) : ℤ), dt := .num (.finite 1), bundle := some (recordWith 1 0) }
    (createGenomeRuntime basicHost hungerLoopPreset) hungerLoopProgram 0 (-1) 1
    { op := .SET_EXPLORE, args := [.finite (1 / 4)] }
    { distress := some (.finite (1 / 4)), bond := none } hp0 hs0 (le_refl _) rfl (by decide)
    (by simp [execInstruction, clamp01, clamp]; norm_num) (by norm_num) (by decide)
  obtain ⟨hp2, hs2, he2, hu2⟩ := genomeTick_at basicHost
    { tick := some ((1 : ℕ) : ℤ), dt := .num (.finite 1), bundle := some (recordWith 1 0) }
    _ hungerLoopProgram 1 _ 3
    { op := .IF_HUNGER_GT, args := [.finite (3 / 5), .finite 3] }
    { distress := none, bond := none } hp1 hs1 (by norm_num) rfl (by decide)
    (by simp [execInstruction, hh, JsNum.lt]; norm_num) (by norm_num) (by decide)
  obtain ⟨hp3, hs3, he3, hu3⟩ := genomeTick_at basicHost
    { tick := some ((2 : ℕ) : ℤ), dt := .num (.finite 1), bundle := some (recordWith 1 0) }
    _ hungerLoopProgram 3 _ 1
    { op := .GOTO, args := [.finite 1] }
    { distress := none, bond := none } hp2 hs2 (by norm_num) rfl (by decide)
    (by simp [execInstruction]) (by norm_num) (by decide)
  obtain ⟨_, hs4, he4, hu4⟩ := genomeTick_at basicHost
    { tick := some ((3 : ℕ) : ℤ), dt := .num (.finite 1), bundle := some (recordWith 1 0) }
    _ hungerLoopProgram 1 _ 3
    { op := .IF_HUNGER_GT, args := [.finite (3 / 5), .finite 3] }
    { distress := none, bond := none } hp3 hs3 (by norm_num) rfl (by decide)
    (by simp [execInstruction, hh, JsNum.lt]; norm_num) (by norm_num) (by decide)
  have hctx : tickContexts (fun _ => JsVal.num (.finite 1)) (fun _ => some (recordWith 1 0)) 4 =
      [{ tick := some ((0 : ℕ) : ℤ), dt := .num (.finite 1), bundle := some (recordWith 1 0) },
        { tick := some ((1 : ℕ) : ℤ), dt := .num (.finite 1), bundle := some (recordWith 1 0) },
        { tick := some ((2 : ℕ) : ℤ), dt := .num (.finite 1), bundle := some (recordWith 1 0) },
        { tick := some ((3 : ℕ) : ℤ), dt := .num (.finite 1), bundle := some (recordWith 1 0) }] :=
    rfl
  rw [hctx]
  simp only [stagingTrace]
  rw [hs1, he1, hu1, hs2, he2, hu2, hs3, he3, hu3, hs4, he4, hu4]

/-- C32 (failing input): the preset `chi-branch` run for three ticks against a live record.
With chi 0, below 8, the check at ip 1 jumps to ip 3 and the next tick executes
`SET_BOND_THRESHOLD(0.2)`; with chi 10, recovered, the check falls through to ip 2 and the
next tick executes `GOTO(0)`: the bond threshold is lowered on the pass that observed the
low chi and not on the pass that observed the recovered chi. -/
theorem chi_branch_lowers_bond_while_chi_is_low :
    stagingTrace basicHost
        (tickContexts (fun _ => .num (.finite 1)) (fun _ => some (recordWith 0 0)) 3)
        (createGenomeRuntime basicHost chiBranchPreset) =
      [{ ip := 1, halted := false,
         executed := some { index := 0, op := .SET_EXPLORE, args := [.finite (4 / 5)] },
         biasUpdates := { distress := some (.finite (4 / 5)), bond := none } },
       { ip := 3, halted := false,
         executed := some { index := 1, op := .IF_CHI_LT, args := [.finite 8, .finite 3] },
         biasUpdates := { distress := none, bond := none } },
       { ip := 4, halted := false,
         executed := some { index := 3, op := .SET_BOND_THRESHOLD, args := [.finite (1 / 5)] },
         biasUpdates := { distress := none, bond := some (.finite (roundDouble (1 - 1 / 5))) } }] ∧
      stagingTrace basicHost
        (tickContexts (fun _ => .num (.finite 1)) (fun _ => some (recordWith 0 10)) 3)
        (createGenomeRuntime basicHost chiBranchPreset) =
      [{ ip := 1, halted := false,
         executed := some { index := 0, op := .SET_EXPLORE, args := [.finite (4 / 5)] },
         biasUpdates := { distress := some (.finite (4 / 5)), bond := none } },
       { ip := 2, halted := false,
         executed := some { index := 1, op := .IF_CHI_LT, args := [.finite 8, .finite 3] },
         biasUpdates := { distress := none, bond := none } },
       { ip := 0, halted := false,
         executed := some { index := 2, op := .GOTO, args := [.finite 0] },
         biasUpdates := { distress := none, bond := none } }] := by
  have hp0 : (createGenomeRuntime basicHost chiBranchPreset).program = chiBranchProgram := by
    simp only [createGenomeRuntime, chiBranchPreset, JsVal.truthy, if_true]
    exact chiBranch_normalized basicHost
  have hs0 : (createGenomeRuntime basicHost chiBranchPreset).state =
      { ip := 0, halted := false, lastTick := -1 } := by
    simp only [createGenomeRuntime, chiBranchPreset, JsVal.truthy, if_true, setProgram]
    rw [show normalizeGenomeProgram basicHost (JsVal.arr _) = chiBranchProgram from
      chiBranch_normalized basicHost]
    rfl
  have hr := roundDouble_unit (q := 4 / 5) (by norm_num) (by norm_num)
  have hr0 : ¬ roundDouble (4 / 5) < 0 := not_lt.mpr hr.1
  have hr1 : ¬ 1 < roundDouble (4 / 5) := not_lt.mpr hr.2
  constructor
  · have hc := chi_of_recordWith 0 0 (le_refl _) (by norm_num)
    obtain ⟨hp1, hs1, he1, hu1⟩ := genomeTick_at basicHost
      { tick := some ((0 : ℕ) : ℤ), dt := .num (.finite 1), bundle := some (recordWith 0 0) }
      (createGenomeRuntime basicHost chiBranchPreset) chiBranchProgram 0 (-1) 1
      { op := .SET_EXPLORE, args := [.finite (4 / 5)] }
      { distress := some (.finite (4 / 5)), bond := none } hp0 hs0 (le_refl _) rfl (by decide)
      (by simp [execInstruction, clamp01, clamp]; norm_num) (by norm_num) (by decide)
    obtain ⟨hp2, hs2, he2, hu2⟩ := genomeTick_at basicHost
      { tick := some ((1 : ℕ) : ℤ), dt := .num (.finite 1), bundle := some (recordWith 0 0) }
      _ chiBranchProgram 1 _ 3
      { op := .IF_CHI_LT, args := [.finite 8, .finite 3] }
      { distress := none, bond := none } hp1 hs1 (by norm_num) rfl (by decide)
      (by simp [execInstruction, hc, JsNum.lt]) (by norm_num) (by decide)
    obtain ⟨_, hs3, he3, hu3⟩ := genomeTick_at basicHost
      { tick := some ((2 : ℕ) : ℤ), dt := .num (.finite 1), bundle := some (recordWith 0 0) }
      _ chiBranchProgram 3 _ 4
      { op := .SET_BOND_THRESHOLD, args := [.finite (1 / 5)] }
      { distress := none, bond := some (.finite (roundDouble (1 - 1 / 5))) } hp2 hs2
      (by norm_num) rfl (by decide)
      (by simp [execInstruction, clamp01, clamp]; norm_num [hr0, hr1]) (by norm_num) (by decide)
    have hctx : tickContexts (fun _ => JsVal.num (.finite 1)) (fun _ => some (recordWith 0 0)) 3 =
        [{ tick := some ((0 : ℕ) : ℤ), dt := .num (.finite 1), bundle := some (recordWith 0 0) },
          { tick := some ((1 : ℕ) : ℤ), dt := .num (.finite 1), bundle := some (recordWith 0 0) },
          { tick := some ((2 : ℕ) : ℤ), dt := .num (.finite 1), bundle := some (recordWith 0 0) }] :=
      rfl
    rw [hctx]
    simp only [stagingTrace]
    rw [hs1, he1, hu1, hs2, he2, hu2, hs3, he3, hu3]
  · have hc := chi_of_recordWith 0 10 (by norm_num) (by norm_num)
    obtain ⟨hp1, hs1, he1, hu1⟩ := genomeTick_at basicHost
      { tick := some ((0 : ℕ) : ℤ), dt := .num (.finite 1), bundle := some (recordWith 0 10) }
      (createGenomeRuntime basicHost chiBranchPreset) chiBranchProgram 0 (-1) 1
      { op := .SET_EXPLORE, args := [.finite (4 / 5)] }
      { distress := some (.finite (4 / 5)), bond := none } hp0 hs0 (le_refl _) rfl (by decide)
      (by simp [execInstruction, clamp01, clamp]; norm_num) (by norm_num) (by decide)
    obtain ⟨hp2, hs2, he2, hu2⟩ := genomeTick_at basicHost
      { tick := some ((1 : ℕ) : ℤ), dt := .num (.finite 1), bundle := some (recordWith 0 10) }
      _ chiBranchProgram 1 _ 2
      { op := .IF_CHI_LT, args := [.finite 8, .finite 3] }
      { distress := none, bond := none } hp1 hs1 (by norm_num) rfl (by decide)
      (by simp [execInstruction, hc, JsNum.lt]; norm_num) (by norm_num) (by decide)
    obtain ⟨_, hs3, he3, hu3⟩ := genomeTick_at basicHost
      { tick := some ((2 : ℕ) : ℤ), dt := .num (.finite 1), bundle := some (recordWith 0 10) }
      _ chiBranchProgram 2 _ 0
      { op := .GOTO, args := [.finite 0] }
      { distress := none, bond := none } hp2 hs2 (by norm_num) rfl (by decide)
      (by simp [execInstruction]) (le_refl _) (by decide)
    have hctx : tickContexts (fun _ => JsVal.num (.finite 1)) (fun _ => some (recordWith 0 10)) 3 =
        [{ tick := some ((0 : ℕ) : ℤ), dt := .num (.finite 1), bundle := some (recordWith 0 10) },
          { tick := some ((1 : ℕ) : ℤ), dt := .num (.finite 1), bundle := some (recordWith 0 10) },
          { tick := some ((2 : ℕ) : ℤ), dt := .num (.finite 1), bundle := some (recordWith 0 10) }] :=
      rfl
    rw [hctx]
    simp only [stagingTrace]
    rw [hs1, he1, hu1, hs2, he2, hu2, hs3, he3, hu3]


/-! ## Program initializers: the generated program is normalized -/

theorem randomTarget_final (r : ℚ) (lastIndex : ℤ) (hr0 : 0 ≤ r) (hr1 : r < 1)
    (hlast : 0 ≤ lastIndex) :
    clampIndex (.finite ((⌊r * ((lastIndex : ℚ) + 1)⌋ : ℤ) : ℚ)) lastIndex =
      ⌊r * ((lastIndex : ℚ) + 1)⌋ := by
  have hcast : ((lastIndex : ℚ) + 1) = ((lastIndex + 1 : ℤ) : ℚ) := by push_cast; rfl
  obtain ⟨h0, h1⟩ := floor_mul_range r (lastIndex + 1) hr0 hr1 (by omega)
  rw [hcast]
  exact clampIndex_of_mem _ _ h0 (by omega)

theorem randomInstruction_final (host : JsHost) (pool : List Opcode) (lastIndex : ℤ) (a : ℕ)
    (hlast : 0 ≤ lastIndex) :
    finalizeArgs (randomInstruction pool lastIndex a).1.op
        (prepareArgs host (randomInstruction pool lastIndex a).1.op
          ((randomInstruction pool lastIndex a).1.args.map JsVal.num)) lastIndex =
      (randomInstruction pool lastIndex a).1.args := by
  have hunit : ∀ s : ℕ, clamp (.finite (mulberry32 s).2) 0 1 = (mulberry32 s).2 := fun s =>
    clamp_of_mem _ _ _ (mulberry32_range s).1 (le_of_lt (mulberry32_range s).2)
  have hchi : ∀ s : ℕ, clamp (.finite ((mulberry32 s).2 * MAX_CHI_THRESHOLD)) 0
      MAX_CHI_THRESHOLD = (mulberry32 s).2 * MAX_CHI_THRESHOLD := fun s =>
    clamp_of_mem _ _ _ (mul_nonneg (mulberry32_range s).1 MAX_CHI_THRESHOLD_nonneg)
      (by
        have h1 := (mulberry32_range s).2
        have h2 := MAX_CHI_THRESHOLD_nonneg
        nlinarith)
  have htarget : ∀ s : ℕ,
      clampIndex (.finite ((⌊(mulberry32 s).2 * ((lastIndex : ℚ) + 1)⌋ : ℤ) : ℚ)) lastIndex =
        ⌊(mulberry32 s).2 * ((lastIndex : ℚ) + 1)⌋ := fun s =>
    randomTarget_final _ _ (mulberry32_range s).1 (mulberry32_range s).2 hlast
  unfold randomInstruction
  simp only
  split <;>
    simp only [finalizeArgs, prepareArgs, List.map_cons, List.map_nil, elemAt, numAt,
      List.getD_cons_zero, List.getD_cons_succ, toFiniteNumber_finite, clamp01, hunit, hchi,
      htarget]

theorem randomLoop_final (host : JsHost) (pool : List Opcode) (lastIndex : ℤ) (n a : ℕ)
    (hlast : 0 ≤ lastIndex) (instruction : Instruction)
    (h : instruction ∈ randomLoop pool lastIndex n a) :
    finalizeArgs instruction.op
        (prepareArgs host instruction.op (instruction.args.map JsVal.num)) lastIndex =
      instruction.args := by
  induction n generalizing a with
  | zero => simp [randomLoop] at h
  | succ n ih =>
    simp only [randomLoop, List.mem_cons] at h
    rcases h with h | h
    · rw [h]
      exact randomInstruction_final host pool lastIndex a hlast
    · exact ih _ h

/-- C37: for every seed and all options, the program returned by `genomeRandomInitializer`
is already normalized: `normalizeGenomeProgram` applied to it returns the same list of
instructions, with the same opcodes and the same arguments, and `applyInitializer`
installs the program as it was generated. -/
theorem genomeRandomInitializer_normalized (host : JsHost) (mixSeed : JsVal → ℕ → ℕ)
    (options : RandomOptions) (rt : GenomeRuntime) :
    normalizeGenomeProgram host
        (programToRaw (genomeRandomInitializer mixSeed options).program) =
        (genomeRandomInitializer mixSeed options).program ∧
      (applyInitializer host (genomeRandomInitializer mixSeed options) rt).program =
        (genomeRandomInitializer mixSeed options).program := by
  have hnorm : normalizeGenomeProgram host
      (programToRaw (genomeRandomInitializer mixSeed options).program) =
      (genomeRandomInitializer mixSeed options).program := by
    apply normalize_programToRaw
    intro instruction hmem
    have hpos : 0 < (genomeRandomInitializer mixSeed options).program.length :=
      List.length_pos_of_mem hmem
    simp only [genomeRandomInitializer, randomLoop_length] at hmem hpos ⊢
    have hlast : ∀ length : ℤ, 0 < length.toNat →
        ((length.toNat : ℤ) - 1) = max 0 (length - 1) := by
      intro length h
      omega
    rw [hlast _ hpos]
    exact randomLoop_final host _ _ _ _ (le_max_left _ _) instruction hmem
  exact ⟨hnorm, hnorm⟩


/-! ## Overlay store: the entries returned -/

theorem truncateEntries_take (m : ℕ) (entries : List OverlayEntry) :
    truncateEntries (.finite (m : ℚ)) entries = entries.take m := by
  unfold truncateEntries
  simp only [JsNum.lt, decide_eq_true_eq, Int.floor_natCast, Int.toNat_ofNat]
  split_ifs with h
  · rfl
  · have h1 : entries.length ≤ m := by
      have := not_lt.mp h
      exact_mod_cast this
    exact (List.take_of_length_le h1).symm

theorem recordSnapshot_stored (entry : OverlayEntry) (now : JsVal) (s : OverlayStore) (m : ℕ)
    (hen : s.enabled = true) (hmax : s.maxEntries = .finite (m : ℚ))
    (htype : entry.type.truthy = true) :
    s.recordSnapshot entry now =
      { s with entries := (storedEntry entry now :: s.entries).take m } := by
  simp only [OverlayStore.recordSnapshot, hen, htype, hmax, Bool.not_true, Bool.false_eq_true,
    if_false, truncateEntries_take, storedEntry]

theorem recordSnapshot_untyped (entry : OverlayEntry) (now : JsVal) (s : OverlayStore)
    (htype : entry.type.truthy = false) : s.recordSnapshot entry now = s := by
  simp [OverlayStore.recordSnapshot, htype]

theorem recordSnapshot_disabled (entry : OverlayEntry) (now : JsVal) (s : OverlayStore)
    (hen : s.enabled = false) : s.recordSnapshot entry now = s := by
  simp [OverlayStore.recordSnapshot, hen]

theorem take_append_take {α : Type} (m : ℕ) (l1 l2 : List α) :
    (l1 ++ l2.take m).take m = (l1 ++ l2).take m := by
  rw [List.take_append_eq_append_take, List.take_append_eq_append_take, List.take_take]
  congr 2
  omega

theorem recordAll_entries (host : JsHost) (records : List (OverlayEntry × JsVal))
    (s : OverlayStore) (m : ℕ)
    (hen : s.enabled = true) (hmax : s.maxEntries = .finite (m : ℚ))
    (hold : s.entries.length ≤ m) :
    (overlayCalls host (recordAll records) s).entries =
      ((((records.filter fun r => r.1.type.truthy).map fun r => storedEntry r.1 r.2).reverse) ++
        s.entries).take m := by
  induction records generalizing s with
  | nil =>
    simp only [recordAll, List.map_nil, overlayCalls, List.filter_nil, List.reverse_nil,
      List.nil_append]
    exact (List.take_of_length_le hold).symm
  | cons r rest ih =>
    simp only [recordAll, List.map_cons, overlayCalls] at ih ⊢
    cases htype : r.1.type.truthy with
    | false =>
      rw [recordSnapshot_untyped _ _ _ htype, ih s hen hmax hold]
      simp [List.filter_cons, htype]
    | true =>
      rw [recordSnapshot_stored _ _ _ m hen hmax htype]
      rw [ih { s with entries := (storedEntry r.1 r.2 :: s.entries).take m } hen hmax
        (by simp only [List.length_take]; omega)]
      simp only [List.filter_cons, htype, if_true, List.map_cons, List.reverse_cons,
        List.append_assoc, List.singleton_append]
      exact take_append_take m _ _

/-- C38: while the overlay store is enabled with the fixed `maxEntries = m` and starts
without entries, after `recordSnapshot` calls for a list of entries `getEntries` returns
the stored forms of the most recent `min(k, m)` of the `k` entries whose `type` is truthy,
newest first; a call with an entry whose `type` is falsy, and any call while the store is
disabled, leaves the store as it was. -/
theorem overlay_getEntries_newest_first (host : JsHost) (s : OverlayStore) (m : ℕ)
    (records : List (OverlayEntry × JsVal))
    (hen : s.enabled = true) (hmax : s.maxEntries = .finite (m : ℚ))
    (hempty : s.entries = []) :
    (overlayCalls host (recordAll records) s).getEntries =
        (((records.filter fun r => r.1.type.truthy).map fun r =>
          storedEntry r.1 r.2).reverse).take m ∧
      (overlayCalls host (recordAll records) s).getEntries.length =
        min (records.filter fun r => r.1.type.truthy).length m ∧
      (∀ (entry : OverlayEntry) (now : JsVal) (s1 : OverlayStore),
        entry.type.truthy = false → s1.recordSnapshot entry now = s1) ∧
      (∀ (entry : OverlayEntry) (now : JsVal) (s1 : OverlayStore),
        s1.enabled = false → s1.recordSnapshot entry now = s1) := by
  have h := recordAll_entries host records s m hen hmax (by rw [hempty]; exact Nat.zero_le _)
  rw [hempty, List.append_nil] at h
  refine ⟨h, ?_, fun entry now s1 ht => recordSnapshot_untyped entry now s1 ht,
    fun entry now s1 hd => recordSnapshot_disabled entry now s1 hd⟩
  simp only [OverlayStore.getEntries, h, List.length_take, List.length_reverse, List.length_map]
  exact Nat.min_comm _ _

theorem configure_enabled_two :
    (OverlayStore.initial.configure basicHost enabledOptions).enabled = true ∧
      (OverlayStore.initial.configure basicHost enabledOptions).maxEntries = .finite ((2 : ℕ) : ℚ) ∧
      (OverlayStore.initial.configure basicHost enabledOptions).entries = [] := by
  refine ⟨rfl, ?_, ?_⟩
  · simp [OverlayStore.configure, enabledOptions, normalizeMaxEntries, JsVal.or, JsVal.truthy,
      JsNum.truthy, jsNumber, JsNum.floor, mathMaxOne]
  · simp only [OverlayStore.configure, enabledOptions, OverlayStore.initial, truncateEntries]
    split_ifs
    · rfl
    · split
      · exact List.take_nil
      · rfl
    · rfl

theorem overlay_getEntries_newest_first_witness :
    (overlayCalls basicHost
        (recordAll [(sampleEntry "a" 1, .num (.finite 10)),
          ({ sampleEntry "" 2 with type := .undefined }, .num (.finite 11)),
          (sampleEntry "b" 3, .num (.finite 12)), (sampleEntry "c" 4, .num (.finite 13))])
        (OverlayStore.initial.configure basicHost enabledOptions)).getEntries =
      (((([(sampleEntry "a" 1, JsVal.num (.finite 10)),
          ({ sampleEntry "" 2 with type := .undefined }, .num (.finite 11)),
          (sampleEntry "b" 3, .num (.finite 12)), (sampleEntry "c" 4, .num (.finite 13))] :
            List (OverlayEntry × JsVal)).filter
              fun r => r.1.type.truthy).map fun r => storedEntry r.1 r.2).reverse).take 2 :=
  (overlay_getEntries_newest_first basicHost
    (OverlayStore.initial.configure basicHost enabledOptions) 2 _
    configure_enabled_two.1 configure_enabled_two.2.1 configure_enabled_two.2.2).1


/-! ## Genome VM: the values commit writes -/

theorem applyBiasUpdates_distress (updates : BiasUpdates) (bias : BiasMap) :
    (applyBiasUpdates updates bias).distress = bias.distress ∨
      ∃ q : ℚ, (applyBiasUpdates updates bias).distress = some (.num (.finite q)) ∧
        0 ≤ q ∧ q ≤ 1 := by
  unfold applyBiasUpdates
  cases hd : updates.distress with
  | none => cases hb : updates.bond <;> simp
  | some d =>
    right
    refine ⟨clamp01 d, ?_, (clamp01_bounds d).1, (clamp01_bounds d).2⟩
    cases hb : updates.bond <;> simp

theorem applyBiasUpdates_bond (updates : BiasUpdates) (bias : BiasMap) :
    (applyBiasUpdates updates bias).bond = bias.bond ∨
      ∃ q : ℚ, (applyBiasUpdates updates bias).bond = some (.num (.finite q)) ∧
        0 ≤ q ∧ q ≤ 1 := by
  unfold applyBiasUpdates
  cases hb : updates.bond with
  | none => cases hd : updates.distress <;> simp
  | some v =>
    right
    refine ⟨clamp01 v, ?_, (clamp01_bounds v).1, (clamp01_bounds v).2⟩
    cases hd : updates.distress <;> simp

theorem getD_emptyBias_distress (b : Bundle) :
    (b.interpretation_bias.getD emptyBias).distress = b.distress := by
  cases hib : b.interpretation_bias <;> simp [Bundle.distress, hib, emptyBias]

theorem getD_emptyBias_bond (b : Bundle) :
    (b.interpretation_bias.getD emptyBias).bond = b.bond := by
  cases hib : b.interpretation_bias <;> simp [Bundle.bond, hib, emptyBias]

theorem commitBundle_open (buffer : GenomeBuffer) (b : Bundle) (hgate : buffer.canMutate = true) :
    (commitBundle buffer b).distress =
        (applyBiasUpdates buffer.biasUpdates (b.interpretation_bias.getD emptyBias)).distress ∧
      (commitBundle buffer b).bond =
        (applyBiasUpdates buffer.biasUpdates (b.interpretation_bias.getD emptyBias)).bond := by
  simp [commitBundle, hgate, Bundle.distress, Bundle.bond]

/-- C39: every bias value that `commit` writes into the record lies in `[0, 1]`. For every
runtime, whatever its program and staging buffer, and every context, `commit` hands each
record to `commitBundle`, and for every buffer and record, after it the `distress` field
is as before or holds a number between 0 and 1, and likewise the `bond` field. -/
theorem commit_writes_unit_interval (ctx : TickContext) (rt : GenomeRuntime)
    (buffer : GenomeBuffer) (b : Bundle) :
    (commit ctx rt).2 = ctx.bundle.map (commitBundle rt.buffer) ∧
      ((commitBundle buffer b).distress = b.distress ∨
        ∃ q : ℚ, (commitBundle buffer b).distress = some (.num (.finite q)) ∧ 0 ≤ q ∧ q ≤ 1) ∧
      ((commitBundle buffer b).bond = b.bond ∨
        ∃ q : ℚ, (commitBundle buffer b).bond = some (.num (.finite q)) ∧ 0 ≤ q ∧ q ≤ 1) ∧
      (commitBundle buffer b).alive = b.alive ∧ (commitBundle buffer b).hunger = b.hunger ∧
      (commitBundle buffer b).chi = b.chi ∧ (commitBundle buffer b).rest = b.rest := by
  refine ⟨rfl, ?_, ?_, rfl, rfl, rfl, rfl⟩
  · cases hgate : buffer.canMutate with
    | false =>
      left
      rw [commitBundle_closed buffer b hgate]
      exact bias_getD_distress b
    | true =>
      rw [(commitBundle_open buffer b hgate).1, ← getD_emptyBias_distress b]
      exact applyBiasUpdates_distress _ _
  · cases hgate : buffer.canMutate with
    | false =>
      left
      rw [commitBundle_closed buffer b hgate]
      exact bias_getD_bond b
    | true =>
      rw [(commitBundle_open buffer b hgate).2, ← getD_emptyBias_bond b]
      exact applyBiasUpdates_bond _ _

/-! ## Runtime manager: the width and density of the spec -/

theorem buildRule110Spec_width (h : ManagerHost) (tcConfig : TcConfig) :
    8 ≤ (buildRule110Spec h tcConfig).width ∧ (buildRule110Spec h tcConfig).width ≤ 4096 := by
  simp only [buildRule110Spec]
  constructor
  · exact le_min (by norm_num) (le_max_left _ _)
  · exact min_le_left _ _

theorem registerRule110Stepper_width (h : ManagerHost) (spec : Rule110Spec)
    (stepper : Rule110Stepper) (hreg : registerRule110Stepper h spec = .ok stepper) :
    stepper.width = spec.width.toNat ∧ stepper.current.length = spec.width.toNat := by
  unfold registerRule110Stepper at hreg
  split at hreg
  · simp at hreg
  · simp only [Except.ok.injEq] at hreg
    subst hreg
    exact ⟨rfl, (createRule110Stepper_wellFormed _ _).1⟩
  · simp only [Except.ok.injEq] at hreg
    subst hreg
    exact ⟨rfl, (createRule110Stepper_wellFormed _ _).1⟩

/-- C40: for every runtime configuration, `buildRule110Spec` yields an integer width with
`8 <= width <= 4096` and a random density with `0 <= density <= 1`; every stepper that
`registerRule110Stepper` creates from the spec has that width, and after a call of
`applyTcRuntimeConfig` that returns, the active stepper is the one that was active before
the call or a new one whose width lies within `[8, 4096]`. -/
theorem buildRule110Spec_bounds (h : ManagerHost) (tcConfig : TcConfig)
    (registered : Except String Unit) (m : RuntimeManager) :
    8 ≤ (buildRule110Spec h tcConfig).width ∧ (buildRule110Spec h tcConfig).width ≤ 4096 ∧
      0 ≤ (buildRule110Spec h tcConfig).initializerOptions.density ∧
      (buildRule110Spec h tcConfig).initializerOptions.density ≤ 1 ∧
      (∀ stepper : Rule110Stepper,
        registerRule110Stepper h (buildRule110Spec h tcConfig) = .ok stepper →
          8 ≤ stepper.width ∧ stepper.width ≤ 4096 ∧ stepper.current.length = stepper.width ∧
            (stepper.width : ℤ) = (buildRule110Spec h tcConfig).width) ∧
      (∀ (m1 : RuntimeManager) (s : ManagedStepper),
        applyTcRuntimeConfig h tcConfig registered m = .ok m1 →
          getActiveRule110Stepper m1 = some s →
            m.stepper = some s ∨
              (s.id = m.nextId ∧ 8 ≤ s.stepper.width ∧ s.stepper.width ≤ 4096)) := by
  obtain ⟨hw0, hw1⟩ := buildRule110Spec_width h tcConfig
  have hreg : ∀ stepper : Rule110Stepper,
      registerRule110Stepper h (buildRule110Spec h tcConfig) = .ok stepper →
        8 ≤ stepper.width ∧ stepper.width ≤ 4096 ∧ stepper.current.length = stepper.width ∧
          (stepper.width : ℤ) = (buildRule110Spec h tcConfig).width := by
    intro stepper hs
    obtain ⟨a, b⟩ := registerRule110Stepper_width h _ stepper hs
    rw [a]
    exact ⟨by omega, by omega, b, by omega⟩
  refine ⟨hw0, hw1, ?_, ?_, hreg, ?_⟩
  · simp only [buildRule110Spec, managerClamp01, managerClamp]
    exact le_min (by norm_num) (le_max_left _ _)
  · simp only [buildRule110Spec, managerClamp01, managerClamp]
    exact min_le_left _ _
  · intro m1 s happly hactive
    unfold applyTcRuntimeConfig at happly
    simp only at happly
    split_ifs at happly with h1 h2
    · simp only [Except.ok.injEq] at happly
      subst happly
      simp [getActiveRule110Stepper, teardownRule110Runtime] at hactive
    · simp only [Except.ok.injEq] at happly
      subst happly
      left
      exact hactive
    · split at happly
      · simp at happly
      · rename_i stepper hst
        simp only [Except.ok.injEq] at happly
        subst happly
        simp only [getActiveRule110Stepper, Option.some.injEq] at hactive
        subst hactive
        right
        obtain ⟨a, b, _, _⟩ := hreg stepper hst
        exact ⟨rfl, a, b⟩

/-! ## Genome VM: the staged bond is a double -/

theorem bondProgram_normalized (host : JsHost) (t : ℚ) (ht0 : 0 ≤ t) (ht1 : t ≤ 1) :
    normalizeGenomeProgram host (bondProgram t) =
      [{ op := .SET_BOND_THRESHOLD, args := [.finite t] }] := by
  have hraw : bondProgram t =
      programToRaw [{ op := .SET_BOND_THRESHOLD, args := [.finite t] }] := by
    simp [bondProgram, programToRaw, Instruction.toRaw, Opcode.name]
  rw [hraw]
  apply normalize_programToRaw
  intro instruction hmem
  simp only [List.mem_singleton] at hmem
  subst hmem
  simp [finalizeArgs, prepareArgs, elemAt, numAt, toFiniteNumber, clamp01,
    clamp_of_mem _ _ _ ht0 ht1, JsNum.isFinite]

theorem bondProgram_executes (host : JsHost) (t : ℚ) (ht0 : 0 ≤ t) (ht1 : t ≤ 1)
    (ctx : TickContext) (htick : ctx.tick.getD 0 ≠ -1) :
    (createGenomeRuntime host (bondProgram t)).Executes ctx
      { op := .SET_BOND_THRESHOLD, args := [.finite t] } := by
  have hp := bondProgram_normalized host t ht0 ht1
  have hrt : createGenomeRuntime host (bondProgram t) =
      setProgram host (bondProgram t) noInfo (freshRuntime defaultInfo) := by
    simp [createGenomeRuntime, bondProgram, JsVal.truthy]
  rw [hrt]
  refine ⟨?_, ?_, ?_, ?_⟩
  · simp only [setProgram]
    exact fun h => htick h.symm
  · simp [setProgram, hp]
  · simp [setProgram]
  · simp [setProgram, hp]

/-- C14 (counterexample): a tick that executes `SET_BOND_THRESHOLD(2^-60)` against a live
record leaves `bond = 1` in the record, and not `1 - 2^-60`: the difference is rounded to
the nearest double. -/
theorem commit_writes_the_rounded_bond :
    (createGenomeRuntime basicHost (bondProgram (1 / 2 ^ 60))).Executes liveContext
        { op := .SET_BOND_THRESHOLD, args := [.finite (1 / 2 ^ 60)] } ∧
      ∃ b2 : Bundle,
        (genomeTick basicHost liveContext
          (createGenomeRuntime basicHost (bondProgram (1 / 2 ^ 60)))).2 = some b2 ∧
        b2.bond = some (.num (.finite 1)) ∧
        b2.bond ≠ some (.num (.finite (1 - 1 / 2 ^ 60))) := by
  have hexec := bondProgram_executes basicHost (1 / 2 ^ 60) (by norm_num) (by norm_num)
    liveContext (by decide)
  obtain ⟨b2, hb2, _, hbond⟩ := genomeTick_setter_record basicHost liveContext _ liveRecord
    (1 / 2 ^ 60) .SET_BOND_THRESHOLD rfl hexec (by norm_num) (by norm_num)
    (by simp [liveRecord])
  have hval := hbond rfl
  rw [roundDouble_near_one] at hval
  refine ⟨hexec, b2, hb2, hval, ?_⟩
  rw [hval]
  intro h
  have h1 : (1 : ℚ) = 1 - 1 / 2 ^ 60 := by
    injection h with h
    injection h with h
    injection h
  norm_num at h1

/-- C15 (counterexample): executing `SET_BOND_THRESHOLD(2^-60)`, `compute` stages
`bond = 1`, and not `1 - 2^-60`: the difference is rounded to the nearest double. -/
theorem compute_stages_the_rounded_bond :
    (createGenomeRuntime basicHost (bondProgram (1 / 2 ^ 60))).Executes firstTickContext
        { op := .SET_BOND_THRESHOLD, args := [.finite (1 / 2 ^ 60)] } ∧
      (compute basicHost firstTickContext
        (createGenomeRuntime basicHost (bondProgram (1 / 2 ^ 60)))).buffer.biasUpdates.bond =
        some (.finite 1) ∧
      (compute basicHost firstTickContext
        (createGenomeRuntime basicHost (bondProgram (1 / 2 ^ 60)))).buffer.biasUpdates.bond ≠
        some (.finite (1 - 1 / 2 ^ 60)) := by
  have hexec := bondProgram_executes basicHost (1 / 2 ^ 60) (by norm_num) (by norm_num)
    firstTickContext (by decide)
  have hval := compute_stages_bond basicHost firstTickContext _ (1 / 2 ^ 60) hexec
    (by norm_num) (by norm_num)
  rw [roundDouble_near_one] at hval
  refine ⟨hexec, hval, ?_⟩
  rw [hval]
  intro h
  have h1 : (1 : ℚ) = 1 - 1 / 2 ^ 60 := by
    injection h with h
    injection h
  norm_num at h1

end SlimeTC
